import Mathlib

/-!
# NextGenSaturation: the DSP engine of `Source/DspEngine.h`

A shallow embedding of `OnePoleFilter`, `HighPrecisionFilter` and
`SaturationCore`.  A C++ `double` is idealised as an element of a linearly
ordered field `α` (the theorems about limits and derivatives take `α = ℝ`);
the functions of `<cmath>` and the JUCE constants come from the class `Libm`.
Arithmetic is exact, with one exception: the hold period `rateDiv` of the
bitcrusher is compared with a counter that takes whole values only, so there the
rounding of the stored `double` decides which call refreshes the hold, and
`rateDiv` is the rounded value (`Libm.toDouble`).
Every method becomes a pure function that takes the object state and returns
the new state (and the returned sample, when there is one).
-/

set_option autoImplicit false

namespace DspEngine

/-! ## Numeric environment -/

/-- The functions of `<cmath>` and the constants of `juce::MathConstants<double>`
that the engine calls, and `toDouble`, the `double` in which the machine stores
the exact result of one arithmetic operation. -/
class Libm (α : Type) where
  exp : α → α
  log : α → α
  sinh : α → α
  cosh : α → α
  tanh : α → α
  sqrt : α → α
  sin : α → α
  cos : α → α
  pow : α → α → α
  round : α → α
  pi : α
  twoPi : α
  toDouble : α → α

/-- The integer nearest to `y`, the even one of the two when `y` lies halfway. -/
noncomputable def roundHalfEven (y : ℝ) : ℤ :=
  if y - ⌊y⌋ < 1 / 2 then ⌊y⌋
  else if 1 / 2 < y - ⌊y⌋ then ⌊y⌋ + 1
  else if Even ⌊y⌋ then ⌊y⌋ else ⌊y⌋ + 1

/-- IEEE 754 binary64 rounding to nearest, ties to even: `x` is rounded to a
multiple of `2 ^ (e - 52)` (a significand of 53 bits), where `e` is the binary
exponent of `x`, and `-1022` for the smaller `x` (the subnormal range).  The
overflow to infinity beyond the largest `double` is left out. -/
noncomputable def roundToDouble (x : ℝ) : ℝ :=
  let e := max (Int.log 2 |x|) (-1022)
  (roundHalfEven (x / (2 : ℝ) ^ (e - 52)) : ℝ) * (2 : ℝ) ^ (e - 52)

/-- The real-number reading of `<cmath>`: `std::round` rounds halfway cases away
from zero, `std::pow` is the real power. -/
noncomputable instance instLibmReal : Libm ℝ where
  exp := Real.exp
  log := Real.log
  sinh := Real.sinh
  cosh := Real.cosh
  tanh := Real.tanh
  sqrt := Real.sqrt
  sin := Real.sin
  cos := Real.cos
  pow := fun x y => x ^ y
  round := fun x => if 0 ≤ x then (⌊x + 1 / 2⌋ : ℝ) else -(⌊-x + 1 / 2⌋ : ℝ)
  pi := Real.pi
  twoPi := 2 * Real.pi
  toDouble := roundToDouble

section Defs

variable {α : Type} [LinearOrderedField α] [Libm α]

/-- JUCE `jlimit (lowerLimit, upperLimit, valueToConstrain)`. -/
def jlimit (lowerLimit upperLimit valueToConstrain : α) : α :=
  if valueToConstrain < lowerLimit then lowerLimit
  else if upperLimit < valueToConstrain then upperLimit
  else valueToConstrain

/-! ## 1. OnePoleFilter -/

/-- State of `OnePoleFilter`. -/
@[ext]
structure OnePoleFilter (α : Type) where
  z1 : α

namespace OnePoleFilter

/-- A freshly constructed filter: `double z1 = 0.0`. -/
def init : OnePoleFilter α := ⟨0⟩

/-- `OnePoleFilter::reset`. -/
def reset (_f : OnePoleFilter α) : OnePoleFilter α := ⟨0⟩

/-- `OnePoleFilter::processLP`: returns the output and the new state. -/
def processLP (f : OnePoleFilter α) (x freq sr : α) : α × OnePoleFilter α :=
  let b1 := 1 - Libm.exp (-Libm.twoPi * freq / sr)
  let z := f.z1 + b1 * (x - f.z1)
  (z, ⟨z⟩)

/-- `OnePoleFilter::processHP`. -/
def processHP (f : OnePoleFilter α) (x freq sr : α) : α × OnePoleFilter α :=
  let r := processLP f x freq sr
  (x - r.1, r.2)

end OnePoleFilter

/-! ## 1b. HighPrecisionFilter -/

/-- `HighPrecisionFilter::Type`. -/
inductive FType where
  | LowPass
  | HighPass
  deriving DecidableEq, Repr

/-- `HighPrecisionFilter::Slope`. -/
inductive Slope where
  | Slope6dB
  | Slope12dB
  | Slope24dB
  | Slope48dB
  deriving DecidableEq, Repr

/-- `juce::dsp::StateVariableTPTFilterType`, as far as `setParams` uses it. -/
inductive SVFType where
  | lowpass
  | highpass
  deriving DecidableEq, Repr

/-- `juce::dsp::ProcessSpec`. -/
@[ext]
structure ProcessSpec (α : Type) where
  sampleRate : α
  maximumBlockSize : Nat
  numChannels : Nat

/-- The methods of `juce::dsp::StateVariableTPTFilter<double>` that the engine
calls.  The class belongs to the JUCE library, so its state type `σ` and its
methods are parameters of the embedding. -/
structure StageOps (σ α : Type) where
  prepare : ProcessSpec α → σ → σ
  reset : σ → σ
  setType : SVFType → σ → σ
  setCutoffFrequency : α → σ → σ
  setResonance : α → σ → σ
  processSample : σ → α → α × σ

/-- State of `HighPrecisionFilter`: the private members in declaration order. -/
@[ext]
structure HighPrecisionFilter (σ α : Type) where
  spec : ProcessSpec α
  filters : Fin 4 → σ
  onePole : OnePoleFilter α
  currentSampleRate : α
  currentType : FType
  currentSlope : Slope
  currentFreq : α
  activeStages : Nat
  isBypassed : Bool

namespace HighPrecisionFilter

variable {σ : Type}

/-- A freshly constructed filter.  `spec` and the four JUCE stages have no
initialiser in the class, so their first values are arguments. -/
def init (spec0 : ProcessSpec α) (stage0 : Fin 4 → σ) : HighPrecisionFilter σ α where
  spec := spec0
  filters := stage0
  onePole := OnePoleFilter.init
  currentSampleRate := 44100.0
  currentType := FType.LowPass
  currentSlope := Slope.Slope12dB
  currentFreq := 1000.0
  activeStages := 1
  isBypassed := false

/-- `HighPrecisionFilter::prepare`. -/
def prepare (ops : StageOps σ α) (s : HighPrecisionFilter σ α) (sampleRate : α) :
    HighPrecisionFilter σ α :=
  let sp : ProcessSpec α := ⟨sampleRate, 4096, 1⟩
  { s with
    spec := sp
    onePole := s.onePole.reset
    filters := fun i => ops.reset (ops.prepare sp (s.filters i)) }

/-- `HighPrecisionFilter::reset`. -/
def reset (ops : StageOps σ α) (s : HighPrecisionFilter σ α) : HighPrecisionFilter σ α :=
  { s with
    onePole := s.onePole.reset
    filters := fun i => ops.reset (s.filters i) }

/-- The guard at the head of `setParams`: the request repeats the cached one. -/
def unchanged (s : HighPrecisionFilter σ α) (type : FType) (freq : α) (slope : Slope) : Bool :=
  decide (s.currentType = type) && decide (|s.currentFreq - freq| < 0.01)
    && decide (s.currentSlope = slope) && decide (s.spec.sampleRate = s.currentSampleRate)

/-- The bypass rule of `setParams`, lines 58 to 60. -/
def bypassRule (type : FType) (freq : α) : Bool :=
  let b0 := false
  let b1 := if type = FType.LowPass ∧ freq ≥ 19950.0 then true else b0
  if type = FType.HighPass ∧ freq ≤ 20.5 then true else b1

/-- The local `numStages` of `setParams`. -/
def numStages (slope : Slope) : Nat :=
  if slope = Slope.Slope12dB then 1
  else if slope = Slope.Slope24dB then 2
  else if slope = Slope.Slope48dB then 4
  else 1

/-- The local `q` of `setParams` for stage `i`. -/
def stageQ (slope : Slope) (i : Nat) : α :=
  if slope = Slope.Slope24dB then (if i = 0 then 0.5412 else 1.3066)
  else if slope = Slope.Slope48dB then
    (if i = 0 then 0.5098 else if i = 1 then 0.6013 else if i = 2 then 0.8999 else 2.5629)
  else 0.7071

/-- `HighPrecisionFilter::setParams`. -/
def setParams (ops : StageOps σ α) (s : HighPrecisionFilter σ α) (type : FType) (freq : α)
    (slope : Slope) : HighPrecisionFilter σ α :=
  if unchanged s type freq slope then s
  else
    let s1 : HighPrecisionFilter σ α :=
      { s with
        currentType := type
        currentFreq := freq
        currentSlope := slope
        currentSampleRate := s.spec.sampleRate
        isBypassed := bypassRule type freq }
    if s1.isBypassed then s1
    else if slope = Slope.Slope6dB then s1
    else
      let filterType := if type = FType.LowPass then SVFType.lowpass else SVFType.highpass
      let n := numStages slope
      { s1 with
        activeStages := n
        filters := fun i =>
          if i.val < n then
            ops.setResonance (stageQ slope i.val)
              (ops.setCutoffFrequency freq (ops.setType filterType (s1.filters i)))
          else s1.filters i }

/-- The stage loop of `process`: `for (i = 0; i < activeStages; ++i)`.  The array
`filters` has four elements; `activeStages` is only ever 1, 2 or 4, and an index
past the array is skipped here. -/
def runStages (ops : StageOps σ α) (n : Nat) (filters : Fin 4 → σ) (x : α) :
    α × (Fin 4 → σ) :=
  (List.range n).foldl
    (fun acc i =>
      if h : i < 4 then
        let r := ops.processSample (acc.2 ⟨i, h⟩) acc.1
        (r.1, Function.update acc.2 ⟨i, h⟩ r.2)
      else acc)
    (x, filters)

/-- `HighPrecisionFilter::process`: returns the output and the new state. -/
def process (ops : StageOps σ α) (s : HighPrecisionFilter σ α) (x : α) :
    α × HighPrecisionFilter σ α :=
  if s.isBypassed then (x, s)
  else if s.currentSlope = Slope.Slope6dB then
    if s.currentType = FType.LowPass then
      let r := s.onePole.processLP x s.currentFreq s.currentSampleRate
      (r.1, { s with onePole := r.2 })
    else
      let r := s.onePole.processHP x s.currentFreq s.currentSampleRate
      (r.1, { s with onePole := r.2 })
  else
    let r := runStages ops s.activeStages s.filters x
    (r.1, { s with filters := r.2 })

end HighPrecisionFilter

/-! ## 2. SaturationCore -/

/-- State of `SaturationCore`: the private members in declaration order. -/
@[ext]
structure SaturationCore (α : Type) where
  currentSampleRate : α
  dcBlockerCoef : α
  tapeCoefBase : α
  tapeDeemphCoef : α
  transCoef : α
  exciterCoef : α
  sagAttack : α
  sagRelease : α
  lastX : α
  lastF : α
  tapeFilterState : α
  tapeDeemphState : α
  transFilterState : α
  lastX_DC : α
  dcBlockerState : α
  sampleHoldVal : α
  sampleHoldCounter : α
  sagEnvelope : α

namespace SaturationCore

/-- A freshly constructed core: the default member initialisers. -/
def init : SaturationCore α where
  currentSampleRate := 0.0
  dcBlockerCoef := 0.995
  tapeCoefBase := 0.4
  tapeDeemphCoef := 0.3
  transCoef := 0.1
  exciterCoef := 0.9
  sagAttack := 0.0
  sagRelease := 0.0
  lastX := 0.0
  lastF := 0.0
  tapeFilterState := 0.0
  tapeDeemphState := 0.0
  transFilterState := 0.0
  lastX_DC := 0.0
  dcBlockerState := 0.0
  sampleHoldVal := 0.0
  sampleHoldCounter := 0.0
  sagEnvelope := 0.0

/-- `SaturationCore::prepare`. -/
def prepare (s : SaturationCore α) (sampleRate : α) : SaturationCore α :=
  if s.currentSampleRate = sampleRate then s
  else
    let ratio := sampleRate / 44100.0
    { s with
      currentSampleRate := sampleRate
      dcBlockerCoef := 1.0 - (220.0 / sampleRate)
      tapeCoefBase := 1.0 / ratio
      tapeDeemphCoef := 0.3 / ratio
      transCoef := 0.1 / ratio
      exciterCoef := Libm.pow 0.9 (1.0 / ratio)
      sagAttack := 1.0 - Libm.exp (-1.0 / (0.02 * sampleRate))
      sagRelease := 1.0 - Libm.exp (-1.0 / (0.10 * sampleRate)) }

/-- `SaturationCore::reset`. -/
def reset (s : SaturationCore α) : SaturationCore α :=
  { s with
    lastX := 0.0
    lastF := 0.0
    tapeFilterState := 0.0
    tapeDeemphState := 0.0
    transFilterState := 0.0
    dcBlockerState := 0.0
    lastX_DC := 0.0
    sampleHoldVal := 0.0
    sampleHoldCounter := 0.0
    sagEnvelope := 0.0 }

/-- `SaturationCore::langevin`. -/
def langevin (x : α) : α :=
  if |x| < 1.0e-5 then x / 3.0
  else (1.0 / Libm.tanh x) - (1.0 / x)

/-- `SaturationCore::intLangevin`. -/
def intLangevin (x : α) : α :=
  if |x| < 1.0e-5 then x * x / 6.0
  else
    let v := Libm.sinh x / x
    Libm.log |v|

/-- `SaturationCore::intFrohlich`. -/
def intFrohlich (x b : α) : α :=
  if |x| < 1.0e-5 then x * x / 2.0
  else
    let absX := |x|
    (absX / b) - (Libm.log (1.0 + b * absX) / (b * b))

/-- `SaturationCore::getADAAFunc`: the antiderivative selector. -/
def getADAAFunc (x : α) (type : Int) (character : α) : α :=
  if type = 0 then 3.0 * intLangevin x
  else if type = 1 then
    let k := 0.5 + character * 1.5
    if x > 0 then (x / k) - (Libm.log (1.0 + k * x) / (k * k))
    else 0.5 * x * x
  else if type = 2 then (0.5 * x * x) - (x * x * x * x * 0.08333333)
  else if type = 3 then intFrohlich x (0.5 + character * 0.5)
  else if type = 4 then Libm.sqrt (1.0 + x * x)
  else if type = 5 then (0.5 * x * x) - ((0.2 + character * 0.3) * x * x * x / 3.0)
  else if type = 6 then
    let k := 0.1 + character * 5.0
    if x > 0 then (x / k) + (Libm.exp (-k * x) / (k * k)) - (1.0 / (k * k))
    else 0.5 * x * x
  else if type = 7 then
    let k := 1.5 + character * 3.0
    let absX := |x|
    (absX + Libm.exp (-k * absX) / k) / k
  else if type = 8 then
    if |x| > 10.0 then |x| - 0.693147
    else Libm.log (Libm.cosh x)
  else if type = 9 then
    if x < -1.0 then -x - 0.5
    else if x > 1.0 then x - 0.5
    else 0.5 * x * x
  else if type = 10 then
    let w := (0.5 + character * 2.5) * Libm.pi
    (-Libm.cos (x * w)) / w
  else if type = 11 then 0.5 * x * abs x
  else 0.0

/-- The `switch` of the near-zero-delta branch of `process` (lines 287 to 316):
the direct function of each algorithm.  `out` starts at `0.0` and the switch has
no default. -/
def directFunc (x : α) (type : Int) (character : α) : α :=
  if type = 0 then 3.0 * langevin x
  else if type = 1 then
    let k := 0.5 + character * 1.5
    if x > 0 then x / (1.0 + k * x) else x
  else if type = 2 then x - (x * x * x / 3.0)
  else if type = 3 then x / (1.0 + (0.5 + character * 0.5) * |x|)
  else if type = 4 then x / Libm.sqrt (1.0 + x * x)
  else if type = 5 then x - (0.2 + character * 0.3) * x * x
  else if type = 6 then
    let k := 0.1 + character * 5.0
    if x > 0 then (1.0 - Libm.exp (-k * x)) / k else x
  else if type = 7 then
    let k := 1.5 + character * 3.0
    if x > 0 then (1.0 - Libm.exp (-k * x)) / k else (-1.0 + Libm.exp (k * x)) / k
  else if type = 8 then Libm.tanh x
  else if type = 9 then jlimit (-1.0) 1.0 x
  else if type = 10 then
    let w := (0.5 + character * 2.5) * Libm.pi
    Libm.sin (x * w)
  else if type = 11 then |x|
  else 0.0

/-- `SaturationCore::getMakeupGain`. -/
def getMakeupGain (type : Int) : α :=
  if type = 2 then 1.2
  else if type = 3 then 1.1
  else if type = 5 then 1.4
  else if type = 6 then 1.0
  else if type = 10 then 3.2
  else 1.0

/-- Lines 246 to 254 of `process`: the sag envelope; returns `sagMod`. -/
def sagStage (s : SaturationCore α) (inp : α) (type : Int) (driveDB : α) :
    α × SaturationCore α :=
  if type ≤ 6 then
    let inputPower := |inp|
    let env :=
      if inputPower > s.sagEnvelope then
        s.sagEnvelope + s.sagAttack * (inputPower - s.sagEnvelope)
      else s.sagEnvelope + s.sagRelease * (inputPower - s.sagEnvelope)
    let sagAmount := jlimit 0.0 1.0 (driveDB / 12.0)
    (1.0 - (env * 0.15 * sagAmount), { s with sagEnvelope := env })
  else (1.0, s)

/-- Lines 246 to 273 of `process`: sag, pre-gain and the pre-processing of
algorithms 0, 3 and 8; returns the value of `x` at line 275 (`dryRect`). -/
def preShape (s : SaturationCore α) (inp : α) (type : Int) (driveDB character : α) :
    α × SaturationCore α :=
  let sg := sagStage s inp type driveDB
  let drive := Libm.pow 10.0 (driveDB / 20.0)
  let x0 := inp * drive * sg.1
  let t0 : α × SaturationCore α :=
    if type = 0 then
      let coef := (0.05 + 0.55 * character) * sg.2.tapeCoefBase
      let w := x0 - coef * sg.2.tapeFilterState
      (w + coef * x0, { sg.2 with tapeFilterState := w })
    else (x0, sg.2)
  let t3 : α × SaturationCore α :=
    if type = 3 then
      let low := t0.2.transFilterState + t0.2.transCoef * (t0.1 - t0.2.transFilterState)
      (t0.1 + low * (character * 2.0), { t0.2 with transFilterState := low })
    else t0
  if type = 8 ∧ character > 0.0 then (t3.1 + character * 0.5, t3.2) else t3

/-- Line 278 of `process`: the input scaling of the wavefolder. -/
def foldScale (x : α) (type : Int) : α :=
  if type = 10 then x * 0.2 else x

/-- Lines 281 to 352 of `process`: the core saturation on the shaped input `x`;
returns `out` and the state with the updated history. -/
def coreShape (s : SaturationCore α) (x : α) (type : Int) (character : α) :
    α × SaturationCore α :=
  if type ≤ 11 then
    let Fx := getADAAFunc x type character
    let out :=
      if |x - s.lastX| < 1.0e-6 then directFunc x type character
      else (Fx - s.lastF) / (x - s.lastX)
    (out, { s with lastX := x, lastF := Fx })
  else if type = 12 then
    let rateDiv := Libm.toDouble (1.0 + Libm.toDouble (character * 49.0))
    let counter := s.sampleHoldCounter + 1.0
    let s1 : SaturationCore α :=
      if counter ≥ rateDiv then { s with sampleHoldCounter := 0.0, sampleHoldVal := x }
      else { s with sampleHoldCounter := counter }
    let heldSignal := s1.sampleHoldVal
    let bits0 := 16.0 - (character * 14.0)
    let bits := if bits0 < 1.0 then 1.0 else bits0
    let steps := Libm.pow 2.0 bits
    (Libm.round (heldSignal * steps) / steps, s1)
  else if type = 13 then
    let hpf := x - s.exciterCoef * s.lastX
    let k : α := 0.5
    let drivenHPF := hpf * 1.5
    let dist := if drivenHPF > 0 then drivenHPF / (1.0 + k * drivenHPF) else drivenHPF
    (x + (character * 2.0) * dist, s)
  else (Libm.tanh x, s)

/-- Lines 355 to 361 of `process`: tape de-emphasis and the rectifier blend. -/
def postShape (s : SaturationCore α) (out dryRect : α) (type : Int) (character : α) :
    α × SaturationCore α :=
  let t0 : α × SaturationCore α :=
    if type = 0 then
      let d := (1.0 - s.tapeDeemphCoef) * s.tapeDeemphState + s.tapeDeemphCoef * out
      (d, { s with tapeDeemphState := d })
    else (out, s)
  if type = 11 then (dryRect * (1.0 - character) + t0.1 * character, t0.2) else t0

/-- Lines 363 to 369 of `process`: makeup gain and the DC blocker. -/
def dcBlock (s : SaturationCore α) (out : α) (type : Int) : α × SaturationCore α :=
  let o := out * getMakeupGain type
  let dcOut := o - s.lastX_DC + s.dcBlockerCoef * s.dcBlockerState
  (dcOut, { s with lastX_DC := o, dcBlockerState := dcOut })

/-- `SaturationCore::process`: returns the output sample and the new state. -/
def process (s : SaturationCore α) (inp : α) (type : Int) (driveDB character : α) :
    α × SaturationCore α :=
  let pre := preShape s inp type driveDB character
  let dryRect := pre.1
  let x := foldScale pre.1 type
  let core := coreShape pre.2 x type character
  let post := postShape core.2 core.1 dryRect type character
  dcBlock post.2 post.1 type

/-- The shaped input of a call: `x` as it reaches the core saturation (after
pre-gain, pre-shaping and the wavefold scaling). -/
def shapedInput (s : SaturationCore α) (inp : α) (type : Int) (driveDB character : α) : α :=
  foldScale (preShape s inp type driveDB character).1 type

/-- The core-shaping value of a call: `out` as it leaves the core saturation. -/
def coreValue (s : SaturationCore α) (inp : α) (type : Int) (driveDB character : α) : α :=
  (coreShape (preShape s inp type driveDB character).2
    (shapedInput s inp type driveDB character) type character).1

/-- State after `n` consecutive `process` calls with the same arguments. -/
def stateAfter (s : SaturationCore α) (inp : α) (type : Int) (driveDB character : α) :
    Nat → SaturationCore α
  | 0 => s
  | n + 1 => (process (stateAfter s inp type driveDB character n) inp type driveDB character).2

/-- Value returned by call number `n + 1` of a run of `process` calls with the
same arguments. -/
def outputAt (s : SaturationCore α) (inp : α) (type : Int) (driveDB character : α)
    (n : Nat) : α :=
  (process (stateAfter s inp type driveDB character n) inp type driveDB character).1

end SaturationCore

end Defs

end DspEngine

namespace DspEngine

/-! ## Concrete inputs -/

/-- A stage that passes its input through, to instantiate `StageOps` at concrete
inputs. -/
def wireStage (α : Type) : StageOps Unit α where
  prepare := fun _ u => u
  reset := fun u => u
  setType := fun _ u => u
  setCutoffFrequency := fun _ u => u
  setResonance := fun _ u => u
  processSample := fun u x => (x, u)

/-- A filter after construction and `prepare (44100)`. -/
def hpf0 (α : Type) [LinearOrderedField α] : HighPrecisionFilter Unit α :=
  HighPrecisionFilter.prepare (wireStage α) (HighPrecisionFilter.init ⟨0, 0, 0⟩ (fun _ => ())) 44100

/-- The states a `HighPrecisionFilter` can reach from construction through its
public methods. -/
inductive HighPrecisionFilter.Reachable {α σ : Type} [LinearOrderedField α] [Libm α]
    (ops : StageOps σ α) (spec0 : ProcessSpec α) (stage0 : Fin 4 → σ) :
    HighPrecisionFilter σ α → Prop
  | construct : Reachable ops spec0 stage0 (HighPrecisionFilter.init spec0 stage0)
  | prepare (s : HighPrecisionFilter σ α) (sampleRate : α) :
      Reachable ops spec0 stage0 s → Reachable ops spec0 stage0 (s.prepare ops sampleRate)
  | reset (s : HighPrecisionFilter σ α) :
      Reachable ops spec0 stage0 s → Reachable ops spec0 stage0 (s.reset ops)
  | setParams (s : HighPrecisionFilter σ α) (type : FType) (freq : α) (slope : Slope) :
      Reachable ops spec0 stage0 s →
        Reachable ops spec0 stage0 (HighPrecisionFilter.setParams ops s type freq slope)
  | process (s : HighPrecisionFilter σ α) (x : α) :
      Reachable ops spec0 stage0 s →
        Reachable ops spec0 stage0 (HighPrecisionFilter.process ops s x).2

/-- A stage with two integrator states that `reset` clears, to instantiate
`StageOps` where the stage state matters. -/
def memoryStage (α : Type) [LinearOrderedField α] : StageOps (α × α) α where
  prepare := fun _ st => st
  reset := fun _ => (0, 0)
  setType := fun _ st => st
  setCutoffFrequency := fun _ st => st
  setResonance := fun _ st => st
  processSample := fun st x => (x + st.1, (x, st.1))

/-- The three setter calls that `setParams` makes on one active stage (lines 89
to 91), with the filter type chosen at lines 65 and 66. -/
def HighPrecisionFilter.configureStage {α σ : Type} (ops : StageOps σ α) (type : FType)
    (freq q : α) (st : σ) : σ :=
  ops.setResonance q
    (ops.setCutoffFrequency freq
      (ops.setType (if type = FType.LowPass then SVFType.lowpass else SVFType.highpass) st))

/-- The pre-gained sample of a call: `x` at line 257 of `process`. -/
def SaturationCore.preGain {α : Type} [LinearOrderedField α] [Libm α] (s : SaturationCore α)
    (inp : α) (type : Int) (driveDB : α) : α :=
  inp * Libm.pow 10.0 (driveDB / 20.0) * (SaturationCore.sagStage s inp type driveDB).1

/-- The value of `out` after the post-processing of a call (line 361 of
`process`), before makeup gain and DC blocker. -/
def SaturationCore.postValue {α : Type} [LinearOrderedField α] [Libm α] (s : SaturationCore α)
    (inp : α) (type : Int) (driveDB character : α) : α :=
  (SaturationCore.postShape
    (SaturationCore.coreShape (SaturationCore.preShape s inp type driveDB character).2
      (SaturationCore.shapedInput s inp type driveDB character) type character).2
    (SaturationCore.coreValue s inp type driveDB character)
    (SaturationCore.preShape s inp type driveDB character).1 type character).1

/-- The states a `SaturationCore` can reach from construction through its public
methods. -/
inductive SaturationCore.Reachable {α : Type} [LinearOrderedField α] [Libm α] :
    SaturationCore α → Prop
  | construct : Reachable SaturationCore.init
  | prepare (s : SaturationCore α) (sampleRate : α) : Reachable s → Reachable (s.prepare sampleRate)
  | reset (s : SaturationCore α) : Reachable s → Reachable s.reset
  | process (s : SaturationCore α) (inp : α) (type : Int) (driveDB character : α) :
      Reachable s → Reachable (s.process inp type driveDB character).2

/-! ## Side conditions of the divisions, logarithms and square roots

For each function of the saturation core, the proposition that on the path the
function executes every denominator is nonzero, every argument of `std::log` is
positive and every argument of `std::sqrt` is non-negative.  The branches are
those of the function. -/

section Defined

variable {α : Type} [LinearOrderedField α] [Libm α]

namespace SaturationCore

/-- Side conditions of `langevin`: `x / 3.0`, or `1.0 / tanh (x)` and `1.0 / x`. -/
def langevinDefined (x : α) : Prop :=
  if |x| < 1.0e-5 then (3.0 : α) ≠ 0
  else Libm.tanh x ≠ 0 ∧ x ≠ 0

/-- Side conditions of `intLangevin`: `x * x / 6.0`, or `sinh (x) / x` and
`log (abs (v))`. -/
def intLangevinDefined (x : α) : Prop :=
  if |x| < 1.0e-5 then (6.0 : α) ≠ 0
  else x ≠ 0 ∧ 0 < |Libm.sinh x / x|

/-- Side conditions of `intFrohlich`: `x * x / 2.0`, or `absX / b`,
`log (1.0 + b * absX)` and the division by `b * b`. -/
def intFrohlichDefined (x b : α) : Prop :=
  if |x| < 1.0e-5 then (2.0 : α) ≠ 0
  else b ≠ 0 ∧ 0 < 1.0 + b * |x| ∧ b * b ≠ 0

/-- Side conditions of `getADAAFunc`, case by case. -/
def getADAAFuncDefined (x : α) (type : Int) (character : α) : Prop :=
  if type = 0 then intLangevinDefined x
  else if type = 1 then
    let k := 0.5 + character * 1.5
    if x > 0 then k ≠ 0 ∧ 0 < 1.0 + k * x ∧ k * k ≠ 0
    else True
  else if type = 2 then True
  else if type = 3 then intFrohlichDefined x (0.5 + character * 0.5)
  else if type = 4 then 0 ≤ 1.0 + x * x
  else if type = 5 then (3.0 : α) ≠ 0
  else if type = 6 then
    let k := 0.1 + character * 5.0
    if x > 0 then k ≠ 0 ∧ k * k ≠ 0
    else True
  else if type = 7 then
    let k := 1.5 + character * 3.0
    k ≠ 0
  else if type = 8 then
    if |x| > 10.0 then True
    else 0 < Libm.cosh x
  else if type = 9 then True
  else if type = 10 then
    let w := (0.5 + character * 2.5) * Libm.pi
    w ≠ 0
  else True

/-- Side conditions of the near-zero-delta `switch` of `process` (lines 287 to
316), case by case. -/
def directFuncDefined (x : α) (type : Int) (character : α) : Prop :=
  if type = 0 then langevinDefined x
  else if type = 1 then
    let k := 0.5 + character * 1.5
    if x > 0 then 1.0 + k * x ≠ 0 else True
  else if type = 2 then (3.0 : α) ≠ 0
  else if type = 3 then 1.0 + (0.5 + character * 0.5) * |x| ≠ 0
  else if type = 4 then 0 ≤ 1.0 + x * x ∧ Libm.sqrt (1.0 + x * x) ≠ 0
  else if type = 5 then True
  else if type = 6 then
    let k := 0.1 + character * 5.0
    if x > 0 then k ≠ 0 else True
  else if type = 7 then
    let k := 1.5 + character * 3.0
    k ≠ 0
  else True

/-- Side conditions of the core saturation (lines 281 to 352 of `process`): those
of `getADAAFunc`, then of the direct function or of the secant `x - lastX`; the
bitcrush `steps`; the exciter `1.0 + k * drivenHPF`. -/
def coreShapeDefined (s : SaturationCore α) (x : α) (type : Int) (character : α) : Prop :=
  if type ≤ 11 then
    getADAAFuncDefined x type character
      ∧ (if |x - s.lastX| < 1.0e-6 then directFuncDefined x type character
        else x - s.lastX ≠ 0)
  else if type = 12 then
    let bits0 := 16.0 - (character * 14.0)
    let bits := if bits0 < 1.0 then 1.0 else bits0
    let steps := Libm.pow 2.0 bits
    steps ≠ 0
  else if type = 13 then
    let hpf := x - s.exciterCoef * s.lastX
    let k : α := 0.5
    let drivenHPF := hpf * 1.5
    if drivenHPF > 0 then 1.0 + k * drivenHPF ≠ 0 else True
  else True

/-- Side conditions of `process`: `driveDB / 12.0` in the sag step,
`driveDB / 20.0` in the pre-gain, then those of the core saturation on the
shaped input. -/
def processDefined (s : SaturationCore α) (inp : α) (type : Int) (driveDB character : α) :
    Prop :=
  (type ≤ 6 → (12.0 : α) ≠ 0) ∧ (20.0 : α) ≠ 0
    ∧ coreShapeDefined (preShape s inp type driveDB character).2
      (shapedInput s inp type driveDB character) type character

end SaturationCore

end Defined

/-! ## Runs of calls -/

/-- State of a `OnePoleFilter` after `n` consecutive `processLP` calls with the
same arguments. -/
def OnePoleFilter.lpStateAfter {α : Type} [LinearOrderedField α] [Libm α] (f : OnePoleFilter α)
    (x freq sr : α) : Nat → OnePoleFilter α
  | 0 => f
  | n + 1 => ((OnePoleFilter.lpStateAfter f x freq sr n).processLP x freq sr).2

/-- The arguments of one `SaturationCore::process` call. -/
structure Call (α : Type) where
  inp : α
  type : Int
  driveDB : α
  character : α

/-- State of a `SaturationCore` after the first `n` calls of a sequence of
`process` calls (`calls k` holds the arguments of call number `k + 1`). -/
def SaturationCore.runCalls {α : Type} [LinearOrderedField α] [Libm α] (s : SaturationCore α)
    (calls : Nat → Call α) : Nat → SaturationCore α
  | 0 => s
  | n + 1 =>
    ((SaturationCore.runCalls s calls n).process (calls n).inp (calls n).type (calls n).driveDB
      (calls n).character).2

/-- The local `rateDiv` of algorithm 12 (line 327,
`double rateDiv = 1.0 + (character * 49.0)`) as the machine stores it: the
product and the sum are each rounded to a `double`. -/
def SaturationCore.rateDiv {α : Type} [LinearOrderedField α] [Libm α] (character : α) : α :=
  Libm.toDouble (1.0 + Libm.toDouble (character * 49.0))

/-- The `double` nearest to 5/49, which is the value of the C++ expression
`5.0 / 49.0` (`0x1.a1f58d0fac688p-4`); it lies `2 ^ (-53) / 49` above 5/49. -/
def fiveFortyNinths (α : Type) [LinearOrderedField α] : α :=
  919101964769489 / 9007199254740992

/-- The calls `process (k + 1, 12, 0.0, c)` for `k = 0, 1, 2, ...`: algorithm 12
at 0 dB on the inputs 1, 2, 3, ... -/
def rampCalls {α : Type} [LinearOrderedField α] (c : α) : Nat → Call α :=
  fun k => ⟨(k : α) + 1, 12, 0, c⟩

/-- The members of `SaturationCore` that `prepare` derives from the sample rate,
with the stored rate first. -/
def SaturationCore.rateCoefficients {α : Type} (s : SaturationCore α) :
    α × α × α × α × α × α × α × α :=
  (s.currentSampleRate, s.dcBlockerCoef, s.tapeCoefBase, s.tapeDeemphCoef, s.transCoef,
    s.exciterCoef, s.sagAttack, s.sagRelease)

/-! # Theorems -/

/-! ## Reading `Libm` over the reals -/

@[simp] theorem libm_exp (x : ℝ) : Libm.exp x = Real.exp x := rfl
@[simp] theorem libm_log (x : ℝ) : Libm.log x = Real.log x := rfl
@[simp] theorem libm_sinh (x : ℝ) : Libm.sinh x = Real.sinh x := rfl
@[simp] theorem libm_cosh (x : ℝ) : Libm.cosh x = Real.cosh x := rfl
@[simp] theorem libm_tanh (x : ℝ) : Libm.tanh x = Real.tanh x := rfl
@[simp] theorem libm_sqrt (x : ℝ) : Libm.sqrt x = Real.sqrt x := rfl
@[simp] theorem libm_sin (x : ℝ) : Libm.sin x = Real.sin x := rfl
@[simp] theorem libm_cos (x : ℝ) : Libm.cos x = Real.cos x := rfl
@[simp] theorem libm_pow (x y : ℝ) : Libm.pow x y = x ^ y := rfl
@[simp] theorem libm_pi : (Libm.pi : ℝ) = Real.pi := rfl
@[simp] theorem libm_twoPi : (Libm.twoPi : ℝ) = 2 * Real.pi := rfl
@[simp] theorem libm_toDouble (x : ℝ) : Libm.toDouble x = roundToDouble x := rfl

/-! ## HighPrecisionFilter: bypass and the parameter cache -/

section FilterTheorems

variable {α : Type} [LinearOrderedField α] {σ : Type}

open HighPrecisionFilter

/-- The bypass rule as a proposition. -/
theorem bypassRule_iff (type : FType) (freq : α) :
    bypassRule type freq = true ↔
      (type = FType.LowPass ∧ freq ≥ 19950) ∨ (type = FType.HighPass ∧ freq ≤ 20.5) := by
  cases type
  · simp [bypassRule]; norm_num
  · simp [bypassRule]

/-- The head guard of `setParams` as a proposition. -/
theorem unchanged_iff (s : HighPrecisionFilter σ α) (type : FType) (freq : α) (slope : Slope) :
    unchanged s type freq slope = true ↔
      (s.currentType = type ∧ |s.currentFreq - freq| < 0.01 ∧ s.currentSlope = slope
        ∧ s.spec.sampleRate = s.currentSampleRate) := by
  simp [unchanged, and_assoc]

/-- When the head guard fails, `setParams` stores the bypass rule of the request. -/
theorem setParams_isBypassed (ops : StageOps σ α) (s : HighPrecisionFilter σ α) (type : FType)
    (freq : α) (slope : Slope) (h : unchanged s type freq slope = false) :
    (setParams ops s type freq slope).isBypassed = bypassRule type freq := by
  unfold setParams
  simp only [h, Bool.false_eq_true, if_false]
  split_ifs <;> simp_all

/-- When the head guard fails, `setParams` caches the requested type and frequency. -/
theorem setParams_cache (ops : StageOps σ α) (s : HighPrecisionFilter σ α) (type : FType)
    (freq : α) (slope : Slope) (h : unchanged s type freq slope = false) :
    (setParams ops s type freq slope).currentType = type
      ∧ (setParams ops s type freq slope).currentFreq = freq := by
  unfold setParams
  simp only [h, Bool.false_eq_true, if_false]
  split_ifs <;> simp_all

/-- Past its head guard `setParams` returns the state it was given. -/
theorem setParams_of_unchanged (ops : StageOps σ α) (s : HighPrecisionFilter σ α) (type : FType)
    (freq : α) (slope : Slope) (h : unchanged s type freq slope = true) :
    setParams ops s type freq slope = s := by
  unfold setParams
  simp [h]

/-- A changed, non-bypassed 6 dB request only rewrites the cache. -/
theorem setParams_changed_6dB (ops : StageOps σ α) (s : HighPrecisionFilter σ α) (type : FType)
    (freq : α) (hu : unchanged s type freq Slope.Slope6dB = false)
    (hb : bypassRule type freq = false) :
    setParams ops s type freq Slope.Slope6dB =
      { s with
        currentType := type
        currentFreq := freq
        currentSlope := Slope.Slope6dB
        currentSampleRate := s.spec.sampleRate
        isBypassed := false } := by
  unfold setParams
  simp [hu, hb]

/-- The stage loop and the one-pole path of `process` leave the cache alone. -/
theorem process_cache [Libm α] (ops : StageOps σ α) (s : HighPrecisionFilter σ α) (x : α) :
    (process ops s x).2.isBypassed = s.isBypassed
      ∧ (process ops s x).2.currentType = s.currentType
      ∧ (process ops s x).2.currentFreq = s.currentFreq := by
  unfold process
  split_ifs <;> simp

/-- C7 (as amended): after `setParams (LowPass, f, slope)` with `f ≥ 19950`, or
`setParams (HighPass, f, slope)` with `f ≤ 20.5`, `process (x)` returns `x`,
provided the call did not take the no-op path of `setParams` or the filter was
already bypassed before the call. -/
theorem setParams_bypass_passthrough [Libm α] (ops : StageOps σ α)
    (s : HighPrecisionFilter σ α) (type : FType) (freq : α) (slope : Slope) (x : α)
    (hreq : (type = FType.LowPass ∧ freq ≥ 19950) ∨ (type = FType.HighPass ∧ freq ≤ 20.5))
    (hfresh : unchanged s type freq slope = false ∨ s.isBypassed = true) :
    (process ops (setParams ops s type freq slope) x).1 = x := by
  have hb : (setParams ops s type freq slope).isBypassed = true := by
    by_cases hu : unchanged s type freq slope = true
    · rcases hfresh with h | h
      · rw [hu] at h; exact absurd h (by simp)
      · unfold setParams; simpa [hu] using h
    · have hu2 : unchanged s type freq slope = false := by simpa using hu
      rw [setParams_isBypassed ops s type freq slope hu2]
      exact (bypassRule_iff type freq).2 hreq
  unfold process
  simp [hb]

/-- Witness for C7 (as amended): a fresh filter asked for a 20 kHz low-pass. -/
theorem setParams_bypass_passthrough_witness :
    ((FType.LowPass = FType.LowPass ∧ (20000 : ℝ) ≥ 19950)
        ∨ (FType.LowPass = FType.HighPass ∧ (20000 : ℝ) ≤ 20.5))
      ∧ (unchanged (hpf0 ℝ) FType.LowPass 20000 Slope.Slope24dB = false
        ∨ (hpf0 ℝ).isBypassed = true)
      ∧ (process (wireStage ℝ)
          (setParams (wireStage ℝ) (hpf0 ℝ) FType.LowPass 20000 Slope.Slope24dB) 1).1 = 1 :=
  have h1 : (FType.LowPass = FType.LowPass ∧ (20000 : ℝ) ≥ 19950)
      ∨ (FType.LowPass = FType.HighPass ∧ (20000 : ℝ) ≤ 20.5) :=
    Or.inl ⟨rfl, by norm_num⟩
  have h2 : unchanged (hpf0 ℝ) FType.LowPass 20000 Slope.Slope24dB = false
      ∨ (hpf0 ℝ).isBypassed = true :=
    Or.inl (by simp [unchanged, hpf0, HighPrecisionFilter.prepare, HighPrecisionFilter.init])
  ⟨h1, h2, setParams_bypass_passthrough (wireStage ℝ) (hpf0 ℝ) FType.LowPass 20000
    Slope.Slope24dB 1 h1 h2⟩

/-- C7 (counterexample): a 6 dB low-pass at 19949.995 Hz is not bypassed; the
next request, 19950 Hz, is within 0.01 Hz of the cached frequency, so `setParams`
returns at its head guard and `process (1)` runs the one-pole low-pass, which
returns `1 - exp (-2π · 19949.995 / 44100)`, not `1`. -/
theorem setParams_bypass_counterexample :
    (19950 : ℝ) ≥ 19950
      ∧ (process (wireStage ℝ)
          (setParams (wireStage ℝ)
            (setParams (wireStage ℝ) (hpf0 ℝ) FType.LowPass 19949.995 Slope.Slope6dB)
            FType.LowPass 19950 Slope.Slope6dB) 1).1 ≠ 1 := by
  refine ⟨le_refl _, ?_⟩
  have hu1 : unchanged (hpf0 ℝ) FType.LowPass 19949.995 Slope.Slope6dB = false := by
    simp [unchanged, hpf0, HighPrecisionFilter.prepare, HighPrecisionFilter.init]
  have hb1 : bypassRule FType.LowPass (19949.995 : ℝ) = false := by
    simp [bypassRule]; norm_num
  rw [setParams_changed_6dB _ _ _ _ hu1 hb1]
  have hu2 : unchanged
      ({ hpf0 ℝ with
          currentType := FType.LowPass
          currentFreq := 19949.995
          currentSlope := Slope.Slope6dB
          currentSampleRate := (hpf0 ℝ).spec.sampleRate
          isBypassed := false } : HighPrecisionFilter Unit ℝ)
      FType.LowPass 19950 Slope.Slope6dB = true := by
    rw [unchanged_iff]
    refine ⟨rfl, ?_, rfl, rfl⟩
    simp only []
    rw [abs_lt]; constructor <;> norm_num
  rw [setParams_of_unchanged _ _ _ _ _ hu2]
  simp [process, hpf0, HighPrecisionFilter.prepare, HighPrecisionFilter.init,
    OnePoleFilter.processLP, OnePoleFilter.reset]

/-- C8: in every reachable state the bypass flag is set exactly when the cached
type is LowPass with cached frequency at least 19950, or HighPass with cached
frequency at most 20.5. -/
theorem reachable_bypass_iff [Libm α] (ops : StageOps σ α) (spec0 : ProcessSpec α)
    (stage0 : Fin 4 → σ) (s : HighPrecisionFilter σ α)
    (h : Reachable ops spec0 stage0 s) :
    s.isBypassed = true ↔
      (s.currentType = FType.LowPass ∧ s.currentFreq ≥ 19950)
        ∨ (s.currentType = FType.HighPass ∧ s.currentFreq ≤ 20.5) := by
  induction h with
  | construct => simp [HighPrecisionFilter.init]; norm_num
  | prepare s sr _ ih => simpa [HighPrecisionFilter.prepare] using ih
  | reset s _ ih => simpa [HighPrecisionFilter.reset] using ih
  | setParams s type freq slope _ ih =>
    by_cases hu : unchanged s type freq slope = true
    · have : setParams ops s type freq slope = s := by unfold setParams; simp [hu]
      rw [this]; exact ih
    · have hu2 : unchanged s type freq slope = false := by simpa using hu
      rw [setParams_isBypassed ops s type freq slope hu2,
        (setParams_cache ops s type freq slope hu2).1,
        (setParams_cache ops s type freq slope hu2).2]
      exact bypassRule_iff type freq
  | process s x _ ih =>
    obtain ⟨h1, h2, h3⟩ := process_cache ops s x
    rw [h1, h2, h3]; exact ih

/-- Witness for C8: the state after construction, `prepare` and one `setParams`. -/
theorem reachable_bypass_iff_witness :
    Reachable (wireStage ℝ) ⟨0, 0, 0⟩ (fun _ => ())
        (setParams (wireStage ℝ) (hpf0 ℝ) FType.HighPass 20 Slope.Slope12dB)
      ∧ ((setParams (wireStage ℝ) (hpf0 ℝ) FType.HighPass 20 Slope.Slope12dB).isBypassed = true ↔
        ((setParams (wireStage ℝ) (hpf0 ℝ) FType.HighPass 20 Slope.Slope12dB).currentType
            = FType.LowPass
          ∧ (setParams (wireStage ℝ) (hpf0 ℝ) FType.HighPass 20 Slope.Slope12dB).currentFreq
            ≥ 19950)
        ∨ ((setParams (wireStage ℝ) (hpf0 ℝ) FType.HighPass 20 Slope.Slope12dB).currentType
            = FType.HighPass
          ∧ (setParams (wireStage ℝ) (hpf0 ℝ) FType.HighPass 20 Slope.Slope12dB).currentFreq
            ≤ 20.5)) :=
  have hr : Reachable (wireStage ℝ) ⟨0, 0, 0⟩ (fun _ => ())
      (setParams (wireStage ℝ) (hpf0 ℝ) FType.HighPass 20 Slope.Slope12dB) :=
    Reachable.setParams _ _ _ _ (Reachable.prepare _ _ Reachable.construct)
  ⟨hr, reachable_bypass_iff (wireStage ℝ) ⟨0, 0, 0⟩ (fun _ => ()) _ hr⟩

/-- C9: when the bypass flag is set, `process (x)` returns `x` and the whole
filter state (one-pole state, the four stages, the cached configuration) is the
state before the call. -/
theorem process_bypassed_frozen [Libm α] (ops : StageOps σ α) (s : HighPrecisionFilter σ α)
    (x : α) (h : s.isBypassed = true) : process ops s x = (x, s) := by
  unfold process
  simp [h]

/-- Witness for C9: a prepared filter set to a bypassed 20 kHz low-pass. -/
theorem process_bypassed_frozen_witness :
    ({ hpf0 ℝ with currentFreq := 20000, isBypassed := true }
        : HighPrecisionFilter Unit ℝ).isBypassed = true
      ∧ process (wireStage ℝ) { hpf0 ℝ with currentFreq := 20000, isBypassed := true } 3
        = (3, { hpf0 ℝ with currentFreq := 20000, isBypassed := true }) :=
  ⟨rfl, process_bypassed_frozen (wireStage ℝ) _ 3 rfl⟩

/-- C10: `setParams (type, freq, slope)` returns the state it was given whenever
type and slope equal the cached ones, the cached frequency is within 0.01 of
`freq`, and the prepared sample rate equals the cached sample rate. -/
theorem setParams_unchanged_noop (ops : StageOps σ α) (s : HighPrecisionFilter σ α)
    (type : FType) (freq : α) (slope : Slope) (ht : type = s.currentType)
    (hs : slope = s.currentSlope) (hf : |s.currentFreq - freq| < 0.01)
    (hr : s.spec.sampleRate = s.currentSampleRate) :
    setParams ops s type freq slope = s := by
  have hu : unchanged s type freq slope = true :=
    (unchanged_iff s type freq slope).2 ⟨ht.symm, hf, hs.symm, hr⟩
  unfold setParams
  simp [hu]

/-- Witness for C10: a prepared filter asked again for its cached 1000 Hz,
12 dB low-pass, 0.005 Hz off. -/
theorem setParams_unchanged_noop_witness :
    FType.LowPass = (hpf0 ℚ).currentType
      ∧ Slope.Slope12dB = (hpf0 ℚ).currentSlope
      ∧ |(hpf0 ℚ).currentFreq - 1000.005| < 0.01
      ∧ (hpf0 ℚ).spec.sampleRate = (hpf0 ℚ).currentSampleRate
      ∧ setParams (wireStage ℚ) (hpf0 ℚ) FType.LowPass 1000.005 Slope.Slope12dB = hpf0 ℚ :=
  have hf : |(hpf0 ℚ).currentFreq - 1000.005| < 0.01 := by
    simp only [hpf0, HighPrecisionFilter.prepare, HighPrecisionFilter.init]
    rw [abs_lt]; constructor <;> norm_num
  have hr : (hpf0 ℚ).spec.sampleRate = (hpf0 ℚ).currentSampleRate := by
    simp only [hpf0, HighPrecisionFilter.prepare, HighPrecisionFilter.init]
    norm_num
  ⟨rfl, rfl, hf, hr,
    setParams_unchanged_noop (wireStage ℚ) (hpf0 ℚ) FType.LowPass 1000.005 Slope.Slope12dB
      rfl rfl hf hr⟩

end FilterTheorems

end DspEngine

namespace DspEngine

/-! ## SaturationCore: which members each step of `process` writes -/

section CoreFrame

variable {α : Type} [LinearOrderedField α]

open SaturationCore

/-- `sagStage` writes `sagEnvelope` only. -/
theorem sagStage_frame (s : SaturationCore α) (inp : α) (type : Int) (driveDB : α) :
    (sagStage s inp type driveDB).2 =
      { s with sagEnvelope := (sagStage s inp type driveDB).2.sagEnvelope } := by
  unfold sagStage
  split_ifs <;> rfl

/-- Above algorithm 6 the sag step does nothing. -/
theorem sagStage_of_gt (s : SaturationCore α) (inp : α) (type : Int) (driveDB : α)
    (h : 6 < type) : sagStage s inp type driveDB = (1.0, s) := by
  unfold sagStage
  rw [if_neg (not_le.mpr h)]

/-- The post-processing leaves the ADAA history alone. -/
theorem postShape_history (s : SaturationCore α) (out dryRect : α) (type : Int) (character : α) :
    (postShape s out dryRect type character).2.lastX = s.lastX
      ∧ (postShape s out dryRect type character).2.lastF = s.lastF := by
  unfold postShape
  constructor <;> (split_ifs <;> rfl)

variable [Libm α]

/-- The pre-processing leaves the ADAA history alone. -/
theorem preShape_history (s : SaturationCore α) (inp : α) (type : Int) (driveDB character : α) :
    (preShape s inp type driveDB character).2.lastX = s.lastX
      ∧ (preShape s inp type driveDB character).2.lastF = s.lastF := by
  unfold preShape
  have h := sagStage_frame s inp type driveDB
  constructor <;> (split_ifs <;> simp only [] <;> rw [h])

/-- The pre-processing leaves the DC blocker alone. -/
theorem preShape_dc (s : SaturationCore α) (inp : α) (type : Int) (driveDB character : α) :
    (preShape s inp type driveDB character).2.lastX_DC = s.lastX_DC
      ∧ (preShape s inp type driveDB character).2.dcBlockerState = s.dcBlockerState
      ∧ (preShape s inp type driveDB character).2.dcBlockerCoef = s.dcBlockerCoef := by
  unfold preShape
  have h := sagStage_frame s inp type driveDB
  refine ⟨?_, ?_, ?_⟩ <;> (split_ifs <;> simp only [] <;> rw [h])

/-- For the algorithms above 6 the value of `x` at line 275 depends on the
arguments only, and the state is not written. -/
theorem preShape_of_gt (s : SaturationCore α) (inp : α) (type : Int) (driveDB character : α)
    (h : 6 < type) :
    preShape s inp type driveDB character =
      (if type = 8 ∧ character > 0.0 then
          inp * Libm.pow 10.0 (driveDB / 20.0) * 1.0 + character * 0.5
        else inp * Libm.pow 10.0 (driveDB / 20.0) * 1.0, s) := by
  have h0 : type ≠ 0 := by omega
  have h3 : type ≠ 3 := by omega
  unfold preShape
  rw [sagStage_of_gt s inp type driveDB h]
  simp only [h0, h3, if_false]
  split_ifs <;> rfl

/-- On the ADAA path the core saturation stores the shaped input and its
antiderivative as the new history. -/
theorem coreShape_history (s : SaturationCore α) (x : α) (type : Int) (character : α)
    (h : type ≤ 11) :
    (coreShape s x type character).2.lastX = x
      ∧ (coreShape s x type character).2.lastF = getADAAFunc x type character := by
  unfold coreShape
  simp [h]

/-- On the ADAA path the core saturation returns the direct function when the
step from the stored sample is below `1e-6`, and the secant otherwise. -/
theorem coreShape_value (s : SaturationCore α) (x : α) (type : Int) (character : α)
    (h : type ≤ 11) :
    (coreShape s x type character).1 =
      if |x - s.lastX| < 1.0e-6 then directFunc x type character
      else (getADAAFunc x type character - s.lastF) / (x - s.lastX) := by
  unfold coreShape
  simp [h]

/-- The core saturation leaves the DC blocker alone. -/
theorem coreShape_dc (s : SaturationCore α) (x : α) (type : Int) (character : α) :
    (coreShape s x type character).2.lastX_DC = s.lastX_DC
      ∧ (coreShape s x type character).2.dcBlockerState = s.dcBlockerState
      ∧ (coreShape s x type character).2.dcBlockerCoef = s.dcBlockerCoef := by
  unfold coreShape
  refine ⟨?_, ?_, ?_⟩ <;>
    (split_ifs <;> first | rfl | (simp only []; split_ifs <;> rfl))

/-- After a call on the ADAA path the history is the shaped input of that call
and its antiderivative. -/
theorem process_history (s : SaturationCore α) (inp : α) (type : Int) (driveDB character : α)
    (h : type ≤ 11) :
    (process s inp type driveDB character).2.lastX = shapedInput s inp type driveDB character
      ∧ (process s inp type driveDB character).2.lastF
        = getADAAFunc (shapedInput s inp type driveDB character) type character := by
  unfold process dcBlock shapedInput
  simp only []
  rw [(postShape_history _ _ _ _ _).1, (postShape_history _ _ _ _ _).2]
  exact coreShape_history _ _ _ _ h

/-- Core-shaping value of a call on the ADAA path, in terms of the history the
call starts from. -/
theorem coreValue_adaa (s : SaturationCore α) (inp : α) (type : Int) (driveDB character : α)
    (h : type ≤ 11) :
    coreValue s inp type driveDB character =
      if |shapedInput s inp type driveDB character - s.lastX| < 1.0e-6 then
        directFunc (shapedInput s inp type driveDB character) type character
      else
        (getADAAFunc (shapedInput s inp type driveDB character) type character - s.lastF)
          / (shapedInput s inp type driveDB character - s.lastX) := by
  unfold coreValue
  rw [coreShape_value _ _ _ _ h, (preShape_history s inp type driveDB character).1,
    (preShape_history s inp type driveDB character).2]

end CoreFrame

end DspEngine

namespace DspEngine

/-! ## SaturationCore: the ADAA path of `process` -/

section Adaa

variable {α : Type} [LinearOrderedField α] [Libm α]

open SaturationCore

/-- For the algorithms above 6 the shaped input does not depend on the state. -/
theorem shapedInput_of_gt (s s2 : SaturationCore α) (inp : α) (type : Int) (driveDB character : α)
    (h : 6 < type) :
    shapedInput s inp type driveDB character = shapedInput s2 inp type driveDB character := by
  unfold shapedInput
  rw [preShape_of_gt s inp type driveDB character h, preShape_of_gt s2 inp type driveDB character h]

/-- When a call on the ADAA path has the shaped input of the call before it, the
core-shaping value is the direct function. -/
theorem coreValue_of_repeat (s : SaturationCore α) (in1 d1 in2 d2 c : α) (t : Int)
    (h11 : t ≤ 11)
    (h : shapedInput (process s in1 t d1 c).2 in2 t d2 c = shapedInput s in1 t d1 c) :
    coreValue (process s in1 t d1 c).2 in2 t d2 c =
      directFunc (shapedInput (process s in1 t d1 c).2 in2 t d2 c) t c := by
  rw [coreValue_adaa _ _ _ _ _ h11, (process_history s in1 t d1 c h11).1, h, sub_self,
    abs_zero, if_pos (by norm_num)]

/-- In a run of calls with constant arguments and an algorithm in 7..11, every
call after the first takes the direct function. -/
theorem coreValue_stateAfter (s : SaturationCore α) (inp d c : α) (t : Int) (h7 : 7 ≤ t)
    (h11 : t ≤ 11) (n : Nat) (hn : 1 ≤ n) :
    coreValue (stateAfter s inp t d c n) inp t d c =
      directFunc (shapedInput (stateAfter s inp t d c n) inp t d c) t c := by
  obtain ⟨m, rfl⟩ : ∃ m, n = m + 1 := ⟨n - 1, by omega⟩
  exact coreValue_of_repeat (stateAfter s inp t d c m) inp d inp d c t h11
    (shapedInput_of_gt _ _ inp t d c (by omega))

/-- C2: for two consecutive `process` calls with the same algorithm `t` in 0..11
and the same character, with shaped inputs `x_prev` and `x`: if
`|x - x_prev| ≥ 1e-6` the core-shaping value of the second call is the secant
`(F_t x - F_t x_prev) / (x - x_prev)`, and if `|x - x_prev| < 1e-6` it is
`f_t x`. -/
theorem adaa_consecutive_calls (s : SaturationCore α) (in1 d1 in2 d2 c : α) (t : Int)
    (_h0 : 0 ≤ t) (h11 : t ≤ 11) :
    (1.0e-6 ≤ |shapedInput (process s in1 t d1 c).2 in2 t d2 c - shapedInput s in1 t d1 c| →
        coreValue (process s in1 t d1 c).2 in2 t d2 c =
          (getADAAFunc (shapedInput (process s in1 t d1 c).2 in2 t d2 c) t c
              - getADAAFunc (shapedInput s in1 t d1 c) t c)
            / (shapedInput (process s in1 t d1 c).2 in2 t d2 c - shapedInput s in1 t d1 c))
      ∧ (|shapedInput (process s in1 t d1 c).2 in2 t d2 c - shapedInput s in1 t d1 c| < 1.0e-6 →
        coreValue (process s in1 t d1 c).2 in2 t d2 c =
          directFunc (shapedInput (process s in1 t d1 c).2 in2 t d2 c) t c) := by
  rw [coreValue_adaa _ _ _ _ _ h11, (process_history s in1 t d1 c h11).1,
    (process_history s in1 t d1 c h11).2]
  constructor
  · intro h
    rw [if_neg (not_lt.mpr h)]
  · intro h
    rw [if_pos h]

/-- Witness for C2: the hard clipper called twice on a fresh core. -/
theorem adaa_consecutive_calls_witness :
    (0 : Int) ≤ 9 ∧ (9 : Int) ≤ 11
      ∧ ((1.0e-6 ≤ |shapedInput (process (init : SaturationCore ℝ) 0 9 0 0).2 1 9 0 0
              - shapedInput (init : SaturationCore ℝ) 0 9 0 0| →
          coreValue (process (init : SaturationCore ℝ) 0 9 0 0).2 1 9 0 0 =
            (getADAAFunc (shapedInput (process (init : SaturationCore ℝ) 0 9 0 0).2 1 9 0 0) 9 0
                - getADAAFunc (shapedInput (init : SaturationCore ℝ) 0 9 0 0) 9 0)
              / (shapedInput (process (init : SaturationCore ℝ) 0 9 0 0).2 1 9 0 0
                - shapedInput (init : SaturationCore ℝ) 0 9 0 0))
        ∧ (|shapedInput (process (init : SaturationCore ℝ) 0 9 0 0).2 1 9 0 0
              - shapedInput (init : SaturationCore ℝ) 0 9 0 0| < 1.0e-6 →
          coreValue (process (init : SaturationCore ℝ) 0 9 0 0).2 1 9 0 0 =
            directFunc (shapedInput (process (init : SaturationCore ℝ) 0 9 0 0).2 1 9 0 0) 9 0)) :=
  ⟨by decide, by decide, adaa_consecutive_calls init 0 0 1 0 0 9 (by decide) (by decide)⟩

/-- C4: for every algorithm `t` in 0..11, when the shaped input of a call equals
the shaped input of the previous call (same `t` and character) the core-shaping
value is `f_t x`; and for the algorithms 7..11, with the input, drive and
character held constant, this is so on every call from the second one on, from
any state. -/
theorem adaa_constant_input (s : SaturationCore α) (t : Int) (c : α) (_h0 : 0 ≤ t)
    (h11 : t ≤ 11) :
    (∀ in1 d1 in2 d2 : α,
        shapedInput (process s in1 t d1 c).2 in2 t d2 c = shapedInput s in1 t d1 c →
        coreValue (process s in1 t d1 c).2 in2 t d2 c =
          directFunc (shapedInput (process s in1 t d1 c).2 in2 t d2 c) t c)
      ∧ (7 ≤ t → ∀ (inp d : α) (n : Nat), 1 ≤ n →
        coreValue (stateAfter s inp t d c n) inp t d c =
          directFunc (shapedInput (stateAfter s inp t d c n) inp t d c) t c) := by
  exact ⟨fun in1 d1 in2 d2 h => coreValue_of_repeat s in1 d1 in2 d2 c t h11 h,
    fun h7 inp d n hn => coreValue_stateAfter s inp d c t h7 h11 n hn⟩

/-- Witness for C4: the soft-tanh algorithm on a fresh core. -/
theorem adaa_constant_input_witness :
    (0 : Int) ≤ 8 ∧ (8 : Int) ≤ 11
      ∧ ((∀ in1 d1 in2 d2 : ℝ,
          shapedInput (process (init : SaturationCore ℝ) in1 8 d1 1).2 in2 8 d2 1
            = shapedInput (init : SaturationCore ℝ) in1 8 d1 1 →
          coreValue (process (init : SaturationCore ℝ) in1 8 d1 1).2 in2 8 d2 1 =
            directFunc (shapedInput (process (init : SaturationCore ℝ) in1 8 d1 1).2 in2 8 d2 1)
              8 1)
        ∧ ((7 : Int) ≤ 8 → ∀ (inp d : ℝ) (n : Nat), 1 ≤ n →
          coreValue (stateAfter (init : SaturationCore ℝ) inp 8 d 1 n) inp 8 d 1 =
            directFunc (shapedInput (stateAfter (init : SaturationCore ℝ) inp 8 d 1 n) inp 8 d 1)
              8 1)) :=
  ⟨by decide, by decide, adaa_constant_input init 8 1 (by decide) (by decide)⟩

/-- Algorithm 9: the antiderivative of the hard clipper. -/
theorem getADAAFunc_nine (x c : α) :
    getADAAFunc x 9 c =
      if x < -1 then -x - 1 / 2 else if x > 1 then x - 1 / 2 else 1 / 2 * x * x := by
  unfold getADAAFunc
  norm_num

/-- Algorithm 9: the direct function is the clamp to `[-1, 1]`. -/
theorem directFunc_nine (x c : α) : directFunc x 9 c = max (-1) (min 1 x) := by
  unfold directFunc jlimit
  norm_num
  split_ifs with h1 h2
  · rw [min_eq_right (by linarith), max_eq_left h1.le]
  · rw [min_eq_left h2.le, max_eq_right (by norm_num)]
  · rw [min_eq_right (not_lt.mp h2), max_eq_right (not_lt.mp h1)]

/-- Algorithm 9: the antiderivative grows by at most the step. -/
theorem hardclip_step (x y c : α) : getADAAFunc x 9 c - getADAAFunc y 9 c ≤ |x - y| := by
  rw [getADAAFunc_nine, getADAAFunc_nine]
  rcases le_total y x with h | h
  · rw [abs_of_nonneg (sub_nonneg.mpr h)]
    split_ifs <;> first
      | linarith
      | nlinarith [sq_nonneg (y - 1)]
  · rw [abs_of_nonpos (sub_nonpos.mpr h)]
    split_ifs <;> first
      | linarith
      | nlinarith [sq_nonneg (x + 1)]

/-- Algorithm 9: the antiderivative is 1-Lipschitz. -/
theorem hardclip_lipschitz (x y c : α) :
    |getADAAFunc x 9 c - getADAAFunc y 9 c| ≤ |x - y| := by
  rw [abs_le]
  constructor
  · have := hardclip_step y x c
    rw [abs_sub_comm] at this
    linarith
  · exact hardclip_step x y c

/-- Algorithm 9 from a consistent history: the core saturation on any shaped
input stays in `[-1, 1]`. -/
theorem hardclip_coreShape_bounds (s : SaturationCore α) (x c : α)
    (h : s.lastF = getADAAFunc s.lastX 9 c) :
    -1 ≤ (coreShape s x 9 c).1 ∧ (coreShape s x 9 c).1 ≤ 1 := by
  rw [coreShape_value s x 9 c (by decide)]
  split_ifs with hd
  · rw [directFunc_nine]
    exact ⟨le_max_left _ _, max_le (by norm_num) (min_le_left _ _)⟩
  · have hpos : 0 < |x - s.lastX| := lt_of_lt_of_le (by norm_num) (not_lt.mp hd)
    have hl := hardclip_lipschitz x s.lastX c
    rw [← h] at hl
    have : |(getADAAFunc x 9 c - s.lastF) / (x - s.lastX)| ≤ 1 := by
      rw [abs_div]
      exact (div_le_one hpos).mpr hl
    exact abs_le.mp this

/-- C5: for algorithm 9 (hard clip) with a consistent ADAA history
(`lastF = F_9 lastX`), for every `lastX` and every shaped input `x` the
core-shaping value lies in `[-1, 1]` (also for the shaped input of any `process`
call), and when `|x - lastX| < 1e-6` it is `clamp (x, -1, 1)`. -/
theorem hardclip_core_bounded (s : SaturationCore α) (x c : α)
    (h : s.lastF = getADAAFunc s.lastX 9 c) :
    (-1 ≤ (coreShape s x 9 c).1 ∧ (coreShape s x 9 c).1 ≤ 1)
      ∧ (|x - s.lastX| < 1.0e-6 → (coreShape s x 9 c).1 = max (-1) (min 1 x))
      ∧ (∀ inp d : α, -1 ≤ coreValue s inp 9 d c ∧ coreValue s inp 9 d c ≤ 1) := by
  refine ⟨hardclip_coreShape_bounds s x c h, ?_, ?_⟩
  · intro hd
    rw [coreShape_value s x 9 c (by decide), if_pos hd, directFunc_nine]
  · intro inp d
    unfold coreValue
    apply hardclip_coreShape_bounds
    rw [(preShape_history s inp 9 d c).1, (preShape_history s inp 9 d c).2]
    exact h

/-- Witness for C5: a fresh core has `lastX = 0` and `lastF = 0 = F_9 0`; the
shaped input is 3. -/
theorem hardclip_core_bounded_witness :
    (init : SaturationCore ℝ).lastF = getADAAFunc (init : SaturationCore ℝ).lastX 9 0
      ∧ (-1 ≤ (coreShape (init : SaturationCore ℝ) 3 9 0).1
        ∧ (coreShape (init : SaturationCore ℝ) 3 9 0).1 ≤ 1)
      ∧ (|(3 : ℝ) - (init : SaturationCore ℝ).lastX| < 1.0e-6 →
        (coreShape (init : SaturationCore ℝ) 3 9 0).1 = max (-1) (min 1 3))
      ∧ (∀ inp d : ℝ, -1 ≤ coreValue (init : SaturationCore ℝ) inp 9 d 0
        ∧ coreValue (init : SaturationCore ℝ) inp 9 d 0 ≤ 1) :=
  have h : (init : SaturationCore ℝ).lastF = getADAAFunc (init : SaturationCore ℝ).lastX 9 0 := by
    rw [getADAAFunc_nine]
    norm_num [SaturationCore.init]
  ⟨h, hardclip_core_bounded init 3 0 h⟩

end Adaa

/-! ## SaturationCore over the reals -/

section AdaaReal

open SaturationCore

/-- The antiderivatives of the algorithms other than 4, 7 and 10 vanish at 0, the
history that `reset` stores. -/
theorem getADAAFunc_zero (t : Int) (c : ℝ) (h0 : 0 ≤ t) (h11 : t ≤ 11) (h4 : t ≠ 4)
    (h7 : t ≠ 7) (h10 : t ≠ 10) : getADAAFunc (0 : ℝ) t c = 0 := by
  interval_cases t <;>
    first
    | exact absurd rfl h4
    | exact absurd rfl h7
    | exact absurd rfl h10
    | norm_num [getADAAFunc, intLangevin, intFrohlich]

/-- The pre-processing of the console algorithm on a prepared and reset core, for
input 1 at 0 dB: the shaped input is 1. -/
theorem preShape_console_one :
    preShape (reset (prepare (init : SaturationCore ℝ) 44100)) 1 4 0 0 =
      (1, { reset (prepare (init : SaturationCore ℝ) 44100) with
            sagEnvelope := (prepare (init : SaturationCore ℝ) 44100).sagAttack }) := by
  norm_num [preShape, sagStage, jlimit, reset]

/-- C3 (the code at the failing input): after `prepare (44100)` and `reset ()`,
`process (1, 4, 0, 0)` has shaped input 1 and core-shaping value `√2`, the
antiderivative `F_4 (1)` divided by 1, while the secant from a silent previous
sample is `(F_4 (1) - F_4 (0)) / (1 - 0) = √2 - 1`. -/
theorem reset_history_console :
    shapedInput (reset (prepare (init : SaturationCore ℝ) 44100)) 1 4 0 0 = 1
      ∧ coreValue (reset (prepare (init : SaturationCore ℝ) 44100)) 1 4 0 0 = Real.sqrt 2
      ∧ (getADAAFunc (1 : ℝ) 4 0 - getADAAFunc 0 4 0) / (1 - 0) = Real.sqrt 2 - 1
      ∧ coreValue (reset (prepare (init : SaturationCore ℝ) 44100)) 1 4 0 0
        ≠ (getADAAFunc (1 : ℝ) 4 0 - getADAAFunc 0 4 0) / (1 - 0) := by
  have hx : shapedInput (reset (prepare (init : SaturationCore ℝ) 44100)) 1 4 0 0 = 1 := by
    simp [shapedInput, foldScale, preShape_console_one]
  have hv : coreValue (reset (prepare (init : SaturationCore ℝ) 44100)) 1 4 0 0
      = Real.sqrt 2 := by
    rw [coreValue_adaa _ _ _ _ _ (by decide), hx]
    simp [reset, getADAAFunc]
    norm_num
  have hs : (getADAAFunc (1 : ℝ) 4 0 - getADAAFunc 0 4 0) / (1 - 0) = Real.sqrt 2 - 1 := by
    simp [getADAAFunc]
    norm_num
  refine ⟨hx, hv, hs, ?_⟩
  rw [hv, hs]
  linarith

/-! ## SaturationCore: the DC blocker -/

/-- For the algorithms other than 0 and 11 the post-processing does nothing. -/
theorem postShape_plain (s : SaturationCore ℝ) (out dryRect : ℝ) (type : Int) (character : ℝ)
    (h0 : type ≠ 0) (h11 : type ≠ 11) :
    postShape s out dryRect type character = (out, s) := by
  unfold postShape
  simp [h0, h11]

/-- The call, seen from the DC blocker, for the algorithms other than 0 and 11:
the returned value and the DC members afterwards. -/
theorem process_dc (s : SaturationCore ℝ) (inp : ℝ) (type : Int) (driveDB character : ℝ)
    (h0 : type ≠ 0) (h11 : type ≠ 11) :
    (process s inp type driveDB character).1 =
        coreValue s inp type driveDB character * getMakeupGain type - s.lastX_DC
          + s.dcBlockerCoef * s.dcBlockerState
      ∧ (process s inp type driveDB character).2.lastX_DC =
        coreValue s inp type driveDB character * getMakeupGain type
      ∧ (process s inp type driveDB character).2.dcBlockerState =
        (process s inp type driveDB character).1
      ∧ (process s inp type driveDB character).2.dcBlockerCoef = s.dcBlockerCoef := by
  unfold process dcBlock coreValue shapedInput
  simp only [postShape_plain _ _ _ _ _ h0 h11]
  obtain ⟨c1, c2, c3⟩ := coreShape_dc (preShape s inp type driveDB character).2
    (foldScale (preShape s inp type driveDB character).1 type) type character
  obtain ⟨p1, p2, p3⟩ := preShape_dc s inp type driveDB character
  rw [c1, c2, c3, p1, p2, p3]
  refine ⟨?_, ?_, ?_, ?_⟩ <;> first | rfl | trivial

/-- The DC coefficient is constant along a run of soft-tanh calls. -/
theorem stateAfter_coef (s : SaturationCore ℝ) (inp d c : ℝ) (n : Nat) :
    (stateAfter s inp 8 d c n).dcBlockerCoef = s.dcBlockerCoef := by
  induction n with
  | zero => rfl
  | succ m ih =>
    show (process (stateAfter s inp 8 d c m) inp 8 d c).2.dcBlockerCoef = _
    rw [(process_dc _ inp 8 d c (by decide) (by decide)).2.2.2, ih]

/-- In a run of soft-tanh calls with constant arguments, every returned value
from the third call on is the DC coefficient times the value before it. -/
theorem softTanh_run_step (s : SaturationCore ℝ) (inp d c : ℝ) (n : Nat) (hn : 1 ≤ n) :
    outputAt s inp 8 d c (n + 1) = s.dcBlockerCoef * outputAt s inp 8 d c n := by
  have hA := process_dc (stateAfter s inp 8 d c (n + 1)) inp 8 d c (by decide) (by decide)
  have hB := process_dc (stateAfter s inp 8 d c n) inp 8 d c (by decide) (by decide)
  have hS : stateAfter s inp 8 d c (n + 1) = (process (stateAfter s inp 8 d c n) inp 8 d c).2 :=
    rfl
  have hv1 := coreValue_stateAfter s inp d c 8 (by decide) (by decide) (n + 1) (by omega)
  have hv0 := coreValue_stateAfter s inp d c 8 (by decide) (by decide) n hn
  have hx : shapedInput (stateAfter s inp 8 d c (n + 1)) inp 8 d c
      = shapedInput (stateAfter s inp 8 d c n) inp 8 d c :=
    shapedInput_of_gt _ _ inp 8 d c (by decide)
  unfold outputAt
  rw [hA.1, hv1, hx, ← hv0, stateAfter_coef, hS, hB.2.1, hB.2.2.1]
  ring

/-- The returned values of a soft-tanh run from the second call on form a
geometric sequence. -/
theorem softTanh_run_geometric (s : SaturationCore ℝ) (inp d c : ℝ) (k : Nat) :
    outputAt s inp 8 d c (k + 1) = s.dcBlockerCoef ^ k * outputAt s inp 8 d c 1 := by
  induction k with
  | zero => simp
  | succ m ih => rw [softTanh_run_step s inp d c (m + 1) (by omega), ih]; ring

/-- C6: with DC coefficient `a = 1 - 220 / sr` (`sr > 220`) and starting from
`reset ()`, in a run of `process` calls with algorithm 8 and constant input,
drive and character, every returned value from the third call on is `a` times
the one before; so `|out| = a ^ (n - 2) * |out_2|` from the second call on, and
the returned values tend to 0.  (`outputAt ... n` is the value of call
`n + 1`.) -/
theorem dc_blocker_decay (s0 : SaturationCore ℝ) (sr inp d c : ℝ) (hsr : 220 < sr)
    (hcoef : s0.dcBlockerCoef = 1 - 220 / sr) :
    (∀ n : Nat, 2 ≤ n →
        outputAt (reset s0) inp 8 d c n = (1 - 220 / sr) * outputAt (reset s0) inp 8 d c (n - 1))
      ∧ (∀ n : Nat, 1 ≤ n →
        |outputAt (reset s0) inp 8 d c n|
          = (1 - 220 / sr) ^ (n - 1) * |outputAt (reset s0) inp 8 d c 1|)
      ∧ Filter.Tendsto (fun n : Nat => outputAt (reset s0) inp 8 d c n) Filter.atTop (nhds 0) := by
  have hc : (reset s0).dcBlockerCoef = 1 - 220 / sr := hcoef
  have hpos : (0 : ℝ) < sr := by linarith
  have ha0 : 0 < 1 - 220 / sr := by
    rw [sub_pos, div_lt_one hpos]; exact hsr
  have ha1 : 1 - 220 / sr < 1 := by
    have : 0 < 220 / sr := div_pos (by norm_num) hpos
    linarith
  refine ⟨?_, ?_, ?_⟩
  · intro n hn
    obtain ⟨m, rfl⟩ : ∃ m, n = m + 1 := ⟨n - 1, by omega⟩
    rw [softTanh_run_step (reset s0) inp d c m (by omega), hc]
    simp
  · intro n hn
    obtain ⟨m, rfl⟩ : ∃ m, n = m + 1 := ⟨n - 1, by omega⟩
    rw [softTanh_run_geometric (reset s0) inp d c m, hc, abs_mul, abs_pow, abs_of_pos ha0]
    simp
  · have h1 : Filter.Tendsto (fun k : Nat => (1 - 220 / sr) ^ k * outputAt (reset s0) inp 8 d c 1)
        Filter.atTop (nhds 0) := by
      have := (tendsto_pow_atTop_nhds_zero_of_lt_one ha0.le ha1).mul_const
        (outputAt (reset s0) inp 8 d c 1)
      simpa using this
    have h2 : Filter.Tendsto (fun k : Nat => outputAt (reset s0) inp 8 d c (k + 1))
        Filter.atTop (nhds 0) := by
      refine h1.congr ?_
      intro k
      rw [softTanh_run_geometric (reset s0) inp d c k, hc]
    exact (Filter.tendsto_add_atTop_iff_nat 1).mp h2

/-- Witness for C6: a fresh core after `prepare (44100)`, then `reset ()`, fed the
constant 1/2 at 0 dB with character 0. -/
theorem dc_blocker_decay_witness :
    (220 : ℝ) < 44100
      ∧ (prepare (init : SaturationCore ℝ) 44100).dcBlockerCoef = 1 - 220 / 44100
      ∧ (∀ n : Nat, 2 ≤ n →
        outputAt (reset (prepare (init : SaturationCore ℝ) 44100)) (1 / 2) 8 0 0 n
          = (1 - 220 / 44100)
            * outputAt (reset (prepare (init : SaturationCore ℝ) 44100)) (1 / 2) 8 0 0 (n - 1))
      ∧ (∀ n : Nat, 1 ≤ n →
        |outputAt (reset (prepare (init : SaturationCore ℝ) 44100)) (1 / 2) 8 0 0 n|
          = (1 - 220 / 44100) ^ (n - 1)
            * |outputAt (reset (prepare (init : SaturationCore ℝ) 44100)) (1 / 2) 8 0 0 1|)
      ∧ Filter.Tendsto
        (fun n : Nat => outputAt (reset (prepare (init : SaturationCore ℝ) 44100)) (1 / 2) 8 0 0 n)
        Filter.atTop (nhds 0) :=
  have h1 : (220 : ℝ) < 44100 := by norm_num
  have h2 : (prepare (init : SaturationCore ℝ) 44100).dcBlockerCoef = 1 - 220 / 44100 := by
    norm_num [prepare, SaturationCore.init]
  ⟨h1, h2, dc_blocker_decay (prepare init 44100) 44100 (1 / 2) 0 0 h1 h2⟩

end AdaaReal

end DspEngine

namespace DspEngine

/-! ## SaturationCore: antiderivative and direct function -/

section Derivative

open SaturationCore


/-- A function that agrees with `g` on the left of `a` and with `h` on the right
has their common derivative at `a`. -/
theorem hasDerivAt_of_join {f g h : ℝ → ℝ} {a d : ℝ} (hg : HasDerivAt g d a)
    (hh : HasDerivAt h d a) (hle : ∀ y, y ≤ a → f y = g y) (hge : ∀ y, a ≤ y → f y = h y) :
    HasDerivAt f d a := by
  have h1 : HasDerivWithinAt f d (Set.Iic a) a :=
    hg.hasDerivWithinAt.congr (fun y hy => hle y hy) (hle a le_rfl)
  have h2 : HasDerivWithinAt f d (Set.Ici a) a :=
    hh.hasDerivWithinAt.congr (fun y hy => hge y hy) (hge a le_rfl)
  have h3 := h1.union h2
  rwa [Set.Iic_union_Ici, hasDerivWithinAt_univ] at h3

/-- A function that agrees with `g` on an open interval around `a` has the
derivative of `g` at `a`. -/
theorem hasDerivAt_of_local {f g : ℝ → ℝ} {a d l u : ℝ} (hg : HasDerivAt g d a)
    (hl : l < a) (hu : a < u) (heq : ∀ y, l < y → y < u → f y = g y) : HasDerivAt f d a := by
  refine hg.congr_of_eventuallyEq ?_
  filter_upwards [Ioo_mem_nhds hl hu] with y hy
  exact heq y hy.1 hy.2

theorem getADAAFunc_five (x c : ℝ) :
    getADAAFunc x 5 c = 1 / 2 * x * x - (1 / 5 + c * (3 / 10)) * x * x * x / 3 := by
  unfold getADAAFunc
  norm_num

theorem directFunc_five (x c : ℝ) : directFunc x 5 c = x - (1 / 5 + c * (3 / 10)) * x * x := by
  unfold directFunc
  norm_num

theorem hasDerivAt_jfet (c x : ℝ) :
    HasDerivAt (fun y => getADAAFunc y 5 c) (directFunc x 5 c) x := by
  have h : HasDerivAt (fun y : ℝ => 1 / 2 * y * y - (1 / 5 + c * (3 / 10)) * y * y * y / 3)
      (x - (1 / 5 + c * (3 / 10)) * x * x) x := by
    have := (((hasDerivAt_id x).const_mul (1/2 : ℝ)).mul (hasDerivAt_id x)).sub
      (((((hasDerivAt_id x).const_mul (1 / 5 + c * (3 / 10))).mul (hasDerivAt_id x)).mul (hasDerivAt_id x)).div_const 3)
    convert this using 1
    simp only [id]
    ring
  rw [directFunc_five]
  exact h.congr_of_eventuallyEq (Filter.Eventually.of_forall (fun y => getADAAFunc_five y c))

/-- Derivative of a function with one branch above `a` and another at or below. -/
theorem hasDerivAt_ite_gt (g h g' h' : ℝ → ℝ) (a x : ℝ)
    (hg : x ≤ a → HasDerivAt g (g' x) x) (hh : a ≤ x → HasDerivAt h (h' x) x)
    (hv : g a = h a) (hd : g' a = h' a) :
    HasDerivAt (fun y => if y > a then h y else g y) (if x > a then h' x else g' x) x := by
  rcases lt_trichotomy x a with hx | hx | hx
  · rw [if_neg (not_lt.mpr hx.le)]
    refine hasDerivAt_of_local (hg hx.le) (sub_one_lt x) hx ?_
    intro y _ hy
    simp only [gt_iff_lt]
    rw [if_neg (not_lt.mpr hy.le)]
  · subst hx
    rw [if_neg (lt_irrefl x)]
    refine hasDerivAt_of_join (hg le_rfl) (hd ▸ hh le_rfl) ?_ ?_
    · intro y hy
      simp only [gt_iff_lt]
      rw [if_neg (not_lt.mpr hy)]
    · intro y hy
      simp only [gt_iff_lt]
      rcases hy.lt_or_eq with h1 | h1
      · rw [if_pos h1]
      · subst h1
        rw [if_neg (lt_irrefl x), hv]
  · rw [if_pos hx]
    refine hasDerivAt_of_local (hh hx.le) hx (lt_add_one x) ?_
    intro y hy _
    simp only [gt_iff_lt]
    rw [if_pos hy]

/-- Derivative of a function with one branch below `a` and another at or above. -/
theorem hasDerivAt_ite_lt (g h g' h' : ℝ → ℝ) (a x : ℝ)
    (hg : x ≤ a → HasDerivAt g (g' x) x) (hh : a ≤ x → HasDerivAt h (h' x) x)
    (hv : g a = h a) (hd : g' a = h' a) :
    HasDerivAt (fun y => if y < a then g y else h y) (if x < a then g' x else h' x) x := by
  rcases lt_trichotomy x a with hx | hx | hx
  · rw [if_pos hx]
    refine hasDerivAt_of_local (hg hx.le) (sub_one_lt x) hx ?_
    intro y _ hy
    beta_reduce
    rw [if_pos hy]
  · subst hx
    rw [if_neg (lt_irrefl x)]
    refine hasDerivAt_of_join (hd ▸ hg le_rfl) (hh le_rfl) ?_ ?_
    · intro y hy
      beta_reduce
      rcases hy.lt_or_eq with h1 | h1
      · rw [if_pos h1]
      · subst h1
        rw [if_neg (lt_irrefl y), hv]
    · intro y hy
      beta_reduce
      rw [if_neg (not_lt.mpr hy)]
  · rw [if_neg (not_lt.mpr hx.le)]
    refine hasDerivAt_of_local (hh hx.le) hx (lt_add_one x) ?_
    intro y hy _
    beta_reduce
    rw [if_neg (not_lt.mpr hy.le)]

/-- Algorithm 9 (hard clip): the antiderivative has the clamp as derivative. -/
theorem hasDerivAt_hardclip (c x : ℝ) :
    HasDerivAt (fun y => getADAAFunc y 9 c) (directFunc x 9 c) x := by
  have hF : (fun y => getADAAFunc y 9 c) = fun y : ℝ =>
      if y < -1 then -y - 1 / 2 else (fun z : ℝ => if z > 1 then z - 1 / 2 else 1 / 2 * z * z) y := by
    funext y
    unfold getADAAFunc
    norm_num
  have hf : directFunc x 9 c =
      if x < -1 then (fun _ : ℝ => (-1 : ℝ)) x
      else (fun z : ℝ => if z > 1 then (fun _ : ℝ => (1 : ℝ)) z else (fun w : ℝ => w) z) x := by
    unfold directFunc jlimit
    norm_num
  rw [hF, hf]
  refine hasDerivAt_ite_lt (fun y => -y - 1 / 2)
    (fun z => if z > 1 then z - 1 / 2 else 1 / 2 * z * z) (fun _ => -1)
    (fun z => if z > 1 then (fun _ : ℝ => (1 : ℝ)) z else (fun w : ℝ => w) z) (-1) x ?_ ?_ ?_ ?_
  · intro _
    have := ((hasDerivAt_id x).neg).sub_const (1 / 2 : ℝ)
    simpa using this
  · intro _
    refine hasDerivAt_ite_gt (fun z => 1 / 2 * z * z) (fun z => z - 1 / 2) (fun w => w)
      (fun _ => 1) 1 x ?_ ?_ ?_ ?_
    · intro _
      have := ((hasDerivAt_id x).const_mul (1 / 2 : ℝ)).mul (hasDerivAt_id x)
      convert this using 1
      simp only [id]
      ring
    · intro _
      have := (hasDerivAt_id x).sub_const (1 / 2 : ℝ)
      simpa using this
    · norm_num
    · norm_num
  · norm_num
  · norm_num

/-- Algorithm 1 (triode): the antiderivative has the direct function as
derivative, for every character with `0.5 + 1.5 c > 0`. -/
theorem hasDerivAt_triode (c x : ℝ) (hc : 0 ≤ c) :
    HasDerivAt (fun y => getADAAFunc y 1 c) (directFunc x 1 c) x := by
  have hk : 0 < 1 / 2 + c * (3 / 2) := by positivity
  have hF : (fun y => getADAAFunc y 1 c) = fun y : ℝ =>
      if y > 0 then y / (1 / 2 + c * (3 / 2))
        - Real.log (1 + (1 / 2 + c * (3 / 2)) * y) / ((1 / 2 + c * (3 / 2)) * (1 / 2 + c * (3 / 2)))
      else 1 / 2 * y * y := by
    funext y
    unfold getADAAFunc
    norm_num
  have hf : directFunc x 1 c =
      if x > 0 then x / (1 + (1 / 2 + c * (3 / 2)) * x) else x := by
    unfold directFunc
    norm_num
  rw [hF, hf]
  refine hasDerivAt_ite_gt (fun z => 1 / 2 * z * z)
    (fun y => y / (1 / 2 + c * (3 / 2))
        - Real.log (1 + (1 / 2 + c * (3 / 2)) * y) / ((1 / 2 + c * (3 / 2)) * (1 / 2 + c * (3 / 2))))
    (fun w => w) (fun w => w / (1 + (1 / 2 + c * (3 / 2)) * w)) 0 x ?_ ?_ ?_ ?_
  · intro _
    have := ((hasDerivAt_id x).const_mul (1 / 2 : ℝ)).mul (hasDerivAt_id x)
    convert this using 1
    simp only [id]
    ring
  · intro hx
    have hpos : 0 < 1 + (1 / 2 + c * (3 / 2)) * x := by positivity
    have h1 : HasDerivAt (fun y : ℝ => 1 + (1 / 2 + c * (3 / 2)) * y) (1 / 2 + c * (3 / 2)) x := by
      have := ((hasDerivAt_id x).const_mul (1 / 2 + c * (3 / 2))).const_add 1
      simpa using this
    have h2 := ((hasDerivAt_id x).div_const (1 / 2 + c * (3 / 2))).sub
      ((h1.log hpos.ne').div_const ((1 / 2 + c * (3 / 2)) * (1 / 2 + c * (3 / 2))))
    convert h2 using 1
    simp only [id]
    field_simp
    ring
  · norm_num
  · norm_num

/-- Algorithm 6 (BJT): the antiderivative has the direct function as
derivative, for every character with `0.1 + 5 c > 0`. -/
theorem hasDerivAt_bjt (c x : ℝ) (hc : 0 ≤ c) :
    HasDerivAt (fun y => getADAAFunc y 6 c) (directFunc x 6 c) x := by
  have hk : 0 < 1 / 10 + c * 5 := by positivity
  have hF : (fun y => getADAAFunc y 6 c) = fun y : ℝ =>
      if y > 0 then y / (1 / 10 + c * 5)
        + Real.exp (-((1 / 10 + c * 5) * y)) / ((1 / 10 + c * 5) * (1 / 10 + c * 5))
        - 1 / ((1 / 10 + c * 5) * (1 / 10 + c * 5))
      else 1 / 2 * y * y := by
    funext y
    unfold getADAAFunc
    norm_num
    split_ifs <;> ring_nf
  have hf : directFunc x 6 c =
      if x > 0 then (1 - Real.exp (-((1 / 10 + c * 5) * x))) / (1 / 10 + c * 5) else x := by
    unfold directFunc
    norm_num
    split_ifs <;> ring_nf
  rw [hF, hf]
  refine hasDerivAt_ite_gt (fun z => 1 / 2 * z * z)
    (fun y => y / (1 / 10 + c * 5)
        + Real.exp (-((1 / 10 + c * 5) * y)) / ((1 / 10 + c * 5) * (1 / 10 + c * 5))
        - 1 / ((1 / 10 + c * 5) * (1 / 10 + c * 5)))
    (fun w => w) (fun w => (1 - Real.exp (-((1 / 10 + c * 5) * w))) / (1 / 10 + c * 5)) 0 x
    ?_ ?_ ?_ ?_
  · intro _
    have := ((hasDerivAt_id x).const_mul (1 / 2 : ℝ)).mul (hasDerivAt_id x)
    convert this using 1
    simp only [id]
    ring
  · intro _
    have h1 : HasDerivAt (fun y : ℝ => -((1 / 10 + c * 5) * y)) (-(1 / 10 + c * 5)) x := by
      have := ((hasDerivAt_id x).const_mul (1 / 10 + c * 5)).neg
      simpa using this
    have h2 := (((hasDerivAt_id x).div_const (1 / 10 + c * 5)).add
      (h1.exp.div_const ((1 / 10 + c * 5) * (1 / 10 + c * 5)))).sub_const
      (1 / ((1 / 10 + c * 5) * (1 / 10 + c * 5)))
    convert h2 using 1
    simp only [id]
    field_simp
    ring
  · simp
  · simp

/-- Algorithm 7 (diode): the antiderivative has the direct function as
derivative, for every character with `1.5 + 3 c > 0`. -/
theorem hasDerivAt_diode (c x : ℝ) (hc : 0 ≤ c) :
    HasDerivAt (fun y => getADAAFunc y 7 c) (directFunc x 7 c) x := by
  have hk : 0 < 3 / 2 + c * 3 := by positivity
  have hF : (fun y => getADAAFunc y 7 c) = fun y : ℝ =>
      if y > 0 then (y + Real.exp (-((3 / 2 + c * 3) * y)) / (3 / 2 + c * 3)) / (3 / 2 + c * 3)
      else (-y + Real.exp ((3 / 2 + c * 3) * y) / (3 / 2 + c * 3)) / (3 / 2 + c * 3) := by
    funext y
    unfold getADAAFunc
    norm_num
    split_ifs with hy
    · rw [abs_of_pos hy]
      ring_nf
    · rw [abs_of_nonpos (not_lt.mp hy)]
      ring_nf
  have hf : directFunc x 7 c =
      if x > 0 then (1 - Real.exp (-((3 / 2 + c * 3) * x))) / (3 / 2 + c * 3)
      else (-1 + Real.exp ((3 / 2 + c * 3) * x)) / (3 / 2 + c * 3) := by
    unfold directFunc
    norm_num
    split_ifs <;> ring_nf
  rw [hF, hf]
  refine hasDerivAt_ite_gt
    (fun y => (-y + Real.exp ((3 / 2 + c * 3) * y) / (3 / 2 + c * 3)) / (3 / 2 + c * 3))
    (fun y => (y + Real.exp (-((3 / 2 + c * 3) * y)) / (3 / 2 + c * 3)) / (3 / 2 + c * 3))
    (fun w => (-1 + Real.exp ((3 / 2 + c * 3) * w)) / (3 / 2 + c * 3))
    (fun w => (1 - Real.exp (-((3 / 2 + c * 3) * w))) / (3 / 2 + c * 3)) 0 x ?_ ?_ ?_ ?_
  · intro _
    have h1 : HasDerivAt (fun y : ℝ => (3 / 2 + c * 3) * y) (3 / 2 + c * 3) x := by
      have := (hasDerivAt_id x).const_mul (3 / 2 + c * 3)
      simpa using this
    have h2 := (((hasDerivAt_id x).neg).add (h1.exp.div_const (3 / 2 + c * 3))).div_const
      (3 / 2 + c * 3)
    convert h2 using 1
    simp only [id]
    field_simp
  · intro _
    have h1 : HasDerivAt (fun y : ℝ => -((3 / 2 + c * 3) * y)) (-(3 / 2 + c * 3)) x := by
      have := ((hasDerivAt_id x).const_mul (3 / 2 + c * 3)).neg
      simpa using this
    have h2 := ((hasDerivAt_id x).add (h1.exp.div_const (3 / 2 + c * 3))).div_const
      (3 / 2 + c * 3)
    convert h2 using 1
    simp only [id]
    field_simp
    ring
  · simp
  · simp

/-- Algorithm 11 (rectify): the antiderivative `x |x| / 2` has `|x|` as
derivative. -/
theorem hasDerivAt_rectify (c x : ℝ) :
    HasDerivAt (fun y => getADAAFunc y 11 c) (directFunc x 11 c) x := by
  have hF : (fun y => getADAAFunc y 11 c) = fun y : ℝ =>
      if y > 0 then 1 / 2 * y * y else -(1 / 2 * y * y) := by
    funext y
    unfold getADAAFunc
    norm_num
    split_ifs with hy
    · rw [abs_of_pos hy]
    · rw [abs_of_nonpos (not_lt.mp hy)]
      ring
  have hf : directFunc x 11 c = if x > 0 then x else -x := by
    unfold directFunc
    norm_num
    split_ifs with hx
    · rw [abs_of_pos hx]
    · rw [abs_of_nonpos (not_lt.mp hx)]
  rw [hF, hf]
  refine hasDerivAt_ite_gt (fun y => -(1 / 2 * y * y)) (fun y => 1 / 2 * y * y)
    (fun w => -w) (fun w => w) 0 x ?_ ?_ ?_ ?_
  · intro _
    have := (((hasDerivAt_id x).const_mul (1 / 2 : ℝ)).mul (hasDerivAt_id x)).neg
    convert this using 1
    simp only [id]
    ring
  · intro _
    have := ((hasDerivAt_id x).const_mul (1 / 2 : ℝ)).mul (hasDerivAt_id x)
    convert this using 1
    simp only [id]
    ring
  · simp
  · simp

/-- Algorithm 4 (console): `√(1 + x²)` has `x / √(1 + x²)` as derivative. -/
theorem hasDerivAt_console (c x : ℝ) :
    HasDerivAt (fun y => getADAAFunc y 4 c) (directFunc x 4 c) x := by
  have hF : (fun y => getADAAFunc y 4 c) = fun y : ℝ => Real.sqrt (1 + y * y) := by
    funext y
    unfold getADAAFunc
    norm_num
  have hf : directFunc x 4 c = x / Real.sqrt (1 + x * x) := by
    unfold directFunc
    norm_num
  rw [hF, hf]
  have hpos : 0 < 1 + x * x := by nlinarith [mul_self_nonneg x]
  have h1 : HasDerivAt (fun y : ℝ => 1 + y * y) (x + x) x := by
    have := ((hasDerivAt_id x).mul (hasDerivAt_id x)).const_add 1
    simpa using this
  have h2 := h1.sqrt hpos.ne'
  convert h2 using 1
  have hs : 0 < Real.sqrt (1 + x * x) := Real.sqrt_pos.mpr hpos
  field_simp
  ring

/-- Algorithm 10 (wavefold): `-cos (w x) / w` has `sin (w x)` as derivative, for
every character with `0.5 + 2.5 c > 0`. -/
theorem hasDerivAt_wavefold (c x : ℝ) (hc : 0 ≤ c) :
    HasDerivAt (fun y => getADAAFunc y 10 c) (directFunc x 10 c) x := by
  have hw : 0 < (1 / 2 + c * (5 / 2)) * Real.pi := mul_pos (by positivity) Real.pi_pos
  have hF : (fun y => getADAAFunc y 10 c) = fun y : ℝ =>
      -Real.cos (y * ((1 / 2 + c * (5 / 2)) * Real.pi)) / ((1 / 2 + c * (5 / 2)) * Real.pi) := by
    funext y
    unfold getADAAFunc
    norm_num
  have hf : directFunc x 10 c = Real.sin (x * ((1 / 2 + c * (5 / 2)) * Real.pi)) := by
    unfold directFunc
    norm_num
  rw [hF, hf]
  have h1 : HasDerivAt (fun y : ℝ => y * ((1 / 2 + c * (5 / 2)) * Real.pi))
      ((1 / 2 + c * (5 / 2)) * Real.pi) x := by
    have := (hasDerivAt_id x).mul_const ((1 / 2 + c * (5 / 2)) * Real.pi)
    simpa using this
  have h2 := (h1.cos.neg).div_const ((1 / 2 + c * (5 / 2)) * Real.pi)
  convert h2 using 1
  field_simp

/-- Algorithm 8 (soft tanh) inside the guard `|x| ≤ 10`: `log (cosh x)` has
`tanh x` as derivative. -/
theorem hasDerivAt_softTanh (c x : ℝ) (hx : |x| < 10) :
    HasDerivAt (fun y => getADAAFunc y 8 c) (directFunc x 8 c) x := by
  have hf : directFunc x 8 c = Real.tanh x := by
    unfold directFunc
    norm_num
  rw [hf]
  have h1 : HasDerivAt (fun y : ℝ => Real.log (Real.cosh y)) (Real.tanh x) x := by
    have := (Real.hasDerivAt_cosh x).log (Real.cosh_pos x).ne'
    rwa [← Real.tanh_eq_sinh_div_cosh] at this
  rw [abs_lt] at hx
  refine hasDerivAt_of_local h1 hx.1 hx.2 ?_
  intro y hy1 hy2
  have hy : ¬ (|y| > 10) := not_lt.mpr (abs_le.mpr ⟨hy1.le, hy2.le⟩)
  unfold getADAAFunc
  norm_num
  intro h
  exact absurd h hy

/-- Away from zero `log |sinh y / y|` has the Langevin function as derivative. -/
theorem hasDerivAt_logSinhDiv (x : ℝ) (hx : x ≠ 0) :
    HasDerivAt (fun y : ℝ => Real.log |Real.sinh y / y|) (1 / Real.tanh x - 1 / x) x := by
  have hs : Real.sinh x ≠ 0 := fun h => hx (Real.sinh_eq_zero.mp h)
  have hc : Real.cosh x ≠ 0 := (Real.cosh_pos x).ne'
  have h1 := (Real.hasDerivAt_sinh x).div (hasDerivAt_id x) hx
  have h2 := h1.log (div_ne_zero hs hx)
  have h3 : (fun y : ℝ => Real.log |Real.sinh y / y|) = fun y => Real.log (Real.sinh y / id y) := by
    funext y
    rw [Real.log_abs]
    rfl
  rw [h3]
  convert h2 using 1
  rw [Real.tanh_eq_sinh_div_cosh]
  simp only [id]
  field_simp
  ring

/-- Algorithm 0 (tape) off the guard points `|x| = 1e-5`: the antiderivative has
`3 · langevin` as derivative. -/
theorem hasDerivAt_tape (c x : ℝ) (hx : |x| ≠ 1.0e-5) :
    HasDerivAt (fun y => getADAAFunc y 0 c) (directFunc x 0 c) x := by
  have hF : ∀ y : ℝ, getADAAFunc y 0 c = 3 * intLangevin y := by
    intro y
    unfold getADAAFunc
    norm_num
  have hf : directFunc x 0 c = 3 * langevin x := by
    unfold directFunc
    norm_num
  rw [hf]
  rcases lt_or_gt_of_ne hx with h | h
  · -- inside the guard: `x² / 6`
    have hl : langevin x = x / 3 := by
      unfold langevin
      rw [if_pos h]
      norm_num
    rw [hl]
    have h1 : HasDerivAt (fun y : ℝ => 3 * (y * y / 6)) (3 * (x / 3)) x := by
      have := (((hasDerivAt_id x).mul (hasDerivAt_id x)).div_const 6).const_mul 3
      convert this using 1
      simp only [id]
      ring
    have h2 := abs_lt.mp h
    refine hasDerivAt_of_local h1 h2.1 h2.2 ?_
    intro y hy1 hy2
    rw [hF]
    unfold intLangevin
    rw [if_pos (abs_lt.mpr ⟨hy1, hy2⟩)]
    norm_num
  · -- outside the guard: `log |sinh x / x|`
    have hl : langevin x = 1 / Real.tanh x - 1 / x := by
      unfold langevin
      rw [if_neg (not_lt.mpr h.le)]
      norm_num
    rw [hl]
    have hx0 : x ≠ 0 := by
      intro h0
      rw [h0, abs_zero] at h
      norm_num at h
    have h1 := (hasDerivAt_logSinhDiv x hx0).const_mul 3
    rcases lt_or_gt_of_ne hx0 with hneg | hpos
    · have hlt : x < -1.0e-5 := by
        rw [abs_of_neg hneg] at h
        linarith
      refine hasDerivAt_of_local h1 (sub_one_lt x) hlt ?_
      intro y _ hy
      rw [hF]
      unfold intLangevin
      have : ¬ |y| < 1.0e-5 := by
        rw [abs_lt]
        intro hh
        linarith [hh.1]
      rw [if_neg this]
      rfl
    · have hgt : 1.0e-5 < x := by
        rw [abs_of_pos hpos] at h
        exact h
      refine hasDerivAt_of_local h1 hgt (lt_add_one x) ?_
      intro y hy _
      rw [hF]
      unfold intLangevin
      have : ¬ |y| < 1.0e-5 := by
        rw [abs_lt]
        intro hh
        linarith [hh.2]
      rw [if_neg this]
      rfl

/-- The saturating curve `x / (1 + b x)` is the derivative of
`x / b - log (1 + b x) / b²` on `x ≥ 0`. -/
theorem hasDerivAt_frohlich (b x : ℝ) (hb : 0 < b) (hx : 0 ≤ x) :
    HasDerivAt (fun y : ℝ => y / b - Real.log (1 + b * y) / (b * b)) (x / (1 + b * x)) x := by
  have hden : 0 < 1 + b * x := by positivity
  have h1 : HasDerivAt (fun y : ℝ => 1 + b * y) b x := by
    have := ((hasDerivAt_id x).const_mul b).const_add 1
    simpa using this
  have h2 := ((hasDerivAt_id x).div_const b).sub ((h1.log hden.ne').div_const (b * b))
  convert h2 using 1
  field_simp
  ring

/-- The mirrored curve: `x / (1 + b (-x))` is the derivative of
`-x / b - log (1 + b (-x)) / b²` on `x ≤ 0`. -/
theorem hasDerivAt_frohlich_neg (b x : ℝ) (hb : 0 < b) (hx : x ≤ 0) :
    HasDerivAt (fun y : ℝ => -y / b - Real.log (1 + b * -y) / (b * b))
      (x / (1 + b * -x)) x := by
  have hden : 0 < 1 + b * -x := by
    have : 0 ≤ b * -x := mul_nonneg hb.le (by linarith)
    linarith
  have h1 : HasDerivAt (fun y : ℝ => 1 + b * -y) (-b) x := by
    have := (((hasDerivAt_id x).neg).const_mul b).const_add 1
    simpa using this
  have h2 := (((hasDerivAt_id x).neg).div_const b).sub ((h1.log hden.ne').div_const (b * b))
  convert h2 using 1
  have hb0 : b ≠ 0 := hb.ne'
  have he : 1 + b * -x = 1 - b * x := by ring
  have hne : 1 - b * x ≠ 0 := he ▸ hden.ne'
  rw [he]
  field_simp
  ring


/-- Algorithm 3 (transformer) at zero and outside the guard `|x| < 1e-5`: the
antiderivative has the direct function as derivative, for every character with
`0.5 + 0.5 c > 0`. -/
theorem hasDerivAt_transformer (c x : ℝ) (hc : 0 ≤ c) (hx : x = 0 ∨ 1.0e-5 < |x|) :
    HasDerivAt (fun y => getADAAFunc y 3 c) (directFunc x 3 c) x := by
  have hb : 0 < 1 / 2 + c * (1 / 2) := by positivity
  have hF : ∀ y : ℝ, getADAAFunc y 3 c = intFrohlich y (1 / 2 + c * (1 / 2)) := by
    intro y
    unfold getADAAFunc
    norm_num
  have hf : directFunc x 3 c = x / (1 + (1 / 2 + c * (1 / 2)) * |x|) := by
    unfold directFunc
    norm_num
  rw [hf]
  rcases hx with h0 | h
  · -- at zero, inside the guard: `x² / 2`
    subst h0
    have h1 : HasDerivAt (fun y : ℝ => y * y / 2)
        (0 / (1 + (1 / 2 + c * (1 / 2)) * |(0 : ℝ)|)) 0 := by
      have := ((hasDerivAt_id (0 : ℝ)).mul (hasDerivAt_id (0 : ℝ))).div_const 2
      convert this using 1
      simp
    refine hasDerivAt_of_local h1 (show (-1.0e-5 : ℝ) < 0 by norm_num)
      (show (0 : ℝ) < 1.0e-5 by norm_num) ?_
    intro y hy1 hy2
    rw [hF]
    unfold intFrohlich
    rw [if_pos (abs_lt.mpr ⟨hy1, hy2⟩)]
    norm_num
  · have hx0 : x ≠ 0 := by
      intro h0
      rw [h0, abs_zero] at h
      norm_num at h
    rcases lt_or_gt_of_ne hx0 with hneg | hpos
    · -- below the guard: `|y| = -y`
      have hlt : x < -1.0e-5 := by
        rw [abs_of_neg hneg] at h
        linarith
      rw [abs_of_neg hneg]
      have h3 := hasDerivAt_frohlich_neg (1 / 2 + c * (1 / 2)) x hb hneg.le
      refine hasDerivAt_of_local h3 (sub_one_lt x) hlt ?_
      intro y _ hy
      rw [hF]
      unfold intFrohlich
      have hyn : y < 0 := by linarith
      have : ¬ |y| < 1.0e-5 := by
        rw [abs_lt]
        intro hh
        linarith [hh.1]
      rw [if_neg this]
      simp only [libm_log]
      rw [abs_of_neg hyn]
      norm_num
    · -- above the guard: `|y| = y`
      have hgt : 1.0e-5 < x := by
        rw [abs_of_pos hpos] at h
        exact h
      rw [abs_of_pos hpos]
      have h3 := hasDerivAt_frohlich (1 / 2 + c * (1 / 2)) x hb hpos.le
      refine hasDerivAt_of_local h3 hgt (lt_add_one x) ?_
      intro y hy _
      rw [hF]
      unfold intFrohlich
      have hyp : 0 < y := by
        have : (0 : ℝ) < 1.0e-5 := by norm_num
        linarith
      have : ¬ |y| < 1.0e-5 := by
        rw [abs_lt]
        intro hh
        linarith [hh.2]
      rw [if_neg this]
      simp only [libm_log]
      rw [abs_of_pos hyp]
      norm_num

/-- Algorithm 8 (soft tanh) above the guard: for `x > 10` the antiderivative is
`x - 0.693147`, with derivative 1. -/
theorem hasDerivAt_softTanh_above (c x : ℝ) (hx : 10 < x) :
    HasDerivAt (fun y => getADAAFunc y 8 c) 1 x := by
  have h1 : HasDerivAt (fun y : ℝ => y - 0.693147) 1 x := by
    have := (hasDerivAt_id x).sub_const (0.693147 : ℝ)
    simpa using this
  refine hasDerivAt_of_local h1 hx (lt_add_one x) ?_
  intro y hy _
  have hy0 : 0 < y := by linarith
  unfold getADAAFunc
  norm_num
  rw [abs_of_pos hy0, if_pos hy]

/-- The hyperbolic tangent stays below 1. -/
theorem tanh_lt_one (x : ℝ) : Real.tanh x < 1 := by
  rw [Real.tanh_eq_sinh_div_cosh, div_lt_one (Real.cosh_pos x)]
  exact Real.sinh_lt_cosh x

/-- Algorithm 2 (pentode): the derivative of the antiderivative as coded, with
the constant `0.08333333`. -/
theorem hasDerivAt_pentode_coded (c x : ℝ) :
    HasDerivAt (fun y => getADAAFunc y 2 c) (x - 4 * 0.08333333 * (x * x * x)) x := by
  have hF : (fun y => getADAAFunc y 2 c) = fun y : ℝ =>
      1 / 2 * y * y - y * y * y * y * 0.08333333 := by
    funext y
    unfold getADAAFunc
    norm_num
  rw [hF]
  have := (((hasDerivAt_id x).const_mul (1 / 2 : ℝ)).mul (hasDerivAt_id x)).sub
    (((((hasDerivAt_id x).mul (hasDerivAt_id x)).mul (hasDerivAt_id x)).mul
      (hasDerivAt_id x)).mul_const (0.08333333 : ℝ))
  convert this using 1
  simp only [id]
  ring

/-- Algorithm 3 (transformer) inside the guard: the antiderivative is `x² / 2`,
with derivative `x`. -/
theorem hasDerivAt_transformer_inside (c x : ℝ) (hx : |x| < 1.0e-5) :
    HasDerivAt (fun y => getADAAFunc y 3 c) x x := by
  have h1 : HasDerivAt (fun y : ℝ => y * y / 2) x x := by
    have := ((hasDerivAt_id x).mul (hasDerivAt_id x)).div_const 2
    convert this using 1
    simp only [id]
    ring
  have h2 := abs_lt.mp hx
  refine hasDerivAt_of_local h1 h2.1 h2.2 ?_
  intro y hy1 hy2
  unfold getADAAFunc
  norm_num
  unfold intFrohlich
  rw [if_pos (abs_lt.mpr ⟨hy1, hy2⟩)]
  norm_num

/-- C1 (as amended): for every ADAA algorithm `t` in 0..11 other than 2, every
character `c` in `[0, 1]` and every real `x` off the guard branches of the
antiderivative (`|x| ≠ 1e-5` for `t = 0`; `x = 0` or `|x| > 1e-5` for `t = 3`;
`|x| < 10` for `t = 8`), the antiderivative selected by `getADAAFunc (., t, c)`
is differentiable at `x` and its derivative is exactly the direct function
`f_t (x, c)` of the near-zero-delta branch of `process`. -/
theorem adaa_derivative_matches (t : Int) (c x : ℝ) (h0 : 0 ≤ t) (h11 : t ≤ 11)
    (hc0 : 0 ≤ c) (_hc1 : c ≤ 1) (h2 : t ≠ 2) (hg0 : t = 0 → |x| ≠ 1.0e-5)
    (hg3 : t = 3 → x = 0 ∨ 1.0e-5 < |x|) (hg8 : t = 8 → |x| < 10) :
    HasDerivAt (fun y => getADAAFunc y t c) (directFunc x t c) x := by
  interval_cases t
  · exact hasDerivAt_tape c x (hg0 rfl)
  · exact hasDerivAt_triode c x hc0
  · exact absurd rfl h2
  · exact hasDerivAt_transformer c x hc0 (hg3 rfl)
  · exact hasDerivAt_console c x
  · exact hasDerivAt_jfet c x
  · exact hasDerivAt_bjt c x hc0
  · exact hasDerivAt_diode c x hc0
  · exact hasDerivAt_softTanh c x (hg8 rfl)
  · exact hasDerivAt_hardclip c x
  · exact hasDerivAt_wavefold c x hc0
  · exact hasDerivAt_rectify c x

/-- Witness for C1 (as amended): the transformer at `x = 1`, character 1/2. -/
theorem adaa_derivative_matches_witness :
    (0 : Int) ≤ 3 ∧ (3 : Int) ≤ 11 ∧ (0 : ℝ) ≤ 1 / 2 ∧ (1 / 2 : ℝ) ≤ 1 ∧ (3 : Int) ≠ 2
      ∧ ((3 : Int) = 0 → |(1 : ℝ)| ≠ 1.0e-5)
      ∧ ((3 : Int) = 3 → (1 : ℝ) = 0 ∨ 1.0e-5 < |(1 : ℝ)|)
      ∧ ((3 : Int) = 8 → |(1 : ℝ)| < 10)
      ∧ HasDerivAt (fun y : ℝ => getADAAFunc y 3 (1 / 2)) (directFunc (1 : ℝ) 3 (1 / 2)) 1 :=
  have hg0 : (3 : Int) = 0 → |(1 : ℝ)| ≠ 1.0e-5 := fun h => absurd h (by decide)
  have hg3 : (3 : Int) = 3 → (1 : ℝ) = 0 ∨ 1.0e-5 < |(1 : ℝ)| :=
    fun _ => Or.inr (by rw [abs_one]; norm_num)
  have hg8 : (3 : Int) = 8 → |(1 : ℝ)| < 10 := fun h => absurd h (by decide)
  ⟨by decide, by decide, by norm_num, by norm_num, by decide, hg0, hg3, hg8,
    adaa_derivative_matches 3 (1 / 2) 1 (by decide) (by decide) (by norm_num) (by norm_num)
      (by decide) hg0 hg3 hg8⟩

/-- C1 (counterexample): for algorithm 8 at `x = 11`, character 0, the
antiderivative is `x - 0.693147` around `x`, so its derivative is 1 and not the
direct function `tanh 11 < 1`; for algorithm 3 at `x = 5e-6`, character 0, the
antiderivative is `x² / 2` around `x`, so its derivative is `x` and not the
direct function `x / (1 + 0.5 x)`. -/
theorem adaa_derivative_counterexample :
    ((0 : Int) ≤ 8 ∧ (8 : Int) ≤ 11 ∧ (0 : ℝ) ≤ 0 ∧ (0 : ℝ) ≤ 1
        ∧ ¬ HasDerivAt (fun y : ℝ => getADAAFunc y 8 0) (directFunc (11 : ℝ) 8 0) 11)
      ∧ ((0 : Int) ≤ 3 ∧ (3 : Int) ≤ 11
        ∧ ¬ HasDerivAt (fun y : ℝ => getADAAFunc y 3 0) (directFunc (5.0e-6 : ℝ) 3 0) 5.0e-6) := by
  refine ⟨⟨by decide, by decide, le_refl _, zero_le_one, ?_⟩, by decide, by decide, ?_⟩
  · intro h
    have h1 := hasDerivAt_softTanh_above 0 11 (by norm_num)
    have h2 : directFunc (11 : ℝ) 8 0 = 1 := h.unique h1
    have h3 : directFunc (11 : ℝ) 8 0 = Real.tanh 11 := by
      unfold directFunc
      norm_num
    rw [h3] at h2
    exact absurd h2 (tanh_lt_one 11).ne
  · intro h
    have h1 := hasDerivAt_transformer_inside 0 5.0e-6 (by rw [abs_of_pos] <;> norm_num)
    have h2 : directFunc (5.0e-6 : ℝ) 3 0 = 5.0e-6 := h.unique h1
    unfold directFunc at h2
    norm_num at h2
    rw [abs_of_pos (by norm_num)] at h2
    norm_num at h2

end Derivative

end DspEngine

namespace DspEngine

/-! ## HighPrecisionFilter: the stage cascade and the one-pole path -/

section StageLoop

variable {α σ : Type}

open HighPrecisionFilter

/-- One active stage: the stage loop runs stage 0. -/
theorem runStages_one (ops : StageOps σ α) (f : Fin 4 → σ) (x : α) :
    (runStages ops 1 f x).1 = (ops.processSample (f 0) x).1 := by
  simp [runStages, List.range_succ]

/-- Two active stages: the stage loop runs stage 0, then stage 1. -/
theorem runStages_two (ops : StageOps σ α) (f : Fin 4 → σ) (x : α) :
    (runStages ops 2 f x).1
      = (ops.processSample (f 1) (ops.processSample (f 0) x).1).1 := by
  simp [runStages, List.range_succ, Function.update]

/-- Four active stages: the stage loop runs stages 0, 1, 2, 3 in this order. -/
theorem runStages_four (ops : StageOps σ α) (f : Fin 4 → σ) (x : α) :
    (runStages ops 4 f x).1
      = (ops.processSample (f 3)
          (ops.processSample (f 2)
            (ops.processSample (f 1) (ops.processSample (f 0) x).1).1).1).1 := by
  simp [runStages, List.range_succ, Function.update]

end StageLoop

section StageTheorems

variable {α : Type} [LinearOrderedField α] {σ : Type}

open HighPrecisionFilter

/-- A changed, non-bypassed request with a slope other than 6 dB writes the cache,
the stage count and the stages below the count. -/
theorem setParams_changed_stages (ops : StageOps σ α) (s : HighPrecisionFilter σ α)
    (type : FType) (freq : α) (slope : Slope) (hu : unchanged s type freq slope = false)
    (hb : bypassRule type freq = false) (h6 : slope ≠ Slope.Slope6dB) :
    setParams ops s type freq slope =
      { s with
        currentType := type
        currentFreq := freq
        currentSlope := slope
        currentSampleRate := s.spec.sampleRate
        isBypassed := false
        activeStages := numStages slope
        filters := fun i =>
          if i.val < numStages slope then configureStage ops type freq (stageQ slope i.val) (s.filters i)
          else s.filters i } := by
  unfold setParams configureStage
  simp [hu, hb, h6]

/-- C11: when a `setParams (type, freq, slope)` call is not the no-op case, does
not trigger bypass and `slope` is not 6 dB, the active-stage count becomes 1, 2,
4 for 12, 24, 48 dB; every stage below the count gets the mode matching `type`,
the cutoff `freq` and the resonance of the table (12 dB: 0.7071; 24 dB: 0.5412,
1.3066; 48 dB: 0.5098, 0.6013, 0.8999, 2.5629, in stage order); the stages at or
above the count are the ones before the call. -/
theorem setParams_configures_stages (ops : StageOps σ α) (s : HighPrecisionFilter σ α)
    (type : FType) (freq : α) (slope : Slope) (hu : unchanged s type freq slope = false)
    (hb : bypassRule type freq = false) (h6 : slope ≠ Slope.Slope6dB) :
    (slope = Slope.Slope12dB →
        (setParams ops s type freq slope).activeStages = 1
          ∧ (setParams ops s type freq slope).filters 0
            = configureStage ops type freq 0.7071 (s.filters 0)
          ∧ ∀ i : Fin 4, 1 ≤ i.val → (setParams ops s type freq slope).filters i = s.filters i)
      ∧ (slope = Slope.Slope24dB →
        (setParams ops s type freq slope).activeStages = 2
          ∧ (setParams ops s type freq slope).filters 0
            = configureStage ops type freq 0.5412 (s.filters 0)
          ∧ (setParams ops s type freq slope).filters 1
            = configureStage ops type freq 1.3066 (s.filters 1)
          ∧ ∀ i : Fin 4, 2 ≤ i.val → (setParams ops s type freq slope).filters i = s.filters i)
      ∧ (slope = Slope.Slope48dB →
        (setParams ops s type freq slope).activeStages = 4
          ∧ (setParams ops s type freq slope).filters 0
            = configureStage ops type freq 0.5098 (s.filters 0)
          ∧ (setParams ops s type freq slope).filters 1
            = configureStage ops type freq 0.6013 (s.filters 1)
          ∧ (setParams ops s type freq slope).filters 2
            = configureStage ops type freq 0.8999 (s.filters 2)
          ∧ (setParams ops s type freq slope).filters 3
            = configureStage ops type freq 2.5629 (s.filters 3)) := by
  rw [setParams_changed_stages ops s type freq slope hu hb h6]
  refine ⟨?_, ?_, ?_⟩
  · rintro rfl
    refine ⟨rfl, ?_, ?_⟩
    · simp [numStages, stageQ]
    · intro i hi
      have : ¬ i.val < 1 := by omega
      simp [numStages, this]
  · rintro rfl
    refine ⟨rfl, ?_, ?_, ?_⟩
    · simp [numStages, stageQ]
    · simp [numStages, stageQ]
    · intro i hi
      have : ¬ i.val < 2 := by omega
      simp [numStages, this]
  · rintro rfl
    have h3 : ((3 : Fin 4) : Nat) = 3 := rfl
    refine ⟨rfl, ?_, ?_, ?_, ?_⟩ <;> simp [numStages, stageQ, h3]

/-- Witness for C11: a prepared filter asked for a 48 dB high-pass at 100 Hz. -/
theorem setParams_configures_stages_witness :
    unchanged (hpf0 ℚ) FType.HighPass 100 Slope.Slope48dB = false
      ∧ bypassRule FType.HighPass (100 : ℚ) = false
      ∧ Slope.Slope48dB ≠ Slope.Slope6dB
      ∧ (setParams (wireStage ℚ) (hpf0 ℚ) FType.HighPass 100 Slope.Slope48dB).activeStages = 4 :=
  have hu : unchanged (hpf0 ℚ) FType.HighPass 100 Slope.Slope48dB = false := by
    simp [unchanged, hpf0, HighPrecisionFilter.prepare, HighPrecisionFilter.init]
  have hb : bypassRule FType.HighPass (100 : ℚ) = false := by
    simp [bypassRule]; norm_num
  ⟨hu, hb, by decide,
    ((setParams_configures_stages (wireStage ℚ) (hpf0 ℚ) FType.HighPass 100 Slope.Slope48dB
      hu hb (by decide)).2.2 rfl).1⟩

/-- The call `process` leaves the slope, the stage count and the bypass flag alone. -/
theorem process_config [Libm α] (ops : StageOps σ α) (s : HighPrecisionFilter σ α) (x : α) :
    (process ops s x).2.isBypassed = s.isBypassed
      ∧ (process ops s x).2.currentSlope = s.currentSlope
      ∧ (process ops s x).2.activeStages = s.activeStages := by
  unfold process
  split_ifs <;> simp

/-- In every reachable state that is not bypassed and not on the 6 dB slope, the
stage count is the one `setParams` computes for the cached slope. -/
theorem reachable_stage_invariant [Libm α] (ops : StageOps σ α) (spec0 : ProcessSpec α)
    (stage0 : Fin 4 → σ) (s : HighPrecisionFilter σ α) (h : Reachable ops spec0 stage0 s) :
    s.isBypassed = false → s.currentSlope ≠ Slope.Slope6dB →
      s.activeStages = numStages s.currentSlope := by
  induction h with
  | construct =>
    intro _ _
    simp [HighPrecisionFilter.init, numStages]
  | prepare s sr _ ih => simpa [HighPrecisionFilter.prepare] using ih
  | reset s _ ih => simpa [HighPrecisionFilter.reset] using ih
  | setParams s type freq slope _ ih =>
    by_cases hu : unchanged s type freq slope = true
    · rw [setParams_of_unchanged ops s type freq slope hu]
      exact ih
    · have hu2 : unchanged s type freq slope = false := by simpa using hu
      intro hb h6
      rw [setParams_isBypassed ops s type freq slope hu2] at hb
      by_cases hs : slope = Slope.Slope6dB
      · subst hs
        rw [setParams_changed_6dB ops s type freq hu2 hb] at h6
        exact absurd rfl h6
      · rw [setParams_changed_stages ops s type freq slope hu2 hb hs]
  | process s x _ ih =>
    obtain ⟨h1, h2, h3⟩ := process_config ops s x
    rw [h1, h2, h3]
    exact ih

/-- C12: in every reachable state that is not bypassed and whose cached slope is
12, 24 or 48 dB, the active-stage count is 1, 2 or 4, and `process (x)` returns
`x` piped through exactly that many stages in index order, stage 0 first. -/
theorem reachable_cascade [Libm α] (ops : StageOps σ α) (spec0 : ProcessSpec α)
    (stage0 : Fin 4 → σ) (s : HighPrecisionFilter σ α) (x : α)
    (h : Reachable ops spec0 stage0 s) (hb : s.isBypassed = false) :
    (s.currentSlope = Slope.Slope12dB →
        s.activeStages = 1 ∧ (process ops s x).1 = (ops.processSample (s.filters 0) x).1)
      ∧ (s.currentSlope = Slope.Slope24dB →
        s.activeStages = 2
          ∧ (process ops s x).1
            = (ops.processSample (s.filters 1) (ops.processSample (s.filters 0) x).1).1)
      ∧ (s.currentSlope = Slope.Slope48dB →
        s.activeStages = 4
          ∧ (process ops s x).1
            = (ops.processSample (s.filters 3)
                (ops.processSample (s.filters 2)
                  (ops.processSample (s.filters 1)
                    (ops.processSample (s.filters 0) x).1).1).1).1) := by
  have hinv := reachable_stage_invariant ops spec0 stage0 s h hb
  refine ⟨?_, ?_, ?_⟩
  · intro hs
    have hn : s.activeStages = 1 := by
      rw [hinv (by rw [hs]; decide), hs]; rfl
    refine ⟨hn, ?_⟩
    unfold process
    simp [hb, hs, hn, runStages_one]
  · intro hs
    have hn : s.activeStages = 2 := by
      rw [hinv (by rw [hs]; decide), hs]; rfl
    refine ⟨hn, ?_⟩
    unfold process
    simp [hb, hs, hn, runStages_two]
  · intro hs
    have hn : s.activeStages = 4 := by
      rw [hinv (by rw [hs]; decide), hs]; rfl
    refine ⟨hn, ?_⟩
    unfold process
    simp [hb, hs, hn, runStages_four]

/-- Witness for C12: a prepared filter set to a 24 dB low-pass at 500 Hz, with
stages that remember their last two inputs. -/
theorem reachable_cascade_witness :
    Reachable (memoryStage ℝ) ⟨0, 0, 0⟩ (fun _ => (0, 0))
        (setParams (memoryStage ℝ)
          (HighPrecisionFilter.prepare (memoryStage ℝ)
            (HighPrecisionFilter.init ⟨0, 0, 0⟩ (fun _ => (0, 0))) 44100)
          FType.LowPass 500 Slope.Slope24dB)
      ∧ (setParams (memoryStage ℝ)
          (HighPrecisionFilter.prepare (memoryStage ℝ)
            (HighPrecisionFilter.init ⟨0, 0, 0⟩ (fun _ => (0, 0))) 44100)
          FType.LowPass 500 Slope.Slope24dB).isBypassed = false
      ∧ (setParams (memoryStage ℝ)
          (HighPrecisionFilter.prepare (memoryStage ℝ)
            (HighPrecisionFilter.init ⟨0, 0, 0⟩ (fun _ => (0, 0))) 44100)
          FType.LowPass 500 Slope.Slope24dB).activeStages = 2 :=
  have hu : unchanged
      (HighPrecisionFilter.prepare (memoryStage ℝ)
        (HighPrecisionFilter.init ⟨0, 0, 0⟩ (fun _ => (0, 0))) 44100)
      FType.LowPass 500 Slope.Slope24dB = false := by
    simp [unchanged, HighPrecisionFilter.prepare, HighPrecisionFilter.init]
  have hbr : bypassRule FType.LowPass (500 : ℝ) = false := by
    simp [bypassRule]; norm_num
  have hr : Reachable (memoryStage ℝ) ⟨0, 0, 0⟩ (fun _ => (0, 0))
      (setParams (memoryStage ℝ)
        (HighPrecisionFilter.prepare (memoryStage ℝ)
          (HighPrecisionFilter.init ⟨0, 0, 0⟩ (fun _ => (0, 0))) 44100)
        FType.LowPass 500 Slope.Slope24dB) :=
    Reachable.setParams _ _ _ _ (Reachable.prepare _ _ Reachable.construct)
  have hb : (setParams (memoryStage ℝ)
      (HighPrecisionFilter.prepare (memoryStage ℝ)
        (HighPrecisionFilter.init ⟨0, 0, 0⟩ (fun _ => (0, 0))) 44100)
      FType.LowPass 500 Slope.Slope24dB).isBypassed = false := by
    rw [setParams_isBypassed _ _ _ _ _ hu, hbr]
  have hs : (setParams (memoryStage ℝ)
      (HighPrecisionFilter.prepare (memoryStage ℝ)
        (HighPrecisionFilter.init ⟨0, 0, 0⟩ (fun _ => (0, 0))) 44100)
      FType.LowPass 500 Slope.Slope24dB).currentSlope = Slope.Slope24dB := by
    rw [setParams_changed_stages _ _ _ _ _ hu hbr (by decide)]
  ⟨hr, hb, ((reachable_cascade (memoryStage ℝ) ⟨0, 0, 0⟩ (fun _ => (0, 0)) _ 1 hr hb).2.1 hs).1⟩

/-- C13: on the 6 dB slope the stage objects are untouched: `setParams` with
`Slope6dB` leaves the four stages and the active-stage count as they were, and
`process` in a non-bypassed 6 dB configuration returns `OnePoleFilter::processLP`
(cached type LowPass) or `processHP` (cached type HighPass) at the cached
frequency and cached sample rate, changing the one-pole state only. -/
theorem sixdB_one_pole_path [Libm α] (ops : StageOps σ α) (s : HighPrecisionFilter σ α) (x : α)
    (hb : s.isBypassed = false) (h6 : s.currentSlope = Slope.Slope6dB) :
    (∀ (s0 : HighPrecisionFilter σ α) (type : FType) (freq : α),
        (setParams ops s0 type freq Slope.Slope6dB).filters = s0.filters
          ∧ (setParams ops s0 type freq Slope.Slope6dB).activeStages = s0.activeStages)
      ∧ (s.currentType = FType.LowPass →
        process ops s x =
          ((s.onePole.processLP x s.currentFreq s.currentSampleRate).1,
            { s with onePole := (s.onePole.processLP x s.currentFreq s.currentSampleRate).2 }))
      ∧ (s.currentType = FType.HighPass →
        process ops s x =
          ((s.onePole.processHP x s.currentFreq s.currentSampleRate).1,
            { s with onePole := (s.onePole.processHP x s.currentFreq s.currentSampleRate).2 })) := by
  refine ⟨?_, ?_, ?_⟩
  · intro s0 type freq
    by_cases hu : unchanged s0 type freq Slope.Slope6dB = true
    · rw [setParams_of_unchanged ops s0 type freq Slope.Slope6dB hu]
      exact ⟨rfl, rfl⟩
    · have hu2 : unchanged s0 type freq Slope.Slope6dB = false := by simpa using hu
      unfold setParams
      simp only [hu2, Bool.false_eq_true, if_false]
      cases hbr : bypassRule type freq <;> simp
  · intro ht
    unfold process
    simp [hb, h6, ht]
  · intro ht
    unfold process
    simp [hb, h6, ht]

/-- Witness for C13: a prepared filter set to a 6 dB high-pass at 200 Hz. -/
theorem sixdB_one_pole_path_witness :
    ({ hpf0 ℝ with
          currentType := FType.HighPass
          currentFreq := 200
          currentSlope := Slope.Slope6dB } : HighPrecisionFilter Unit ℝ).isBypassed = false
      ∧ ({ hpf0 ℝ with
          currentType := FType.HighPass
          currentFreq := 200
          currentSlope := Slope.Slope6dB } : HighPrecisionFilter Unit ℝ).currentSlope
        = Slope.Slope6dB
      ∧ (process (wireStage ℝ)
          { hpf0 ℝ with
            currentType := FType.HighPass
            currentFreq := 200
            currentSlope := Slope.Slope6dB } 1).1
        = ((hpf0 ℝ).onePole.processHP 1 200 (hpf0 ℝ).currentSampleRate).1 :=
  ⟨rfl, rfl,
    congrArg Prod.fst
      ((sixdB_one_pole_path (wireStage ℝ)
        { hpf0 ℝ with
          currentType := FType.HighPass
          currentFreq := 200
          currentSlope := Slope.Slope6dB } 1 rfl rfl).2.2 rfl)⟩

end StageTheorems

end DspEngine

namespace DspEngine

/-! ## OnePoleFilter and the lifecycle methods -/

section Lifecycle

open SaturationCore

/-- C14: `processLP (x, freq, sr)` from state `z` sets the state to
`z + b1 * (x - z)` with `b1 = 1 - exp (-2π freq / sr)` and returns it;
`processHP` makes the same state update and returns `x` minus the new state; so
from equal states the low-pass and high-pass outputs sum to `x`. -/
theorem onePole_lp_hp (f : OnePoleFilter ℝ) (x freq sr : ℝ) :
    (f.processLP x freq sr).2.z1
        = f.z1 + (1 - Real.exp (-2 * Real.pi * freq / sr)) * (x - f.z1)
      ∧ (f.processLP x freq sr).1 = (f.processLP x freq sr).2.z1
      ∧ (f.processHP x freq sr).2 = (f.processLP x freq sr).2
      ∧ (f.processHP x freq sr).1 = x - (f.processLP x freq sr).2.z1
      ∧ (f.processLP x freq sr).1 + (f.processHP x freq sr).1 = x := by
  have h : -(2 * Real.pi) * freq / sr = -2 * Real.pi * freq / sr := by ring
  refine ⟨?_, rfl, rfl, rfl, ?_⟩
  · simp only [OnePoleFilter.processLP, libm_exp, libm_twoPi, h]
  · simp only [OnePoleFilter.processHP, OnePoleFilter.processLP]
    ring

variable {α : Type} [LinearOrderedField α] [Libm α] {σ : Type}

/-- When the rate is the stored one `prepare` returns the state it was given. -/
theorem prepare_of_eq (s : SaturationCore α) (sr : α) (h : s.currentSampleRate = sr) :
    prepare s sr = s := by
  unfold prepare
  rw [if_pos h]

/-- After `prepare (sr)` the stored rate is `sr`. -/
theorem prepare_rate (s : SaturationCore α) (sr : α) : (prepare s sr).currentSampleRate = sr := by
  unfold prepare
  split_ifs with h
  · exact h
  · rfl

/-- C16: `reset` twice is `reset` once and `prepare (sr)` twice is `prepare (sr)`
once, for `SaturationCore` (where `prepare (sr)` returns the state it was given
when `sr` is the stored rate) and for `HighPrecisionFilter`; the latter for JUCE
stages whose `reset`, and `prepare` followed by `reset`, are idempotent. -/
theorem lifecycle_idempotent (ops : StageOps σ α)
    (hreset : ∀ st : σ, ops.reset (ops.reset st) = ops.reset st)
    (hprep : ∀ (sp : ProcessSpec α) (st : σ),
      ops.reset (ops.prepare sp (ops.reset (ops.prepare sp st)))
        = ops.reset (ops.prepare sp st)) :
    (∀ (s : SaturationCore α) (sr : α),
        reset (reset s) = reset s
          ∧ prepare (prepare s sr) sr = prepare s sr
          ∧ (s.currentSampleRate = sr → prepare s sr = s))
      ∧ (∀ (f : HighPrecisionFilter σ α) (sr : α),
        (f.reset ops).reset ops = f.reset ops
          ∧ (f.prepare ops sr).prepare ops sr = f.prepare ops sr) := by
  refine ⟨?_, ?_⟩
  · intro s sr
    exact ⟨rfl, prepare_of_eq _ _ (prepare_rate s sr), prepare_of_eq s sr⟩
  · intro f sr
    constructor
    · simp [HighPrecisionFilter.reset, OnePoleFilter.reset, hreset]
    · simp [HighPrecisionFilter.prepare, OnePoleFilter.reset, hprep]

/-- Witness for C16: stages with two integrator states that `reset` clears. -/
theorem lifecycle_idempotent_witness :
    (∀ st : ℝ × ℝ, (memoryStage ℝ).reset ((memoryStage ℝ).reset st) = (memoryStage ℝ).reset st)
      ∧ (∀ (sp : ProcessSpec ℝ) (st : ℝ × ℝ),
        (memoryStage ℝ).reset ((memoryStage ℝ).prepare sp
            ((memoryStage ℝ).reset ((memoryStage ℝ).prepare sp st)))
          = (memoryStage ℝ).reset ((memoryStage ℝ).prepare sp st))
      ∧ ((∀ (s : SaturationCore ℝ) (sr : ℝ),
          reset (reset s) = reset s
            ∧ prepare (prepare s sr) sr = prepare s sr
            ∧ (s.currentSampleRate = sr → prepare s sr = s))
        ∧ (∀ (f : HighPrecisionFilter (ℝ × ℝ) ℝ) (sr : ℝ),
          (f.reset (memoryStage ℝ)).reset (memoryStage ℝ) = f.reset (memoryStage ℝ)
            ∧ (f.prepare (memoryStage ℝ) sr).prepare (memoryStage ℝ) sr
              = f.prepare (memoryStage ℝ) sr)) :=
  ⟨fun _ => rfl, fun _ _ => rfl,
    lifecycle_idempotent (memoryStage ℝ) (fun _ => rfl) (fun _ _ => rfl)⟩

end Lifecycle

end DspEngine

namespace DspEngine

/-! ## SaturationCore: sag, rectifier blend and exciter -/

section SagBlend

variable {α : Type} [LinearOrderedField α]

open SaturationCore

/-- JUCE `jlimit` is the clamp `max lo (min hi v)` when `lo ≤ hi`. -/
theorem jlimit_eq_clamp (lo hi v : α) (h : lo ≤ hi) : jlimit lo hi v = max lo (min hi v) := by
  unfold jlimit
  split_ifs with h1 h2
  · rw [min_eq_right (by linarith), max_eq_left h1.le]
  · rw [min_eq_left h2.le, max_eq_right h]
  · rw [min_eq_right (not_lt.mp h2), max_eq_right (not_lt.mp h1)]

/-- The post-processing leaves the sag envelope alone. -/
theorem postShape_sagEnvelope (s : SaturationCore α) (out dryRect : α) (type : Int)
    (character : α) : (postShape s out dryRect type character).2.sagEnvelope = s.sagEnvelope := by
  unfold postShape
  split_ifs <;> rfl

variable [Libm α]

/-- The pre-processing leaves the envelope that the sag step computed. -/
theorem preShape_sagEnvelope (s : SaturationCore α) (inp : α) (type : Int) (driveDB character : α) :
    (preShape s inp type driveDB character).2.sagEnvelope
      = (sagStage s inp type driveDB).2.sagEnvelope := by
  unfold preShape
  split_ifs <;> rfl

/-- The core saturation leaves the sag envelope alone. -/
theorem coreShape_sagEnvelope (s : SaturationCore α) (x : α) (type : Int) (character : α) :
    (coreShape s x type character).2.sagEnvelope = s.sagEnvelope := by
  unfold coreShape
  split_ifs <;> first | rfl | (simp only []; split_ifs <;> rfl)

/-- After a call the sag envelope is the one the sag step computed. -/
theorem process_sagEnvelope (s : SaturationCore α) (inp : α) (type : Int) (driveDB character : α) :
    (process s inp type driveDB character).2.sagEnvelope
      = (sagStage s inp type driveDB).2.sagEnvelope := by
  unfold process dcBlock
  simp only []
  rw [postShape_sagEnvelope, coreShape_sagEnvelope, preShape_sagEnvelope]

/-- The pre-processing starts from the pre-gained sample; for the algorithms
other than 0, 3 and 8 it returns it. -/
theorem preShape_eq_preGain (s : SaturationCore α) (inp : α) (type : Int) (driveDB character : α)
    (h0 : type ≠ 0) (h3 : type ≠ 3) (h8 : type ≠ 8) :
    (preShape s inp type driveDB character).1 = preGain s inp type driveDB := by
  unfold preShape preGain
  simp [h0, h3, h8]

/-- C15: sag applies to the algorithms up to 6 only.  For `t ≤ 6` the envelope
`e` becomes `e + sagAttack (|in| - e)` if `|in| > e` and
`e + sagRelease (|in| - e)` otherwise, and the pre-gained sample is
`in · 10^(driveDB/20) · (1 - e' · 0.15 · clamp (driveDB/12, 0, 1))` with `e'`
the new envelope; for `t ≥ 7` the envelope is left as it was and the pre-gained
sample is `in · 10^(driveDB/20)`. -/
theorem sag_applies_below_seven (s : SaturationCore α) (inp d c : α) (t : Int) :
    (t ≤ 6 →
        (process s inp t d c).2.sagEnvelope
            = (if |inp| > s.sagEnvelope then
                s.sagEnvelope + s.sagAttack * (|inp| - s.sagEnvelope)
              else s.sagEnvelope + s.sagRelease * (|inp| - s.sagEnvelope))
          ∧ preGain s inp t d
            = inp * Libm.pow 10 (d / 20)
              * (1 - (process s inp t d c).2.sagEnvelope * 0.15 * max 0 (min 1 (d / 12))))
      ∧ (7 ≤ t →
        (process s inp t d c).2.sagEnvelope = s.sagEnvelope
          ∧ preGain s inp t d = inp * Libm.pow 10 (d / 20)) := by
  constructor
  · intro ht
    rw [process_sagEnvelope]
    have hj : jlimit (0.0 : α) 1.0 (d / 12.0) = max 0 (min 1 (d / 12)) := by
      rw [jlimit_eq_clamp _ _ _ (by norm_num)]
      norm_num
    unfold preGain sagStage
    rw [if_pos ht]
    simp only [hj]
    norm_num
  · intro ht
    rw [process_sagEnvelope]
    unfold preGain
    rw [sagStage_of_gt s inp t d (by omega)]
    norm_num

/-- C19: for algorithm 11 (rectify) the value after post-shaping is
`x (1 - character) + s · character`, with `x` the pre-gained input saved before
shaping and `s` the ADAA core-shaping value; at character 0 it is `x` whatever
the ADAA history is, at character 1 it is `s`, and `s` is `|x|` in the fallback
branch. -/
theorem rectify_crossfade (s : SaturationCore α) (inp d c : α) :
    postValue s inp 11 d c = preGain s inp 11 d * (1 - c) + coreValue s inp 11 d c * c
      ∧ postValue s inp 11 d 0 = preGain s inp 11 d
      ∧ postValue s inp 11 d 1 = coreValue s inp 11 d 1
      ∧ preGain s inp 11 d = inp * Libm.pow 10 (d / 20)
      ∧ shapedInput s inp 11 d c = preGain s inp 11 d
      ∧ (|shapedInput s inp 11 d c - s.lastX| < 1.0e-6 →
        coreValue s inp 11 d c = |preGain s inp 11 d|) := by
  have hpost : ∀ c' : α, postValue s inp 11 d c'
      = preGain s inp 11 d * (1 - c') + coreValue s inp 11 d c' * c' := by
    intro c'
    unfold postValue postShape
    rw [preShape_eq_preGain s inp 11 d c' (by decide) (by decide) (by decide)]
    norm_num
  have hx : shapedInput s inp 11 d c = preGain s inp 11 d := by
    unfold shapedInput foldScale
    rw [preShape_eq_preGain s inp 11 d c (by decide) (by decide) (by decide)]
    norm_num
  refine ⟨hpost c, ?_, ?_, ?_, hx, ?_⟩
  · rw [hpost 0]; ring
  · rw [hpost 1]; ring
  · unfold preGain
    rw [sagStage_of_gt s inp 11 d (by decide)]
    norm_num
  · intro h
    rw [coreValue_adaa s inp 11 d c (by decide), if_pos h, hx]
    unfold directFunc
    norm_num

end SagBlend

section Exciter

open SaturationCore

/-- A call with algorithm 13 does not write `lastX`. -/
theorem process_exciter_lastX (s : SaturationCore ℝ) (inp d c : ℝ) :
    (process s inp 13 d c).2.lastX = s.lastX := by
  unfold process dcBlock
  simp only []
  rw [(postShape_history _ _ _ _ _).1]
  have h : (coreShape (preShape s inp 13 d c).2 (foldScale (preShape s inp 13 d c).1 13) 13 c).2
      = (preShape s inp 13 d c).2 := by
    unfold coreShape
    norm_num
  rw [h, (preShape_history s inp 13 d c).1]

/-- C17 (the code at the failing input): after `reset ()`, two calls
`process (1, 13, 0, 1)` in a row.  Both have pre-gained input 1.  The first call
leaves `lastX` at 0, so the second forms `h = 1 - 0.9 · 0 = 1` and its
core-shaping value is `1 + 2 · (1.5 / 1.75) = 19/7`; with the previous input,
`h = 1 - 0.9 · 1 = 0.1` gives `1 + 2 · (0.15 / 1.075) = 55/43`. -/
theorem exciter_stale_history :
    shapedInput (reset (init : SaturationCore ℝ)) 1 13 0 1 = 1
      ∧ (process (reset (init : SaturationCore ℝ)) 1 13 0 1).2.lastX = 0
      ∧ (process (reset (init : SaturationCore ℝ)) 1 13 0 1).2.exciterCoef = 0.9
      ∧ shapedInput (process (reset (init : SaturationCore ℝ)) 1 13 0 1).2 1 13 0 1 = 1
      ∧ coreValue (process (reset (init : SaturationCore ℝ)) 1 13 0 1).2 1 13 0 1 = 19 / 7
      ∧ (1 : ℝ) + 2 * 1 * (1.5 * (1 - 0.9 * 1) / (1 + 0.5 * (1.5 * (1 - 0.9 * 1)))) = 55 / 43 := by
  have hpre : ∀ s : SaturationCore ℝ, preShape s 1 13 0 1 = (1, s) := by
    intro s
    rw [preShape_of_gt s 1 13 0 1 (by decide)]
    norm_num
  have hx : ∀ s : SaturationCore ℝ, shapedInput s 1 13 0 1 = 1 := by
    intro s
    unfold shapedInput foldScale
    rw [hpre]
    norm_num
  have hl : (process (reset (init : SaturationCore ℝ)) 1 13 0 1).2.lastX = 0 := by
    rw [process_exciter_lastX]
    norm_num [reset]
  have he : (process (reset (init : SaturationCore ℝ)) 1 13 0 1).2.exciterCoef = 0.9 := by
    unfold process dcBlock postShape coreShape
    simp only [hpre]
    norm_num [reset, SaturationCore.init]
  refine ⟨hx _, hl, he, hx _, ?_, by norm_num⟩
  unfold coreValue
  rw [hx, hpre]
  unfold coreShape
  norm_num [hl, he]

end Exciter

end DspEngine

namespace DspEngine

/-! ## SaturationCore: the hold counter never goes below zero -/

section HoldCounter

variable {α : Type} [LinearOrderedField α] [Libm α]

open SaturationCore

/-- The pre-processing leaves the hold counter alone. -/
theorem preShape_holdCounter (s : SaturationCore α) (inp : α) (type : Int) (driveDB character : α) :
    (preShape s inp type driveDB character).2.sampleHoldCounter = s.sampleHoldCounter := by
  unfold preShape
  have h := sagStage_frame s inp type driveDB
  split_ifs <;> simp only [] <;> rw [h]

/-- The core saturation keeps the hold counter non-negative. -/
theorem coreShape_holdCounter_nonneg (s : SaturationCore α) (x : α) (type : Int) (character : α)
    (h : 0 ≤ s.sampleHoldCounter) : 0 ≤ (coreShape s x type character).2.sampleHoldCounter := by
  unfold coreShape
  by_cases h11 : type ≤ 11
  · rw [if_pos h11]
    exact h
  · rw [if_neg h11]
    by_cases h12 : type = 12
    · rw [if_pos h12]
      simp only []
      split_ifs
      · norm_num
      · show 0 ≤ s.sampleHoldCounter + 1.0
        have : (0 : α) ≤ 1.0 := by norm_num
        linarith
    · rw [if_neg h12]
      split_ifs <;> exact h

/-- A call keeps the hold counter non-negative. -/
theorem process_holdCounter_nonneg (s : SaturationCore α) (inp : α) (type : Int)
    (driveDB character : α) (h : 0 ≤ s.sampleHoldCounter) :
    0 ≤ (process s inp type driveDB character).2.sampleHoldCounter := by
  have h1 : (process s inp type driveDB character).2.sampleHoldCounter
      = (coreShape (preShape s inp type driveDB character).2
          (foldScale (preShape s inp type driveDB character).1 type) type
          character).2.sampleHoldCounter := by
    unfold process dcBlock postShape
    split_ifs <;> rfl
  rw [h1]
  apply coreShape_holdCounter_nonneg
  rw [preShape_holdCounter]
  exact h

/-- In every reachable state the hold counter is non-negative. -/
theorem reachable_holdCounter_nonneg (s : SaturationCore α) (h : SaturationCore.Reachable s) :
    0 ≤ s.sampleHoldCounter := by
  induction h with
  | construct => norm_num [SaturationCore.init]
  | prepare s sr _ ih =>
    unfold prepare
    split_ifs
    · exact ih
    · exact ih
  | reset s _ _ => norm_num [reset]
  | process s inp type driveDB character _ ih =>
    exact process_holdCounter_nonneg s inp type driveDB character ih

end HoldCounter

end DspEngine

namespace DspEngine

/-! ## SaturationCore: the bitcrusher -/

section Bitcrush

open SaturationCore

/-- The real `std::round` is an integer within 1/2 of its argument. -/
theorem libm_round_bound (y : ℝ) : (∃ k : ℤ, Libm.round y = (k : ℝ)) ∧ |Libm.round y - y| ≤ 1 / 2 := by
  show (∃ k : ℤ, (if 0 ≤ y then (⌊y + 1 / 2⌋ : ℝ) else -(⌊-y + 1 / 2⌋ : ℝ)) = (k : ℝ))
    ∧ |(if 0 ≤ y then (⌊y + 1 / 2⌋ : ℝ) else -(⌊-y + 1 / 2⌋ : ℝ)) - y| ≤ 1 / 2
  split_ifs with h
  · refine ⟨⟨⌊y + 1 / 2⌋, rfl⟩, ?_⟩
    have h1 := Int.floor_le (y + 1 / 2)
    have h2 := Int.lt_floor_add_one (y + 1 / 2)
    rw [abs_le]
    constructor <;> linarith
  · refine ⟨⟨-⌊-y + 1 / 2⌋, by push_cast; rfl⟩, ?_⟩
    have h1 := Int.floor_le (-y + 1 / 2)
    have h2 := Int.lt_floor_add_one (-y + 1 / 2)
    rw [abs_le]
    constructor <;> linarith

/-- A real less than 1/2 above an integer rounds to that integer. -/
theorem roundHalfEven_of_near (y : ℝ) (n : ℤ) (h1 : (n : ℝ) ≤ y) (h2 : y < n + 1 / 2) :
    roundHalfEven y = n := by
  have hf : ⌊y⌋ = n := by
    rw [Int.floor_eq_iff]
    constructor <;> linarith
  unfold roundHalfEven
  rw [hf, if_pos (by linarith)]

/-- Rounding to the nearest integer does not go below the floor. -/
theorem floor_le_roundHalfEven (y : ℝ) : ⌊y⌋ ≤ roundHalfEven y := by
  unfold roundHalfEven
  split_ifs <;> omega

/-- The rounding of a real of binary exponent `e` in the normal range. -/
theorem roundToDouble_of_binade (x : ℝ) (e : ℤ) (he : -1022 ≤ e)
    (h1 : (2 : ℝ) ^ e ≤ |x|) (h2 : |x| < (2 : ℝ) ^ (e + 1)) :
    roundToDouble x = (roundHalfEven (x / (2 : ℝ) ^ (e - 52)) : ℝ) * (2 : ℝ) ^ (e - 52) := by
  have hpos : 0 < |x| := lt_of_lt_of_le (by positivity) h1
  have hlog : Int.log 2 |x| = e := by
    have a : e ≤ Int.log 2 |x| :=
      (Int.zpow_le_iff_le_log (by norm_num) hpos).1 (by exact_mod_cast h1)
    have b : Int.log 2 |x| < e + 1 :=
      (Int.lt_zpow_iff_log_lt (by norm_num) hpos).1 (by exact_mod_cast h2)
    omega
  unfold roundToDouble
  rw [hlog, max_eq_left he]

/-- The `double` of 0. -/
theorem roundToDouble_zero : roundToDouble 0 = 0 := by
  unfold roundToDouble
  have : roundHalfEven 0 = 0 := roundHalfEven_of_near 0 0 (by norm_num) (by norm_num)
  simp [this]

/-- The whole numbers 1, 6, 49 and 50 and the number `0x1.a1f58d0fac688p-4` are
`double`s; 49 times the latter, which is `5 + 2 ^ (-53)`, rounds to 5. -/
theorem roundToDouble_values :
    roundToDouble 1 = 1 ∧ roundToDouble 6 = 6 ∧ roundToDouble 49 = 49 ∧ roundToDouble 50 = 50
      ∧ roundToDouble (919101964769489 / 9007199254740992)
        = 919101964769489 / 9007199254740992
      ∧ roundToDouble (919101964769489 / 9007199254740992 * 49) = 5 := by
  refine ⟨?_, ?_, ?_, ?_, ?_, ?_⟩
  · rw [roundToDouble_of_binade 1 0 (by norm_num) (by norm_num) (by norm_num),
      roundHalfEven_of_near _ (2 ^ 52) (by norm_num) (by norm_num)]
    norm_num
  · rw [roundToDouble_of_binade 6 2 (by norm_num) (by norm_num) (by norm_num),
      roundHalfEven_of_near _ (6 * 2 ^ 50) (by norm_num) (by norm_num)]
    norm_num
  · rw [roundToDouble_of_binade 49 5 (by norm_num) (by norm_num) (by norm_num),
      roundHalfEven_of_near _ (49 * 2 ^ 47) (by norm_num) (by norm_num)]
    norm_num
  · rw [roundToDouble_of_binade 50 5 (by norm_num) (by norm_num) (by norm_num),
      roundHalfEven_of_near _ (50 * 2 ^ 47) (by norm_num) (by norm_num)]
    norm_num
  · rw [roundToDouble_of_binade _ (-4) (by norm_num)
        (by rw [abs_of_pos (by norm_num)]; norm_num)
        (by rw [abs_of_pos (by norm_num)]; norm_num),
      roundHalfEven_of_near _ 7352815718155912 (by norm_num) (by norm_num)]
    norm_num
  · rw [roundToDouble_of_binade _ 2 (by norm_num)
        (by rw [abs_of_pos (by norm_num)]; norm_num)
        (by rw [abs_of_pos (by norm_num)]; norm_num),
      roundHalfEven_of_near _ (5 * 2 ^ 50) (by norm_num) (by norm_num)]
    norm_num

/-- The `double` of a non-negative real is non-negative. -/
theorem roundToDouble_nonneg (y : ℝ) (hy : 0 ≤ y) : 0 ≤ roundToDouble y := by
  unfold roundToDouble
  have h1 : (0 : ℝ) ≤ y / (2 : ℝ) ^ (max (Int.log 2 |y|) (-1022) - 52) := by positivity
  have h2 : (0 : ℤ) ≤ ⌊y / (2 : ℝ) ^ (max (Int.log 2 |y|) (-1022) - 52)⌋ := Int.floor_nonneg.2 h1
  have h3 := floor_le_roundHalfEven (y / (2 : ℝ) ^ (max (Int.log 2 |y|) (-1022) - 52))
  have h4 : (0 : ℝ) ≤ (roundHalfEven (y / (2 : ℝ) ^ (max (Int.log 2 |y|) (-1022) - 52)) : ℝ) := by
    exact_mod_cast h2.trans h3
  positivity

/-- The `double` of a real that is at least 1 is at least 1. -/
theorem one_le_roundToDouble (y : ℝ) (hy : 1 ≤ y) : 1 ≤ roundToDouble y := by
  have hpos : 0 < |y| := by rw [abs_of_pos (by linarith)]; linarith
  have he : 0 ≤ Int.log 2 |y| :=
    (Int.zpow_le_iff_le_log (by norm_num) hpos).1 (by rw [abs_of_pos (by linarith)]; simpa using hy)
  have hle : ((2 : ℕ) : ℝ) ^ Int.log 2 |y| ≤ |y| := Int.zpow_log_le_self (by norm_num) hpos
  rw [abs_of_pos (by linarith)] at hle he
  unfold roundToDouble
  rw [abs_of_pos (by linarith), max_eq_left (by omega)]
  set e := Int.log 2 y with hedef
  have hu : (0 : ℝ) < (2 : ℝ) ^ (e - 52) := by positivity
  have hid : ((2 ^ 52 : ℤ) : ℝ) * (2 : ℝ) ^ (e - 52) = (2 : ℝ) ^ e := by
    rw [zpow_sub₀ (by norm_num)]
    push_cast
    field_simp
    ring
  have h52 : ((2 ^ 52 : ℤ) : ℝ) ≤ y / (2 : ℝ) ^ (e - 52) := by
    rw [le_div_iff₀ hu, hid]
    exact_mod_cast hle
  have hfl : (2 ^ 52 : ℤ) ≤ ⌊y / (2 : ℝ) ^ (e - 52)⌋ := Int.le_floor.2 h52
  have hr : ((2 ^ 52 : ℤ) : ℝ) ≤ (roundHalfEven (y / (2 : ℝ) ^ (e - 52)) : ℝ) := by
    exact_mod_cast hfl.trans (floor_le_roundHalfEven _)
  have h2e : (1 : ℝ) ≤ (2 : ℝ) ^ e := one_le_zpow₀ (by norm_num) he
  calc (1 : ℝ) ≤ (2 : ℝ) ^ e := h2e
    _ = ((2 ^ 52 : ℤ) : ℝ) * (2 : ℝ) ^ (e - 52) := hid.symm
    _ ≤ _ := mul_le_mul_of_nonneg_right hr hu.le

/-- The stored hold period at the characters 0, 1 and `5.0 / 49.0`. -/
theorem rateDiv_values :
    rateDiv (0 : ℝ) = 1 ∧ rateDiv (1 : ℝ) = 50 ∧ rateDiv (fiveFortyNinths ℝ) = 6 := by
  obtain ⟨h1, h6, h49, h50, _, h5⟩ := roundToDouble_values
  have e49 : (49.0 : ℝ) = 49 := by norm_num
  have e1 : (1.0 : ℝ) = 1 := by norm_num
  refine ⟨?_, ?_, ?_⟩
  · show roundToDouble (1.0 + roundToDouble (0 * 49.0)) = 1
    rw [zero_mul, roundToDouble_zero, add_zero, e1, h1]
  · show roundToDouble (1.0 + roundToDouble (1 * 49.0)) = 50
    rw [one_mul, e49, h49, e1, show (1 : ℝ) + 49 = 50 by norm_num, h50]
  · show roundToDouble (1.0 + roundToDouble (919101964769489 / 9007199254740992 * 49.0)) = 6
    rw [e49, h5, e1, show (1 : ℝ) + 5 = 6 by norm_num, h6]

/-- The stored hold period is at least 1 for a non-negative character. -/
theorem one_le_rateDiv (c : ℝ) (hc : 0 ≤ c) : 1 ≤ rateDiv c := by
  have h := roundToDouble_nonneg (c * 49.0) (by positivity)
  have e1 : (1.0 : ℝ) = 1 := by norm_num
  show 1 ≤ roundToDouble (1.0 + roundToDouble (c * 49.0))
  exact one_le_roundToDouble _ (by rw [e1]; linarith)

/-- Algorithm 12: the core saturation, for a character in `[0, 1]` (where the
floor `bits < 1` of the bit depth is not reached). -/
theorem coreShape_bitcrush (s : SaturationCore ℝ) (x c : ℝ) (hc1 : c ≤ 1) :
    (coreShape s x 12 c).1
        = Libm.round ((coreShape s x 12 c).2.sampleHoldVal * (2 : ℝ) ^ (16 - 14 * c))
          / (2 : ℝ) ^ (16 - 14 * c)
      ∧ (coreShape s x 12 c).2
        = if s.sampleHoldCounter + 1 ≥ rateDiv c then
            { s with sampleHoldCounter := 0, sampleHoldVal := x }
          else { s with sampleHoldCounter := s.sampleHoldCounter + 1 } := by
  have e1 : (16 : ℝ) - c * 14 = 16 - 14 * c := by ring
  unfold coreShape rateDiv
  norm_num [e1]
  split_ifs <;> first | (exfalso; linarith) | simp

/-- Algorithm 12: the call from the core saturation on: the pre-gained input is
the shaped input, and the held sample after the call is the one the core
saturation left. -/
theorem process_bitcrush (s : SaturationCore ℝ) (inp d c : ℝ) :
    shapedInput s inp 12 d c = preGain s inp 12 d
      ∧ preGain s inp 12 d = inp * (10 : ℝ) ^ (d / 20)
      ∧ coreValue s inp 12 d c = (coreShape s (preGain s inp 12 d) 12 c).1
      ∧ (process s inp 12 d c).2.sampleHoldVal
        = (coreShape s (preGain s inp 12 d) 12 c).2.sampleHoldVal
      ∧ (process s inp 12 d c).2.sampleHoldCounter
        = (coreShape s (preGain s inp 12 d) 12 c).2.sampleHoldCounter := by
  have hpre : preShape s inp 12 d c = (preGain s inp 12 d, s) := by
    rw [preShape_of_gt s inp 12 d c (by decide)]
    unfold preGain
    rw [sagStage_of_gt s inp 12 d (by decide)]
    norm_num
  have hx : shapedInput s inp 12 d c = preGain s inp 12 d := by
    unfold shapedInput foldScale
    rw [hpre]
    norm_num
  have hf : foldScale (preGain s inp 12 d) 12 = preGain s inp 12 d := by
    unfold foldScale
    norm_num
  refine ⟨hx, ?_, ?_, ?_, ?_⟩
  · unfold preGain
    rw [sagStage_of_gt s inp 12 d (by decide)]
    norm_num
  · unfold coreValue
    rw [hx, hpre]
  · unfold process dcBlock postShape
    rw [hpre]
    norm_num [hf]
  · unfold process dcBlock postShape
    rw [hpre]
    norm_num [hf]

/-- C18: algorithm 12 (bitcrush), character `c` in `[0, 1]`: the bit depth
`16 - 14 c` lies in `[2, 16]`; the core-shaping value is
`v = round (h · 2^bits) / 2^bits` with `h` the held sample after the hold update
of the call, so `v · 2^bits` is an integer and `|v - h| ≤ 2^-(bits+1)`; at
`c = 0`, from a non-negative hold counter (as in every state that construction,
`reset` and `process` produce), the hold is refreshed, so `|v - x| ≤ 2^-17` for
the pre-gained input `x` of the call. -/
theorem bitcrush_quantisation (s : SaturationCore ℝ) (inp d c : ℝ) (hc0 : 0 ≤ c) (hc1 : c ≤ 1) :
    (2 ≤ 16 - 14 * c ∧ 16 - 14 * c ≤ 16)
      ∧ coreValue s inp 12 d c
        = Libm.round ((process s inp 12 d c).2.sampleHoldVal * (2 : ℝ) ^ (16 - 14 * c))
          / (2 : ℝ) ^ (16 - 14 * c)
      ∧ (∃ k : ℤ, coreValue s inp 12 d c * (2 : ℝ) ^ (16 - 14 * c) = (k : ℝ))
      ∧ |coreValue s inp 12 d c - (process s inp 12 d c).2.sampleHoldVal|
        ≤ (2 : ℝ) ^ (-((16 - 14 * c) + 1))
      ∧ (c = 0 → 0 ≤ s.sampleHoldCounter →
        (process s inp 12 d c).2.sampleHoldVal = preGain s inp 12 d
          ∧ |coreValue s inp 12 d c - preGain s inp 12 d| ≤ (2 : ℝ) ^ (-(17 : ℝ))) := by
  obtain ⟨_, _, hv, hh, _⟩ := process_bitcrush s inp d c
  obtain ⟨hcv, hcs⟩ := coreShape_bitcrush s (preGain s inp 12 d) c hc1
  have hpos : (0 : ℝ) < (2 : ℝ) ^ (16 - 14 * c) := Real.rpow_pos_of_pos (by norm_num) _
  have hval : coreValue s inp 12 d c
      = Libm.round ((process s inp 12 d c).2.sampleHoldVal * (2 : ℝ) ^ (16 - 14 * c))
        / (2 : ℝ) ^ (16 - 14 * c) := by
    rw [hv, hh]
    exact hcv
  have hbound : |coreValue s inp 12 d c - (process s inp 12 d c).2.sampleHoldVal|
      ≤ (2 : ℝ) ^ (-((16 - 14 * c) + 1)) := by
    obtain ⟨_, hr⟩ := libm_round_bound
      ((process s inp 12 d c).2.sampleHoldVal * (2 : ℝ) ^ (16 - 14 * c))
    have e : (2 : ℝ) ^ (-((16 - 14 * c) + 1)) = 1 / 2 / (2 : ℝ) ^ (16 - 14 * c) := by
      rw [Real.rpow_neg (by norm_num), Real.rpow_add_one (by norm_num)]
      field_simp
      ring
    rw [hval, e]
    have e2 : Libm.round ((process s inp 12 d c).2.sampleHoldVal * (2 : ℝ) ^ (16 - 14 * c))
          / (2 : ℝ) ^ (16 - 14 * c) - (process s inp 12 d c).2.sampleHoldVal
        = (Libm.round ((process s inp 12 d c).2.sampleHoldVal * (2 : ℝ) ^ (16 - 14 * c))
            - (process s inp 12 d c).2.sampleHoldVal * (2 : ℝ) ^ (16 - 14 * c))
          / (2 : ℝ) ^ (16 - 14 * c) := by
      field_simp
      ring
    rw [e2, abs_div, abs_of_pos hpos]
    exact div_le_div_of_nonneg_right hr hpos.le
  refine ⟨⟨by linarith, by linarith⟩, hval, ?_, hbound, ?_⟩
  · obtain ⟨k, hk⟩ := (libm_round_bound
      ((process s inp 12 d c).2.sampleHoldVal * (2 : ℝ) ^ (16 - 14 * c))).1
    refine ⟨k, ?_⟩
    rw [hval, div_mul_cancel₀ _ hpos.ne', hk]
  · intro h0 hcnt
    have hheld : (process s inp 12 d c).2.sampleHoldVal = preGain s inp 12 d := by
      rw [hh, hcs, if_pos (by rw [h0, rateDiv_values.1]; linarith)]
    refine ⟨hheld, ?_⟩
    have e3 : -((16 - 14 * c) + 1) = -(17 : ℝ) := by rw [h0]; norm_num
    rw [← hheld, ← e3]
    exact hbound

/-- Witness for C18: a fresh core, input 1/3 at 0 dB, character 1/2. -/
theorem bitcrush_quantisation_witness :
    (0 : ℝ) ≤ 1 / 2 ∧ (1 / 2 : ℝ) ≤ 1
      ∧ (∃ k : ℤ, coreValue (init : SaturationCore ℝ) (1 / 3) 12 0 (1 / 2)
          * (2 : ℝ) ^ (16 - 14 * (1 / 2 : ℝ)) = (k : ℝ)) :=
  ⟨by norm_num, by norm_num,
    (bitcrush_quantisation init (1 / 3) 0 (1 / 2) (by norm_num) (by norm_num)).2.2.1⟩

end Bitcrush

end DspEngine

namespace DspEngine

/-! ## SaturationCore: no singular point -/

section Singular

open SaturationCore

/-- The hyperbolic tangent vanishes at zero only. -/
theorem tanh_ne_zero (x : ℝ) (hx : x ≠ 0) : Real.tanh x ≠ 0 := by
  rw [Real.tanh_eq_sinh_div_cosh]
  exact div_ne_zero (fun h => hx (Real.sinh_eq_zero.mp h)) (Real.cosh_pos x).ne'

/-- Outside the guard `|x| < 1e-5` the argument is not zero. -/
theorem ne_zero_of_guard (x : ℝ) (h : ¬ |x| < 1.0e-5) : x ≠ 0 := by
  intro h0
  apply h
  rw [h0, abs_zero]
  norm_num

/-- A conditional proposition holds when each branch holds under its condition. -/
theorem ite_intro {c : Prop} [Decidable c] {P Q : Prop} (hp : c → P) (hq : ¬ c → Q) :
    if c then P else Q := by
  by_cases h : c
  · rw [if_pos h]; exact hp h
  · rw [if_neg h]; exact hq h

/-- The side conditions of `langevin` hold for every `x`. -/
theorem langevin_defined (x : ℝ) : langevinDefined x := by
  unfold langevinDefined
  refine ite_intro (fun _ => by norm_num) (fun h => ?_)
  exact ⟨tanh_ne_zero x (ne_zero_of_guard x h), ne_zero_of_guard x h⟩

/-- The side conditions of `intLangevin` hold for every `x`. -/
theorem intLangevin_defined (x : ℝ) : intLangevinDefined x := by
  unfold intLangevinDefined
  refine ite_intro (fun _ => by norm_num) (fun h => ?_)
  have hx := ne_zero_of_guard x h
  refine ⟨hx, abs_pos.mpr (div_ne_zero ?_ hx)⟩
  exact fun hs => hx (Real.sinh_eq_zero.mp hs)

/-- The side conditions of `intFrohlich` hold for every `x` and every `b > 0`. -/
theorem intFrohlich_defined (x b : ℝ) (hb : 0 < b) : intFrohlichDefined x b := by
  unfold intFrohlichDefined
  refine ite_intro (fun _ => by norm_num) (fun _ => ?_)
  refine ⟨hb.ne', ?_, (mul_pos hb hb).ne'⟩
  have : 0 ≤ b * |x| := mul_nonneg hb.le (abs_nonneg x)
  norm_num
  linarith

/-- The side conditions of `getADAAFunc` hold for every algorithm, every `x` and
every character `c ≥ 0`. -/
theorem getADAAFunc_defined (x c : ℝ) (t : Int) (hc : 0 ≤ c) : getADAAFuncDefined x t c := by
  have hk1 : (0 : ℝ) < 0.5 + c * 1.5 := by norm_num; positivity
  have hb3 : (0 : ℝ) < 0.5 + c * 0.5 := by norm_num; positivity
  have hk6 : (0 : ℝ) < 0.1 + c * 5.0 := by norm_num; positivity
  have hk7 : (0 : ℝ) < 1.5 + c * 3.0 := by norm_num; positivity
  have hw : (0 : ℝ) < (0.5 + c * 2.5) * Real.pi := mul_pos (by norm_num; positivity) Real.pi_pos
  unfold getADAAFuncDefined
  refine ite_intro (fun _ => intLangevin_defined x) (fun _ => ?_)
  refine ite_intro (fun _ => ?_) (fun _ => ?_)
  · refine ite_intro (fun hx => ?_) (fun _ => trivial)
    refine ⟨hk1.ne', ?_, (mul_pos hk1 hk1).ne'⟩
    have : 0 < (0.5 + c * 1.5) * x := mul_pos hk1 hx
    have h1 : (0 : ℝ) < 1 := one_pos
    norm_num at this ⊢
    linarith
  refine ite_intro (fun _ => trivial) (fun _ => ?_)
  refine ite_intro (fun _ => intFrohlich_defined x _ hb3) (fun _ => ?_)
  refine ite_intro (fun _ => ?_) (fun _ => ?_)
  · have := mul_self_nonneg x
    norm_num
    linarith
  refine ite_intro (fun _ => by norm_num) (fun _ => ?_)
  refine ite_intro (fun _ => ?_) (fun _ => ?_)
  · exact ite_intro (fun _ => ⟨hk6.ne', (mul_pos hk6 hk6).ne'⟩) (fun _ => trivial)
  refine ite_intro (fun _ => hk7.ne') (fun _ => ?_)
  refine ite_intro (fun _ => ?_) (fun _ => ?_)
  · exact ite_intro (fun _ => trivial) (fun _ => Real.cosh_pos x)
  refine ite_intro (fun _ => trivial) (fun _ => ?_)
  exact ite_intro (fun _ => hw.ne') (fun _ => trivial)

/-- The side conditions of the near-zero-delta `switch` hold for every algorithm,
every `x` and every character `c ≥ 0`. -/
theorem directFunc_defined (x c : ℝ) (t : Int) (hc : 0 ≤ c) : directFuncDefined x t c := by
  have hk1 : (0 : ℝ) < 0.5 + c * 1.5 := by norm_num; positivity
  have hb3 : (0 : ℝ) < 0.5 + c * 0.5 := by norm_num; positivity
  have hk6 : (0 : ℝ) < 0.1 + c * 5.0 := by norm_num; positivity
  have hk7 : (0 : ℝ) < 1.5 + c * 3.0 := by norm_num; positivity
  unfold directFuncDefined
  refine ite_intro (fun _ => langevin_defined x) (fun _ => ?_)
  refine ite_intro (fun _ => ?_) (fun _ => ?_)
  · refine ite_intro (fun hx => ?_) (fun _ => trivial)
    have : 0 < (0.5 + c * 1.5) * x := mul_pos hk1 hx
    have h1 : (0 : ℝ) < 1.0 + (0.5 + c * 1.5) * x := by norm_num at this ⊢; linarith
    exact h1.ne'
  refine ite_intro (fun _ => by norm_num) (fun _ => ?_)
  refine ite_intro (fun _ => ?_) (fun _ => ?_)
  · have : 0 ≤ (0.5 + c * 0.5) * |x| := mul_nonneg hb3.le (abs_nonneg x)
    have h1 : (0 : ℝ) < 1.0 + (0.5 + c * 0.5) * |x| := by norm_num at this ⊢; linarith
    exact h1.ne'
  refine ite_intro (fun _ => ?_) (fun _ => ?_)
  · have hp : (0 : ℝ) < 1.0 + x * x := by
      have := mul_self_nonneg x
      norm_num
      linarith
    exact ⟨hp.le, (Real.sqrt_pos.mpr hp).ne'⟩
  refine ite_intro (fun _ => trivial) (fun _ => ?_)
  refine ite_intro (fun _ => ?_) (fun _ => ?_)
  · exact ite_intro (fun _ => hk6.ne') (fun _ => trivial)
  exact ite_intro (fun _ => hk7.ne') (fun _ => trivial)

/-- The side conditions of the core saturation hold for every state, every
shaped input, every algorithm and every character `c ≥ 0`. -/
theorem coreShape_defined (s : SaturationCore ℝ) (x c : ℝ) (t : Int) (hc : 0 ≤ c) :
    coreShapeDefined s x t c := by
  unfold coreShapeDefined
  refine ite_intro (fun _ => ⟨getADAAFunc_defined x c t hc, ?_⟩) (fun _ => ?_)
  · refine ite_intro (fun _ => directFunc_defined x c t hc) (fun hd h0 => hd ?_)
    rw [h0, abs_zero]
    norm_num
  refine ite_intro (fun _ => ?_) (fun _ => ?_)
  · exact (Real.rpow_pos_of_pos (by norm_num) _).ne'
  refine ite_intro (fun _ => ?_) (fun _ => trivial)
  refine ite_intro (fun hp => ?_) (fun _ => trivial)
  have h1 : (0 : ℝ) < 1.0 + 0.5 * ((x - s.exciterCoef * s.lastX) * 1.5) := by
    have : (0 : ℝ) < 0.5 * ((x - s.exciterCoef * s.lastX) * 1.5) := mul_pos (by norm_num) hp
    norm_num at this ⊢
    linarith
  exact h1.ne'

/-- C20: no division or logarithm of the saturation core hits a singular point:
for every character in `[0, 1]`, every drive, every input and every state, the
side conditions of `langevin`, `intLangevin`, `intFrohlich`, `getADAAFunc`, the
fallback `switch` and `process` hold (each denominator on the executed path is
nonzero, each argument of `log` is positive, each argument of `sqrt` is
non-negative). -/
theorem no_singular_point (s : SaturationCore ℝ) (inp d c x : ℝ) (t : Int) (hc0 : 0 ≤ c)
    (_hc1 : c ≤ 1) :
    langevinDefined x ∧ intLangevinDefined x ∧ intFrohlichDefined x (0.5 + c * 0.5)
      ∧ getADAAFuncDefined x t c ∧ directFuncDefined x t c ∧ coreShapeDefined s x t c
      ∧ processDefined s inp t d c :=
  ⟨langevin_defined x, intLangevin_defined x,
    intFrohlich_defined x _ (by norm_num; positivity), getADAAFunc_defined x c t hc0,
    directFunc_defined x c t hc0, coreShape_defined s x c t hc0,
    fun _ => by norm_num, by norm_num, coreShape_defined _ _ c t hc0⟩

/-- Witness for C20: a fresh core, the transformer algorithm at character 1/2. -/
theorem no_singular_point_witness :
    (0 : ℝ) ≤ 1 / 2 ∧ (1 / 2 : ℝ) ≤ 1
      ∧ langevinDefined (1 : ℝ) ∧ intLangevinDefined (1 : ℝ)
      ∧ intFrohlichDefined (1 : ℝ) (0.5 + 1 / 2 * 0.5)
      ∧ getADAAFuncDefined (1 : ℝ) 3 (1 / 2) ∧ directFuncDefined (1 : ℝ) 3 (1 / 2)
      ∧ coreShapeDefined (init : SaturationCore ℝ) 1 3 (1 / 2)
      ∧ processDefined (init : SaturationCore ℝ) 1 3 0 (1 / 2) :=
  ⟨by norm_num, by norm_num,
    no_singular_point init 1 0 (1 / 2) 1 3 (by norm_num) (by norm_num)⟩

end Singular

end DspEngine

namespace DspEngine

/-! ## SaturationCore: state isolation -/

section Isolation

variable {α : Type} [LinearOrderedField α]

open SaturationCore

/-- The sag step writes `sagEnvelope` only; all other members are those of `s`. -/
theorem sagStage_other (s : SaturationCore α) (inp : α) (type : Int) (driveDB : α) :
    (sagStage s inp type driveDB).2.rateCoefficients = s.rateCoefficients
      ∧ (sagStage s inp type driveDB).2.tapeFilterState = s.tapeFilterState
      ∧ (sagStage s inp type driveDB).2.transFilterState = s.transFilterState
      ∧ (sagStage s inp type driveDB).2.tapeDeemphState = s.tapeDeemphState
      ∧ (sagStage s inp type driveDB).2.sampleHoldVal = s.sampleHoldVal
      ∧ (sagStage s inp type driveDB).2.sampleHoldCounter = s.sampleHoldCounter := by
  rw [sagStage_frame]
  exact ⟨rfl, rfl, rfl, rfl, rfl, rfl⟩

/-- The post-processing writes `tapeDeemphState` for algorithm 0 only, and
nothing else. -/
theorem postShape_other (s : SaturationCore α) (out dryRect : α) (type : Int) (character : α) :
    (postShape s out dryRect type character).2.rateCoefficients = s.rateCoefficients
      ∧ (postShape s out dryRect type character).2.tapeFilterState = s.tapeFilterState
      ∧ (postShape s out dryRect type character).2.transFilterState = s.transFilterState
      ∧ (type ≠ 0 →
        (postShape s out dryRect type character).2.tapeDeemphState = s.tapeDeemphState)
      ∧ (postShape s out dryRect type character).2.sampleHoldVal = s.sampleHoldVal
      ∧ (postShape s out dryRect type character).2.sampleHoldCounter = s.sampleHoldCounter := by
  unfold postShape
  refine ⟨?_, ?_, ?_, ?_, ?_, ?_⟩
  · split_ifs <;> rfl
  · split_ifs <;> rfl
  · split_ifs <;> rfl
  · intro h0
    simp only [h0, if_false]
    split_ifs <;> rfl
  · split_ifs <;> rfl
  · split_ifs <;> rfl

variable [Libm α]

/-- The pre-processing writes `tapeFilterState` for algorithm 0 only,
`transFilterState` for algorithm 3 only, and no coefficient, de-emphasis state or
hold member. -/
theorem preShape_other (s : SaturationCore α) (inp : α) (type : Int) (driveDB character : α) :
    (preShape s inp type driveDB character).2.rateCoefficients = s.rateCoefficients
      ∧ (type ≠ 0 → (preShape s inp type driveDB character).2.tapeFilterState = s.tapeFilterState)
      ∧ (type ≠ 3 →
        (preShape s inp type driveDB character).2.transFilterState = s.transFilterState)
      ∧ (preShape s inp type driveDB character).2.tapeDeemphState = s.tapeDeemphState
      ∧ (preShape s inp type driveDB character).2.sampleHoldVal = s.sampleHoldVal
      ∧ (preShape s inp type driveDB character).2.sampleHoldCounter = s.sampleHoldCounter := by
  obtain ⟨g1, g2, g3, g4, g5, g6⟩ := sagStage_other s inp type driveDB
  unfold preShape
  refine ⟨?_, ?_, ?_, ?_, ?_, ?_⟩
  · split_ifs <;> exact g1
  · intro h0
    simp only [h0, if_false]
    split_ifs <;> exact g2
  · intro h3
    simp only [h3, if_false]
    split_ifs <;> exact g3
  · split_ifs <;> exact g4
  · split_ifs <;> exact g5
  · split_ifs <;> exact g6

/-- The core saturation writes the ADAA history on the ADAA path only, the hold
members for algorithm 12 only, and nothing else. -/
theorem coreShape_other (s : SaturationCore α) (x : α) (type : Int) (character : α) :
    (coreShape s x type character).2.rateCoefficients = s.rateCoefficients
      ∧ (coreShape s x type character).2.tapeFilterState = s.tapeFilterState
      ∧ (coreShape s x type character).2.transFilterState = s.transFilterState
      ∧ (coreShape s x type character).2.tapeDeemphState = s.tapeDeemphState
      ∧ (type ≠ 12 →
        (coreShape s x type character).2.sampleHoldVal = s.sampleHoldVal
          ∧ (coreShape s x type character).2.sampleHoldCounter = s.sampleHoldCounter)
      ∧ (11 < type →
        (coreShape s x type character).2.lastX = s.lastX
          ∧ (coreShape s x type character).2.lastF = s.lastF) := by
  unfold coreShape
  by_cases h11 : type ≤ 11
  · rw [if_pos h11]
    exact ⟨rfl, rfl, rfl, rfl, fun _ => ⟨rfl, rfl⟩, fun h => absurd h (not_lt.mpr h11)⟩
  · rw [if_neg h11]
    by_cases h12 : type = 12
    · rw [if_pos h12]
      simp only []
      refine ⟨?_, ?_, ?_, ?_, fun h => absurd h12 h, fun _ => ⟨?_, ?_⟩⟩ <;> (split_ifs <;> rfl)
    · rw [if_neg h12]
      refine ⟨?_, ?_, ?_, ?_, fun _ => ⟨?_, ?_⟩, fun _ => ⟨?_, ?_⟩⟩ <;> (split_ifs <;> rfl)

/-- The state after a call, stage by stage. -/
theorem process_state (s : SaturationCore α) (inp : α) (type : Int) (driveDB character : α) :
    (process s inp type driveDB character).2 =
      (dcBlock
        (postShape
          (coreShape (preShape s inp type driveDB character).2
            (foldScale (preShape s inp type driveDB character).1 type) type character).2
          (coreShape (preShape s inp type driveDB character).2
            (foldScale (preShape s inp type driveDB character).1 type) type character).1
          (preShape s inp type driveDB character).1 type character).2
        (postShape
          (coreShape (preShape s inp type driveDB character).2
            (foldScale (preShape s inp type driveDB character).1 type) type character).2
          (coreShape (preShape s inp type driveDB character).2
            (foldScale (preShape s inp type driveDB character).1 type) type character).1
          (preShape s inp type driveDB character).1 type character).1 type).2 := rfl

/-- No call changes the stored sample rate or a rate-derived coefficient. -/
theorem process_rateCoefficients (s : SaturationCore α) (inp : α) (type : Int)
    (driveDB character : α) :
    (process s inp type driveDB character).2.rateCoefficients = s.rateCoefficients := by
  rw [process_state]
  unfold dcBlock
  show (postShape _ _ _ _ _).2.rateCoefficients = _
  rw [(postShape_other _ _ _ _ _).1, (coreShape_other _ _ _ _).1, (preShape_other _ _ _ _ _).1]

/-- A call writes the tape pre-emphasis and de-emphasis states for algorithm 0
only. -/
theorem process_tape_states (s : SaturationCore α) (inp : α) (type : Int) (driveDB character : α)
    (h0 : type ≠ 0) :
    (process s inp type driveDB character).2.tapeFilterState = s.tapeFilterState
      ∧ (process s inp type driveDB character).2.tapeDeemphState = s.tapeDeemphState := by
  rw [process_state]
  unfold dcBlock
  constructor
  · show (postShape _ _ _ _ _).2.tapeFilterState = _
    rw [(postShape_other _ _ _ _ _).2.1, (coreShape_other _ _ _ _).2.1,
      (preShape_other _ _ _ _ _).2.1 h0]
  · show (postShape _ _ _ _ _).2.tapeDeemphState = _
    rw [(postShape_other _ _ _ _ _).2.2.2.1 h0, (coreShape_other _ _ _ _).2.2.2.1,
      (preShape_other _ _ _ _ _).2.2.2.1]

/-- A call writes the transformer filter state for algorithm 3 only. -/
theorem process_trans_state (s : SaturationCore α) (inp : α) (type : Int) (driveDB character : α)
    (h3 : type ≠ 3) :
    (process s inp type driveDB character).2.transFilterState = s.transFilterState := by
  rw [process_state]
  unfold dcBlock
  show (postShape _ _ _ _ _).2.transFilterState = _
  rw [(postShape_other _ _ _ _ _).2.2.1, (coreShape_other _ _ _ _).2.2.1,
    (preShape_other _ _ _ _ _).2.2.1 h3]

/-- A call writes the hold members for algorithm 12 only. -/
theorem process_hold (s : SaturationCore α) (inp : α) (type : Int) (driveDB character : α)
    (h12 : type ≠ 12) :
    (process s inp type driveDB character).2.sampleHoldVal = s.sampleHoldVal
      ∧ (process s inp type driveDB character).2.sampleHoldCounter = s.sampleHoldCounter := by
  rw [process_state]
  unfold dcBlock
  constructor
  · show (postShape _ _ _ _ _).2.sampleHoldVal = _
    rw [(postShape_other _ _ _ _ _).2.2.2.2.1, ((coreShape_other _ _ _ _).2.2.2.2.1 h12).1,
      (preShape_other _ _ _ _ _).2.2.2.2.1]
  · show (postShape _ _ _ _ _).2.sampleHoldCounter = _
    rw [(postShape_other _ _ _ _ _).2.2.2.2.2, ((coreShape_other _ _ _ _).2.2.2.2.1 h12).2,
      (preShape_other _ _ _ _ _).2.2.2.2.2]

/-- A call writes the ADAA history on the ADAA path only. -/
theorem process_history_off (s : SaturationCore α) (inp : α) (type : Int) (driveDB character : α)
    (h11 : 11 < type) :
    (process s inp type driveDB character).2.lastX = s.lastX
      ∧ (process s inp type driveDB character).2.lastF = s.lastF := by
  rw [process_state]
  unfold dcBlock
  constructor
  · show (postShape _ _ _ _ _).2.lastX = _
    rw [(postShape_history _ _ _ _ _).1, ((coreShape_other _ _ _ _).2.2.2.2.2 h11).1,
      (preShape_history _ _ _ _ _).1]
  · show (postShape _ _ _ _ _).2.lastF = _
    rw [(postShape_history _ _ _ _ _).2, ((coreShape_other _ _ _ _).2.2.2.2.2 h11).2,
      (preShape_history _ _ _ _ _).2]

/-- C27: per-algorithm state isolation in `process`: a call with algorithm `t`
leaves `tapeFilterState` and `tapeDeemphState` as they were unless `t = 0`,
`transFilterState` unless `t = 3`, `sampleHoldVal` and `sampleHoldCounter` unless
`t = 12`, `lastX` and `lastF` unless `t ≤ 11`, `sagEnvelope` unless `t ≤ 6`; and
no call changes the stored sample rate or a rate-derived coefficient. -/
theorem process_state_isolation (s : SaturationCore α) (inp d c : α) (t : Int) :
    (t ≠ 0 →
        (process s inp t d c).2.tapeFilterState = s.tapeFilterState
          ∧ (process s inp t d c).2.tapeDeemphState = s.tapeDeemphState)
      ∧ (t ≠ 3 → (process s inp t d c).2.transFilterState = s.transFilterState)
      ∧ (t ≠ 12 →
        (process s inp t d c).2.sampleHoldVal = s.sampleHoldVal
          ∧ (process s inp t d c).2.sampleHoldCounter = s.sampleHoldCounter)
      ∧ (¬ t ≤ 11 →
        (process s inp t d c).2.lastX = s.lastX ∧ (process s inp t d c).2.lastF = s.lastF)
      ∧ (¬ t ≤ 6 → (process s inp t d c).2.sagEnvelope = s.sagEnvelope)
      ∧ (process s inp t d c).2.currentSampleRate = s.currentSampleRate
      ∧ (process s inp t d c).2.dcBlockerCoef = s.dcBlockerCoef
      ∧ (process s inp t d c).2.tapeCoefBase = s.tapeCoefBase
      ∧ (process s inp t d c).2.tapeDeemphCoef = s.tapeDeemphCoef
      ∧ (process s inp t d c).2.transCoef = s.transCoef
      ∧ (process s inp t d c).2.exciterCoef = s.exciterCoef
      ∧ (process s inp t d c).2.sagAttack = s.sagAttack
      ∧ (process s inp t d c).2.sagRelease = s.sagRelease := by
  have hco := process_rateCoefficients s inp t d c
  simp only [rateCoefficients, Prod.mk.injEq] at hco
  obtain ⟨c1, c2, c3, c4, c5, c6, c7, c8⟩ := hco
  refine ⟨process_tape_states s inp t d c, process_trans_state s inp t d c,
    process_hold s inp t d c, fun h => process_history_off s inp t d c (not_le.mp h), ?_,
    c1, c2, c3, c4, c5, c6, c7, c8⟩
  intro h6
  rw [process_sagEnvelope, sagStage_of_gt s inp t d (not_le.mp h6)]

end Isolation

end DspEngine

namespace DspEngine

/-! ## SaturationCore: bounds on the sag envelope and the tape state -/

section Bounds

variable {α : Type} [LinearOrderedField α]

open SaturationCore

/-- One sag step keeps the envelope between 0 and a bound `U` that also bounds
`|in|`, when the attack and release coefficients are in `[0, 1]`. -/
theorem sagStage_envelope_bound (s : SaturationCore α) (inp d U : α) (t : Int)
    (ha0 : 0 ≤ s.sagAttack) (ha1 : s.sagAttack ≤ 1) (hr0 : 0 ≤ s.sagRelease)
    (hr1 : s.sagRelease ≤ 1) (he0 : 0 ≤ s.sagEnvelope) (heU : s.sagEnvelope ≤ U)
    (hin : |inp| ≤ U) :
    0 ≤ (sagStage s inp t d).2.sagEnvelope ∧ (sagStage s inp t d).2.sagEnvelope ≤ U := by
  have hi0 : 0 ≤ |inp| := abs_nonneg inp
  unfold sagStage
  by_cases h6 : t ≤ 6
  · rw [if_pos h6]
    simp only []
    split_ifs
    · constructor
      · nlinarith [mul_nonneg ha0 hi0, mul_nonneg (sub_nonneg.mpr ha1) he0]
      · nlinarith [mul_nonneg ha0 (sub_nonneg.mpr hin), mul_nonneg (sub_nonneg.mpr ha1)
          (sub_nonneg.mpr heU)]
    · constructor
      · nlinarith [mul_nonneg hr0 hi0, mul_nonneg (sub_nonneg.mpr hr1) he0]
      · nlinarith [mul_nonneg hr0 (sub_nonneg.mpr hin), mul_nonneg (sub_nonneg.mpr hr1)
          (sub_nonneg.mpr heU)]
  · rw [if_neg h6]
    exact ⟨he0, heU⟩

/-- The tape feedback coefficient at a rate of at least 44100 lies in `(0, 0.6]`. -/
theorem tape_coefficient_range (sr c : α) (hsr : 44100 ≤ sr) (hc0 : 0 ≤ c) (hc1 : c ≤ 1) :
    0 < (0.05 + 0.55 * c) * (44100 / sr) ∧ (0.05 + 0.55 * c) * (44100 / sr) ≤ 0.6 := by
  have hpos : (0 : α) < sr := lt_of_lt_of_le (by norm_num) hsr
  have h1 : 0 < 44100 / sr := div_pos (by norm_num) hpos
  have h2 : 44100 / sr ≤ 1 := (div_le_one hpos).mpr hsr
  have h3 : (0 : α) < 0.05 + 0.55 * c := by norm_num; positivity
  have h4 : (0.05 : α) + 0.55 * c ≤ 0.6 := by norm_num; linarith
  refine ⟨mul_pos h3 h1, ?_⟩
  calc (0.05 + 0.55 * c) * (44100 / sr) ≤ 0.6 * 1 := mul_le_mul h4 h2 h1.le (by norm_num)
    _ = 0.6 := mul_one _

variable [Libm α]

/-- The coefficients are constant along a sequence of calls. -/
theorem runCalls_rateCoefficients (s : SaturationCore α) (calls : Nat → Call α) (n : Nat) :
    (runCalls s calls n).rateCoefficients = s.rateCoefficients := by
  induction n with
  | zero => rfl
  | succ m ih =>
    show (process _ _ _ _ _).2.rateCoefficients = _
    rw [process_rateCoefficients, ih]

/-- C25: if `sagAttack` and `sagRelease` are in `[0, 1]` and the envelope starts
at `e0 ≥ 0`, then after any sequence of `process` calls whose inputs satisfy
`|in| ≤ M` the envelope satisfies `0 ≤ sagEnvelope ≤ max (e0, M)`; so when
`e0 ≤ 1` and `M ≤ 1` the sag multiplier
`1 - sagEnvelope · 0.15 · clamp (driveDB / 12, 0, 1)` lies in `[0.85, 1]` for
every `driveDB`. -/
theorem sag_envelope_bound (s : SaturationCore α) (calls : Nat → Call α) (M : α) (n : Nat)
    (ha0 : 0 ≤ s.sagAttack) (ha1 : s.sagAttack ≤ 1) (hr0 : 0 ≤ s.sagRelease)
    (hr1 : s.sagRelease ≤ 1) (he0 : 0 ≤ s.sagEnvelope)
    (hin : ∀ k : Nat, k < n → |(calls k).inp| ≤ M) :
    (0 ≤ (runCalls s calls n).sagEnvelope
        ∧ (runCalls s calls n).sagEnvelope ≤ max s.sagEnvelope M)
      ∧ (s.sagEnvelope ≤ 1 → M ≤ 1 → ∀ driveDB : α,
        0.85 ≤ 1 - (runCalls s calls n).sagEnvelope * 0.15 * max 0 (min 1 (driveDB / 12))
          ∧ 1 - (runCalls s calls n).sagEnvelope * 0.15 * max 0 (min 1 (driveDB / 12)) ≤ 1) := by
  have hb : 0 ≤ (runCalls s calls n).sagEnvelope
      ∧ (runCalls s calls n).sagEnvelope ≤ max s.sagEnvelope M := by
    induction n with
    | zero => exact ⟨he0, le_max_left _ _⟩
    | succ m ih =>
      have ihm := ih (fun k hk => hin k (Nat.lt_succ_of_lt hk))
      have hco := runCalls_rateCoefficients s calls m
      simp only [rateCoefficients, Prod.mk.injEq] at hco
      obtain ⟨_, _, _, _, _, _, c7, c8⟩ := hco
      show 0 ≤ (process _ _ _ _ _).2.sagEnvelope ∧ (process _ _ _ _ _).2.sagEnvelope ≤ _
      rw [process_sagEnvelope]
      exact sagStage_envelope_bound _ _ _ _ _ (c7 ▸ ha0) (c7 ▸ ha1) (c8 ▸ hr0) (c8 ▸ hr1)
        ihm.1 ihm.2 (le_trans (hin m (Nat.lt_succ_self m)) (le_max_right _ _))
  refine ⟨hb, ?_⟩
  intro h1 hM driveDB
  have hU : (runCalls s calls n).sagEnvelope ≤ 1 := le_trans hb.2 (max_le h1 hM)
  have hc0 : (0 : α) ≤ max 0 (min 1 (driveDB / 12)) := le_max_left _ _
  have hc1 : max 0 (min 1 (driveDB / 12)) ≤ (1 : α) := max_le zero_le_one (min_le_left _ _)
  have hp : 0 ≤ (runCalls s calls n).sagEnvelope * max 0 (min 1 (driveDB / 12)) :=
    mul_nonneg hb.1 hc0
  have hq : (runCalls s calls n).sagEnvelope * max 0 (min 1 (driveDB / 12)) ≤ 1 := by
    calc (runCalls s calls n).sagEnvelope * max 0 (min 1 (driveDB / 12))
        ≤ 1 * 1 := mul_le_mul hU hc1 hc0 zero_le_one
      _ = 1 := one_mul 1
  constructor
  · norm_num
    nlinarith
  · nlinarith

/-- Algorithm 0: the pre-emphasis state after the pre-processing is the
pre-gained sample minus the feedback coefficient times the state before. -/
theorem preShape_tape (s : SaturationCore α) (inp d c : α) :
    (preShape s inp 0 d c).2.tapeFilterState
      = preGain s inp 0 d - (0.05 + 0.55 * c) * s.tapeCoefBase * s.tapeFilterState := by
  obtain ⟨g1, g2, _⟩ := sagStage_other s inp 0 d
  simp only [rateCoefficients, Prod.mk.injEq] at g1
  unfold preShape preGain
  norm_num [g1.2.2.1, g2]

/-- Algorithm 0: the pre-emphasis state after a call. -/
theorem process_tape (s : SaturationCore α) (inp d c : α) :
    (process s inp 0 d c).2.tapeFilterState
      = preGain s inp 0 d - (0.05 + 0.55 * c) * s.tapeCoefBase * s.tapeFilterState := by
  rw [process_state]
  unfold dcBlock
  show (postShape _ _ _ _ _).2.tapeFilterState = _
  rw [(postShape_other _ _ _ _ _).2.1, (coreShape_other _ _ _ _).2.1, preShape_tape]

/-- C28: for algorithm 0 with a prepared sample rate `sr ≥ 44100`
(`tapeCoefBase = 44100 / sr`) and character in `[0, 1]`, the feedback coefficient
`(0.05 + 0.55 c) · (44100 / sr)` lies in `(0, 0.6]`; hence, if every pre-gained
input satisfies `|x| ≤ B` and `|tapeFilterState| ≤ 2.5 B` before the calls, then
`|tapeFilterState| ≤ 2.5 B` after any number of calls. -/
theorem tape_preemphasis_stable (s : SaturationCore α) (sr B : α) (hsr : 44100 ≤ sr)
    (htape : s.tapeCoefBase = 44100 / sr) (hst : |s.tapeFilterState| ≤ 2.5 * B) :
    (∀ c : α, 0 ≤ c → c ≤ 1 →
        0 < (0.05 + 0.55 * c) * s.tapeCoefBase ∧ (0.05 + 0.55 * c) * s.tapeCoefBase ≤ 0.6)
      ∧ (∀ (calls : Nat → Call α) (n : Nat),
        (∀ k : Nat, k < n →
          (calls k).type = 0 ∧ 0 ≤ (calls k).character ∧ (calls k).character ≤ 1
            ∧ |preGain (runCalls s calls k) (calls k).inp 0 (calls k).driveDB| ≤ B) →
        |(runCalls s calls n).tapeFilterState| ≤ 2.5 * B) := by
  refine ⟨fun c hc0 hc1 => htape ▸ tape_coefficient_range sr c hsr hc0 hc1, ?_⟩
  intro calls n
  induction n with
  | zero => exact fun _ => hst
  | succ m ih =>
    intro h
    have ihm := ih (fun k hk => h k (Nat.lt_succ_of_lt hk))
    obtain ⟨ht, hc0, hc1, hx⟩ := h m (Nat.lt_succ_self m)
    have hco := runCalls_rateCoefficients s calls m
    simp only [rateCoefficients, Prod.mk.injEq] at hco
    have hbase : (runCalls s calls m).tapeCoefBase = 44100 / sr := by
      rw [hco.2.2.1, htape]
    obtain ⟨hk0, hk1⟩ := tape_coefficient_range sr (calls m).character hsr hc0 hc1
    show |(process (runCalls s calls m) (calls m).inp (calls m).type (calls m).driveDB
      (calls m).character).2.tapeFilterState| ≤ 2.5 * B
    rw [ht, process_tape, hbase]
    have e1 : |(0.05 + 0.55 * (calls m).character) * (44100 / sr)
        * (runCalls s calls m).tapeFilterState|
        ≤ 0.6 * (2.5 * B) := by
      rw [abs_mul, abs_of_pos hk0]
      exact mul_le_mul hk1 ihm (abs_nonneg _) (by norm_num)
    calc |preGain (runCalls s calls m) (calls m).inp 0 (calls m).driveDB
          - (0.05 + 0.55 * (calls m).character) * (44100 / sr)
            * (runCalls s calls m).tapeFilterState|
        ≤ |preGain (runCalls s calls m) (calls m).inp 0 (calls m).driveDB|
          + |(0.05 + 0.55 * (calls m).character) * (44100 / sr)
            * (runCalls s calls m).tapeFilterState| := abs_sub _ _
      _ ≤ B + 0.6 * (2.5 * B) := add_le_add hx e1
      _ = 2.5 * B := by norm_num; ring

end Bounds

end DspEngine

namespace DspEngine

/-! ## HighPrecisionFilter: the cache after `setParams` -/

section CacheAfter

variable {α : Type} [LinearOrderedField α] {σ : Type}

open HighPrecisionFilter

/-- Past its head guard `setParams` caches the slope and the prepared rate, and
never writes `spec`. -/
theorem setParams_cache_rate (ops : StageOps σ α) (s : HighPrecisionFilter σ α) (type : FType)
    (freq : α) (slope : Slope) (h : unchanged s type freq slope = false) :
    (setParams ops s type freq slope).currentSlope = slope
      ∧ (setParams ops s type freq slope).currentSampleRate = s.spec.sampleRate
      ∧ (setParams ops s type freq slope).spec = s.spec := by
  unfold setParams
  simp only [h, Bool.false_eq_true, if_false]
  split_ifs <;> simp_all

/-- C26: immediately after any `setParams (type, freq, slope)` call, on the no-op
path or not, the cached configuration matches the request up to the tolerance:
cached type and slope are the requested ones, the cached frequency is within
0.01 of `freq`, and the cached sample rate is the prepared one (`spec`, which
`setParams` does not write and `prepare (sr)` sets to `sr`). -/
theorem setParams_cache_matches (ops : StageOps σ α) (s : HighPrecisionFilter σ α)
    (type : FType) (freq : α) (slope : Slope) :
    (setParams ops s type freq slope).currentType = type
      ∧ (setParams ops s type freq slope).currentSlope = slope
      ∧ |(setParams ops s type freq slope).currentFreq - freq| < 0.01
      ∧ (setParams ops s type freq slope).currentSampleRate
        = (setParams ops s type freq slope).spec.sampleRate
      ∧ (setParams ops s type freq slope).spec = s.spec
      ∧ (∀ sr : α,
        (setParams ops (HighPrecisionFilter.prepare ops s sr) type freq slope).currentSampleRate
          = sr) := by
  have key : ∀ s0 : HighPrecisionFilter σ α,
      (setParams ops s0 type freq slope).currentType = type
        ∧ (setParams ops s0 type freq slope).currentSlope = slope
        ∧ |(setParams ops s0 type freq slope).currentFreq - freq| < 0.01
        ∧ (setParams ops s0 type freq slope).currentSampleRate
          = (setParams ops s0 type freq slope).spec.sampleRate
        ∧ (setParams ops s0 type freq slope).spec = s0.spec := by
    intro s0
    by_cases hu : unchanged s0 type freq slope = true
    · rw [setParams_of_unchanged ops s0 type freq slope hu]
      obtain ⟨h1, h2, h3, h4⟩ := (unchanged_iff s0 type freq slope).1 hu
      exact ⟨h1, h3, h2, h4.symm, rfl⟩
    · have hu2 : unchanged s0 type freq slope = false := by simpa using hu
      obtain ⟨h1, h2⟩ := setParams_cache ops s0 type freq slope hu2
      obtain ⟨h3, h4, h5⟩ := setParams_cache_rate ops s0 type freq slope hu2
      refine ⟨h1, h3, ?_, ?_, h5⟩
      · rw [h2, sub_self, abs_zero]
        norm_num
      · rw [h4, h5]
  obtain ⟨k1, k2, k3, k4, k5⟩ := key s
  refine ⟨k1, k2, k3, k4, k5, ?_⟩
  intro sr
  obtain ⟨_, _, _, j4, j5⟩ := key (HighPrecisionFilter.prepare ops s sr)
  rw [j4, j5]
  rfl

end CacheAfter

/-! ## OnePoleFilter: settling -/

section Settling

/-- One `processLP` call moves the state towards the input by the factor
`exp (-2π freq / sr)`. -/
theorem processLP_error (f : OnePoleFilter ℝ) (c freq sr : ℝ) :
    (f.processLP c freq sr).2.z1 - c
      = Real.exp (-2 * Real.pi * freq / sr) * (f.z1 - c) := by
  have h : -(2 * Real.pi) * freq / sr = -2 * Real.pi * freq / sr := by ring
  simp only [OnePoleFilter.processLP, libm_exp, libm_twoPi, h]
  ring

/-- C29: for `freq > 0` and `sr > 0`, after `n` consecutive `processLP` calls
with the constant input `c` from state `z`, `z_n - c = q ^ n (z - c)` with
`q = exp (-2π freq / sr)`, `0 < q < 1`; so each low-pass output lies between the
state before the call and the input, and the `processHP` output `c - z_n`
shrinks by the factor `q` per call. -/
theorem onePole_settling (f : OnePoleFilter ℝ) (c freq sr : ℝ) (hf : 0 < freq) (hs : 0 < sr)
    (n : Nat) :
    (f.lpStateAfter c freq sr n).z1 - c
        = Real.exp (-2 * Real.pi * freq / sr) ^ n * (f.z1 - c)
      ∧ (0 < Real.exp (-2 * Real.pi * freq / sr) ∧ Real.exp (-2 * Real.pi * freq / sr) < 1)
      ∧ (min (f.lpStateAfter c freq sr n).z1 c
          ≤ ((f.lpStateAfter c freq sr n).processLP c freq sr).1
        ∧ ((f.lpStateAfter c freq sr n).processLP c freq sr).1
          ≤ max (f.lpStateAfter c freq sr n).z1 c)
      ∧ ((f.lpStateAfter c freq sr n).processHP c freq sr).1
        = c - (f.lpStateAfter c freq sr (n + 1)).z1
      ∧ ((f.lpStateAfter c freq sr (n + 1)).processHP c freq sr).1
        = Real.exp (-2 * Real.pi * freq / sr)
          * ((f.lpStateAfter c freq sr n).processHP c freq sr).1 := by
  have hq0 : 0 < Real.exp (-2 * Real.pi * freq / sr) := Real.exp_pos _
  have hq1 : Real.exp (-2 * Real.pi * freq / sr) < 1 := by
    rw [Real.exp_lt_one_iff]
    have : 0 < 2 * Real.pi * freq / sr := by positivity
    have e : -2 * Real.pi * freq / sr = -(2 * Real.pi * freq / sr) := by ring
    rw [e]
    linarith
  have hrun : ∀ m : Nat, (f.lpStateAfter c freq sr m).z1 - c
      = Real.exp (-2 * Real.pi * freq / sr) ^ m * (f.z1 - c) := by
    intro m
    induction m with
    | zero => simp [OnePoleFilter.lpStateAfter]
    | succ k ih =>
      show ((f.lpStateAfter c freq sr k).processLP c freq sr).2.z1 - c = _
      rw [processLP_error, ih]
      ring
  have hstep : ∀ g : OnePoleFilter ℝ, (g.processHP c freq sr).1
      = -(Real.exp (-2 * Real.pi * freq / sr) * (g.z1 - c)) := by
    intro g
    have := processLP_error g c freq sr
    show c - (g.processLP c freq sr).2.z1 = _
    linarith
  refine ⟨hrun n, ⟨hq0, hq1⟩, ?_, rfl, ?_⟩
  · have he := processLP_error (f.lpStateAfter c freq sr n) c freq sr
    have hv : ((f.lpStateAfter c freq sr n).processLP c freq sr).1
        = ((f.lpStateAfter c freq sr n).processLP c freq sr).2.z1 := rfl
    rw [hv]
    rcases le_total (f.lpStateAfter c freq sr n).z1 c with h | h
    · rw [min_eq_left h, max_eq_right h]
      constructor <;> nlinarith [mul_nonneg hq0.le (sub_nonneg.mpr h),
        mul_nonneg (sub_nonneg.mpr hq1.le) (sub_nonneg.mpr h)]
    · rw [min_eq_right h, max_eq_left h]
      constructor <;> nlinarith [mul_nonneg hq0.le (sub_nonneg.mpr h),
        mul_nonneg (sub_nonneg.mpr hq1.le) (sub_nonneg.mpr h)]
  · rw [hstep, hstep]
    have : (f.lpStateAfter c freq sr (n + 1)).z1 - c
        = Real.exp (-2 * Real.pi * freq / sr) * ((f.lpStateAfter c freq sr n).z1 - c) :=
      processLP_error (f.lpStateAfter c freq sr n) c freq sr
    rw [this]
    ring

/-- Witness for C29: a 1 kHz one-pole at 44100 Hz, from rest, fed the constant 1,
after 10 calls. -/
theorem onePole_settling_witness :
    (0 : ℝ) < 1000 ∧ (0 : ℝ) < 44100
      ∧ ((OnePoleFilter.init : OnePoleFilter ℝ).lpStateAfter 1 1000 44100 10).z1 - 1
        = Real.exp (-2 * Real.pi * 1000 / 44100) ^ 10
          * ((OnePoleFilter.init : OnePoleFilter ℝ).z1 - 1) :=
  ⟨by norm_num, by norm_num,
    (onePole_settling OnePoleFilter.init 1 1000 44100 (by norm_num) (by norm_num) 10).1⟩

end Settling

/-! ## SaturationCore: the hard clipper between the rails -/

section Unclipped

variable {α : Type} [LinearOrderedField α] [Libm α]

open SaturationCore

/-- Algorithm 9 from a consistent history with both samples in `[-1, 1]` and at
least `1e-6` apart: the secant is the mean of the two samples. -/
theorem hardclip_coreShape_average (s : SaturationCore α) (x c : α)
    (h : s.lastF = getADAAFunc s.lastX 9 c) (hl0 : -1 ≤ s.lastX) (hl1 : s.lastX ≤ 1)
    (hx0 : -1 ≤ x) (hx1 : x ≤ 1) (hd : 1.0e-6 ≤ |x - s.lastX|) :
    (coreShape s x 9 c).1 = (x + s.lastX) / 2 := by
  have hne : x - s.lastX ≠ 0 := by
    intro h0
    rw [h0, abs_zero] at hd
    norm_num at hd
  rw [coreShape_value s x 9 c (by decide), if_neg (not_lt.mpr hd), h, getADAAFunc_nine,
    getADAAFunc_nine, if_neg (not_lt.mpr hx0), if_neg (not_lt.mpr hx1),
    if_neg (not_lt.mpr hl0), if_neg (not_lt.mpr hl1)]
  field_simp
  ring

/-- C30: in the unclipped region the ADAA hard clipper is a two-sample average:
for algorithm 9 with a consistent history (`lastF = F_9 lastX`), if `lastX` and
the shaped input `x` both lie in `[-1, 1]` and `|x - lastX| ≥ 1e-6`, the
core-shaping value is `(x + lastX) / 2` (also for the shaped input of any
`process` call). -/
theorem hardclip_unclipped_average (s : SaturationCore α) (x c : α)
    (h : s.lastF = getADAAFunc s.lastX 9 c) (hl0 : -1 ≤ s.lastX) (hl1 : s.lastX ≤ 1) :
    (-1 ≤ x → x ≤ 1 → 1.0e-6 ≤ |x - s.lastX| → (coreShape s x 9 c).1 = (x + s.lastX) / 2)
      ∧ (∀ inp d : α, -1 ≤ shapedInput s inp 9 d c → shapedInput s inp 9 d c ≤ 1 →
        1.0e-6 ≤ |shapedInput s inp 9 d c - s.lastX| →
        coreValue s inp 9 d c = (shapedInput s inp 9 d c + s.lastX) / 2) := by
  refine ⟨fun hx0 hx1 hd => hardclip_coreShape_average s x c h hl0 hl1 hx0 hx1 hd, ?_⟩
  intro inp d hx0 hx1 hd
  obtain ⟨p1, p2⟩ := preShape_history s inp 9 d c
  unfold coreValue
  rw [hardclip_coreShape_average (preShape s inp 9 d c).2 (shapedInput s inp 9 d c) c
    (by rw [p1, p2]; exact h) (by rw [p1]; exact hl0) (by rw [p1]; exact hl1) hx0 hx1
    (by rw [p1]; exact hd), p1]

/-- Witness for C30: a fresh core (`lastX = 0`, `lastF = 0 = F_9 0`) and the
shaped input 1/2. -/
theorem hardclip_unclipped_average_witness :
    (init : SaturationCore ℝ).lastF = getADAAFunc (init : SaturationCore ℝ).lastX 9 0
      ∧ -1 ≤ (init : SaturationCore ℝ).lastX ∧ (init : SaturationCore ℝ).lastX ≤ 1
      ∧ (coreShape (init : SaturationCore ℝ) (1 / 2) 9 0).1
        = (1 / 2 + (init : SaturationCore ℝ).lastX) / 2 :=
  have h : (init : SaturationCore ℝ).lastF = getADAAFunc (init : SaturationCore ℝ).lastX 9 0 := by
    rw [getADAAFunc_nine]
    norm_num [SaturationCore.init]
  have hl0 : -1 ≤ (init : SaturationCore ℝ).lastX := by norm_num [SaturationCore.init]
  have hl1 : (init : SaturationCore ℝ).lastX ≤ 1 := by norm_num [SaturationCore.init]
  ⟨h, hl0, hl1,
    (hardclip_unclipped_average init (1 / 2) 0 h hl0 hl1).1 (by norm_num) (by norm_num)
      (by norm_num [SaturationCore.init, abs_of_pos])⟩

end Unclipped

end DspEngine

namespace DspEngine

/-! ## SaturationCore: the hold schedule of the bitcrusher -/

section HoldSchedule

open SaturationCore

/-- A counter that counts modulo `N` wraps to 0 exactly when it reaches `N`. -/
theorem succ_mod_of_reach (m N : Nat) (hN : 1 ≤ N) (h : N ≤ m % N + 1) : (m + 1) % N = 0 := by
  have hlt : m % N < N := Nat.mod_lt _ hN
  have h2 : m % N + 1 = N := by omega
  rcases Nat.eq_or_lt_of_le hN with h1 | h1
  · rw [← h1]
    exact Nat.mod_one _
  · rw [Nat.add_mod, Nat.mod_eq_of_lt h1, h2, Nat.mod_self]

/-- A counter that counts modulo `N` steps by one below `N`. -/
theorem succ_mod_of_below (m N : Nat) (h : ¬ N ≤ m % N + 1) : (m + 1) % N = m % N + 1 := by
  have h1 : 1 < N := by omega
  rw [Nat.add_mod, Nat.mod_eq_of_lt h1, Nat.mod_eq_of_lt (by omega)]

/-- Algorithm 12: one call, in terms of the hold counter before it. -/
theorem process_bitcrush_step (s : SaturationCore ℝ) (inp d c : ℝ) (hc1 : c ≤ 1) :
    (s.sampleHoldCounter + 1 ≥ rateDiv c →
        (process s inp 12 d c).2.sampleHoldVal = inp * (10 : ℝ) ^ (d / 20)
          ∧ (process s inp 12 d c).2.sampleHoldCounter = 0)
      ∧ (¬ s.sampleHoldCounter + 1 ≥ rateDiv c →
        (process s inp 12 d c).2.sampleHoldVal = s.sampleHoldVal
          ∧ (process s inp 12 d c).2.sampleHoldCounter = s.sampleHoldCounter + 1) := by
  obtain ⟨_, hg, _, hv, hk⟩ := process_bitcrush s inp d c
  obtain ⟨_, hs⟩ := coreShape_bitcrush s (preGain s inp 12 d) c hc1
  rw [hv, hk, hs]
  constructor
  · intro h
    rw [if_pos h]
    exact ⟨hg, rfl⟩
  · intro h
    rw [if_neg h]
    exact ⟨rfl, rfl⟩

/-- The hold period in calls is at least one. -/
theorem one_le_ceil_rateDiv (c : ℝ) (hc0 : 0 ≤ c) : 1 ≤ ⌈rateDiv c⌉₊ := by
  have h1 := one_le_rateDiv c hc0
  rw [Nat.one_le_iff_ne_zero, Ne, Nat.ceil_eq_zero]
  intro h
  linarith

/-- The counter of a run of bitcrush calls from a counter at 0 is the number of
calls modulo `N = ⌈rateDiv⌉`. -/
theorem runCalls_holdCounter (s : SaturationCore ℝ) (calls : Nat → Call ℝ) (c : ℝ)
    (hc0 : 0 ≤ c) (hc1 : c ≤ 1) (h0 : s.sampleHoldCounter = 0)
    (hcalls : ∀ k : Nat, (calls k).type = 12 ∧ (calls k).character = c) (n : Nat) :
    (runCalls s calls n).sampleHoldCounter = ((n % ⌈rateDiv c⌉₊ : Nat) : ℝ) := by
  have hN : 1 ≤ ⌈rateDiv c⌉₊ := one_le_ceil_rateDiv c hc0
  induction n with
  | zero => simp [runCalls, h0]
  | succ m ih =>
    obtain ⟨ht, hch⟩ := hcalls m
    obtain ⟨hyes, hno⟩ := process_bitcrush_step (runCalls s calls m) (calls m).inp
      (calls m).driveDB c hc1
    have hlt : m % ⌈rateDiv c⌉₊ < ⌈rateDiv c⌉₊ := Nat.mod_lt _ hN
    show (process (runCalls s calls m) (calls m).inp (calls m).type (calls m).driveDB
      (calls m).character).2.sampleHoldCounter = _
    rw [ht, hch]
    by_cases hcond : (runCalls s calls m).sampleHoldCounter + 1 ≥ rateDiv c
    · rw [(hyes hcond).2]
      have h1 : ⌈rateDiv c⌉₊ ≤ m % ⌈rateDiv c⌉₊ + 1 := by
        rw [Nat.ceil_le]
        rw [ih] at hcond
        push_cast
        exact hcond
      have h3 := succ_mod_of_reach m _ hN h1
      rw [h3]
      simp
    · rw [(hno hcond).2, ih]
      have h1 : ¬ ⌈rateDiv c⌉₊ ≤ m % ⌈rateDiv c⌉₊ + 1 := by
        rw [Nat.ceil_le]
        rw [ih] at hcond
        push_cast
        exact hcond
      have h3 := succ_mod_of_below m _ h1
      rw [h3]
      push_cast
      ring

/-- The held sample of a run of bitcrush calls from a counter at 0: replaced on
the calls whose number `N = ⌈rateDiv⌉` divides, kept on the others. -/
theorem runCalls_holdVal (s : SaturationCore ℝ) (calls : Nat → Call ℝ) (c : ℝ)
    (hc0 : 0 ≤ c) (hc1 : c ≤ 1) (h0 : s.sampleHoldCounter = 0)
    (hcalls : ∀ k : Nat, (calls k).type = 12 ∧ (calls k).character = c) (n : Nat) :
    (⌈rateDiv c⌉₊ ∣ n + 1 →
        (runCalls s calls (n + 1)).sampleHoldVal
          = (calls n).inp * (10 : ℝ) ^ ((calls n).driveDB / 20))
      ∧ (¬ ⌈rateDiv c⌉₊ ∣ n + 1 →
        (runCalls s calls (n + 1)).sampleHoldVal = (runCalls s calls n).sampleHoldVal) := by
  have hN : 1 ≤ ⌈rateDiv c⌉₊ := one_le_ceil_rateDiv c hc0
  obtain ⟨ht, hch⟩ := hcalls n
  obtain ⟨hyes, hno⟩ := process_bitcrush_step (runCalls s calls n) (calls n).inp
    (calls n).driveDB c hc1
  have hcnt := runCalls_holdCounter s calls c hc0 hc1 h0 hcalls n
  have hlt : n % ⌈rateDiv c⌉₊ < ⌈rateDiv c⌉₊ := Nat.mod_lt _ hN
  have hiff : (runCalls s calls n).sampleHoldCounter + 1 ≥ rateDiv c
      ↔ ⌈rateDiv c⌉₊ ∣ n + 1 := by
    rw [hcnt, Nat.dvd_iff_mod_eq_zero]
    have e : (rateDiv c ≤ ((n % ⌈rateDiv c⌉₊ : Nat) : ℝ) + 1)
        ↔ ⌈rateDiv c⌉₊ ≤ n % ⌈rateDiv c⌉₊ + 1 := by
      rw [Nat.ceil_le]
      push_cast
      rfl
    rw [ge_iff_le, e]
    constructor
    · intro h1
      exact succ_mod_of_reach n _ hN h1
    · intro h1
      by_contra hcon
      rw [succ_mod_of_below n _ hcon] at h1
      omega
  show (⌈rateDiv c⌉₊ ∣ n + 1 →
      (process (runCalls s calls n) (calls n).inp (calls n).type (calls n).driveDB
        (calls n).character).2.sampleHoldVal = _)
    ∧ (¬ ⌈rateDiv c⌉₊ ∣ n + 1 →
      (process (runCalls s calls n) (calls n).inp (calls n).type (calls n).driveDB
        (calls n).character).2.sampleHoldVal = _)
  rw [ht, hch]
  exact ⟨fun hd => (hyes (hiff.mpr hd)).1, fun hd => (hno (fun h => hd (hiff.mp h))).1⟩

/-- C24 (as amended): for algorithm 12 called repeatedly with a constant
character `c` in `[0, 1]`, from `sampleHoldCounter = 0`, with `N = ⌈rateDiv⌉`
where `rateDiv` is the `double` that line 327 stores for `1.0 + character * 49.0`
(the product and the sum each rounded to a `double`): the held sample is
replaced by the pre-gained input of the call exactly on the calls number
`N, 2N, 3N, ...` and is left as it was on every other call; `N = 1` at `c = 0`
and `N = 50` at `c = 1`.  (`runCalls s calls (n + 1)` is the state after call
number `n + 1`, whose arguments are `calls n`.) -/
theorem bitcrush_hold_schedule (s : SaturationCore ℝ) (calls : Nat → Call ℝ) (c : ℝ)
    (hc0 : 0 ≤ c) (hc1 : c ≤ 1) (h0 : s.sampleHoldCounter = 0)
    (hcalls : ∀ k : Nat, (calls k).type = 12 ∧ (calls k).character = c) :
    (∀ n : Nat,
        (⌈rateDiv c⌉₊ ∣ n + 1 →
          (runCalls s calls (n + 1)).sampleHoldVal
            = (calls n).inp * (10 : ℝ) ^ ((calls n).driveDB / 20))
        ∧ (¬ ⌈rateDiv c⌉₊ ∣ n + 1 →
          (runCalls s calls (n + 1)).sampleHoldVal = (runCalls s calls n).sampleHoldVal))
      ∧ (c = 0 → ⌈rateDiv c⌉₊ = 1) ∧ (c = 1 → ⌈rateDiv c⌉₊ = 50) := by
  refine ⟨runCalls_holdVal s calls c hc0 hc1 h0 hcalls, ?_, ?_⟩
  · intro h
    rw [h, rateDiv_values.1]
    norm_num
  · intro h
    rw [h, rateDiv_values.2.1]
    norm_num

/-- Witness for C24 (as amended): a fresh core and the calls
`process (k, 12, 0, 1)`, `k = 1, 2, ...`, for which `N = 50`: call 49 leaves the
held sample as it was, call 50 replaces it by its input 50 (times the pre-gain
`10 ^ (0 / 20)`). -/
theorem bitcrush_hold_schedule_witness :
    (0 : ℝ) ≤ 1 ∧ (1 : ℝ) ≤ 1 ∧ (init : SaturationCore ℝ).sampleHoldCounter = 0
      ∧ (∀ k : Nat, (rampCalls (1 : ℝ) k).type = 12 ∧ (rampCalls (1 : ℝ) k).character = 1)
      ∧ (runCalls (init : SaturationCore ℝ) (rampCalls 1) (48 + 1)).sampleHoldVal
        = (runCalls (init : SaturationCore ℝ) (rampCalls 1) 48).sampleHoldVal
      ∧ (runCalls (init : SaturationCore ℝ) (rampCalls 1) (49 + 1)).sampleHoldVal
        = (rampCalls (1 : ℝ) 49).inp * (10 : ℝ) ^ ((rampCalls (1 : ℝ) 49).driveDB / 20)
      ∧ (rampCalls (1 : ℝ) 49).inp = 50 :=
  have h0 : (init : SaturationCore ℝ).sampleHoldCounter = 0 := by norm_num [SaturationCore.init]
  have hT := bitcrush_hold_schedule init (rampCalls 1) 1 (by norm_num) le_rfl h0
    (fun _ => ⟨rfl, rfl⟩)
  ⟨by norm_num, le_rfl, h0, fun _ => ⟨rfl, rfl⟩,
    (hT.1 48).2 (by rw [hT.2.2 rfl]; decide), (hT.1 49).1 (by rw [hT.2.2 rfl]),
    by norm_num [rampCalls]⟩

/-- C24 (counterexample): the character `5.0 / 49.0`, a `double` in `[0, 1]` that
lies just above 5/49, so that `⌈1 + 49 c⌉ = 7`.  The machine rounds
`c * 49.0 = 5 + 2 ^ (-53)` to 5 and stores `rateDiv = 6`: on a fresh core fed
the inputs 1, 2, 3, ... at 0 dB the held sample is still 0 after call 5 and is
replaced by the input 6 on call 6, which is not a multiple of 7. -/
theorem bitcrush_hold_counterexample :
    ((0 : ℝ) ≤ fiveFortyNinths ℝ ∧ fiveFortyNinths ℝ ≤ 1)
      ∧ roundToDouble (fiveFortyNinths ℝ) = fiveFortyNinths ℝ
      ∧ (init : SaturationCore ℝ).sampleHoldCounter = 0
      ∧ (∀ k : Nat, (rampCalls (fiveFortyNinths ℝ) k).type = 12
        ∧ (rampCalls (fiveFortyNinths ℝ) k).character = fiveFortyNinths ℝ)
      ∧ ⌈1 + 49 * fiveFortyNinths ℝ⌉₊ = 7 ∧ ¬ (7 ∣ 5 + 1)
      ∧ (runCalls (init : SaturationCore ℝ) (rampCalls (fiveFortyNinths ℝ)) 5).sampleHoldVal = 0
      ∧ (runCalls (init : SaturationCore ℝ) (rampCalls (fiveFortyNinths ℝ)) (5 + 1)).sampleHoldVal
        = 6
      ∧ (runCalls (init : SaturationCore ℝ) (rampCalls (fiveFortyNinths ℝ)) (5 + 1)).sampleHoldVal
        ≠ (runCalls (init : SaturationCore ℝ) (rampCalls (fiveFortyNinths ℝ)) 5).sampleHoldVal := by
  have hc0 : (0 : ℝ) ≤ fiveFortyNinths ℝ := by unfold fiveFortyNinths; norm_num
  have hc1 : fiveFortyNinths ℝ ≤ 1 := by unfold fiveFortyNinths; norm_num
  have h0 : (init : SaturationCore ℝ).sampleHoldCounter = 0 := by norm_num [SaturationCore.init]
  have hv0 : (init : SaturationCore ℝ).sampleHoldVal = 0 := by norm_num [SaturationCore.init]
  have hN : ⌈rateDiv (fiveFortyNinths ℝ)⌉₊ = 6 := by
    rw [rateDiv_values.2.2]
    norm_num
  have H := runCalls_holdVal init (rampCalls (fiveFortyNinths ℝ)) (fiveFortyNinths ℝ) hc0 hc1 h0
    (fun _ => ⟨rfl, rfl⟩)
  rw [hN] at H
  have h5 : (runCalls (init : SaturationCore ℝ) (rampCalls (fiveFortyNinths ℝ)) 5).sampleHoldVal
      = 0 :=
    ((H 4).2 (by decide)).trans (((H 3).2 (by decide)).trans (((H 2).2 (by decide)).trans
      (((H 1).2 (by decide)).trans (((H 0).2 (by decide)).trans hv0))))
  have h6 : (runCalls (init : SaturationCore ℝ) (rampCalls (fiveFortyNinths ℝ))
      (5 + 1)).sampleHoldVal = 6 := by
    rw [((H 5).1 (by decide))]
    norm_num [rampCalls]
  refine ⟨⟨hc0, hc1⟩, roundToDouble_values.2.2.2.2.1, h0, fun _ => ⟨rfl, rfl⟩, ?_, by decide,
    h5, h6, ?_⟩
  · rw [Nat.ceil_eq_iff (by norm_num)]
    unfold fiveFortyNinths
    norm_num
  · rw [h6, h5]
    norm_num

end HoldSchedule

end DspEngine

namespace DspEngine

/-! ## HighPrecisionFilter: the resonance table and the Butterworth sections -/

section Butterworth

open HighPrecisionFilter

/-- Rational bounds on a square root from bounds on the squares. -/
theorem sqrt_between (v lo hi : ℝ) (hlo : 0 ≤ lo) (hhi : 0 < hi) (h1 : lo ^ 2 < v)
    (h2 : v < hi ^ 2) : lo < √v ∧ √v < hi :=
  ⟨(Real.lt_sqrt hlo).mpr h1, (Real.sqrt_lt' hhi).mpr h2⟩

/-- The three inner radicals of the Butterworth angles. -/
theorem radical_bounds :
    (1.414213561 < √(2 : ℝ) ∧ √(2 : ℝ) < 1.414213564)
      ∧ (1.847759063 < √(2 + √(2 : ℝ)) ∧ √(2 + √(2 : ℝ)) < 1.847759067)
      ∧ (0.765366862 < √(2 - √(2 : ℝ)) ∧ √(2 - √(2 : ℝ)) < 0.765366867) := by
  have h2 := sqrt_between 2 1.414213561 1.414213564 (by norm_num) (by norm_num) (by norm_num)
    (by norm_num)
  refine ⟨h2, ?_, ?_⟩
  · apply sqrt_between _ _ _ (by norm_num) (by norm_num)
    · have := h2.1
      norm_num
      linarith
    · have := h2.2
      norm_num
      linarith
  · apply sqrt_between _ _ _ (by norm_num) (by norm_num)
    · have := h2.2
      norm_num
      linarith
    · have := h2.1
      norm_num
      linarith

/-- The four outer radicals of the Butterworth angles. -/
theorem radical_bounds_outer :
    (1.961570559 < √(2 + √(2 + √(2 : ℝ))) ∧ √(2 + √(2 + √(2 : ℝ))) < 1.961570563)
      ∧ (0.39018064 < √(2 - √(2 + √(2 : ℝ))) ∧ √(2 - √(2 + √(2 : ℝ))) < 0.390180648)
      ∧ (1.662939222 < √(2 + √(2 - √(2 : ℝ))) ∧ √(2 + √(2 - √(2 : ℝ))) < 1.662939227)
      ∧ (1.111140464 < √(2 - √(2 - √(2 : ℝ))) ∧ √(2 - √(2 - √(2 : ℝ))) < 1.111140469) := by
  obtain ⟨_, ha, hb⟩ := radical_bounds
  refine ⟨?_, ?_, ?_, ?_⟩
  · apply sqrt_between _ _ _ (by norm_num) (by norm_num)
    · have := ha.1
      norm_num
      linarith
    · have := ha.2
      norm_num
      linarith
  · apply sqrt_between _ _ _ (by norm_num) (by norm_num)
    · have := ha.2
      norm_num
      linarith
    · have := ha.1
      norm_num
      linarith
  · apply sqrt_between _ _ _ (by norm_num) (by norm_num)
    · have := hb.1
      norm_num
      linarith
    · have := hb.2
      norm_num
      linarith
  · apply sqrt_between _ _ _ (by norm_num) (by norm_num)
    · have := hb.2
      norm_num
      linarith
    · have := hb.1
      norm_num
      linarith

/-- Cosine of `3π/8`. -/
theorem cos_three_pi_div_eight : Real.cos (3 * Real.pi / 8) = √(2 - √(2 : ℝ)) / 2 := by
  have e : 3 * Real.pi / 8 = Real.pi / 2 - Real.pi / 8 := by ring
  rw [e, Real.cos_pi_div_two_sub, Real.sin_pi_div_eight]

/-- Cosine of `7π/16`. -/
theorem cos_seven_pi_div_sixteen :
    Real.cos (7 * Real.pi / 16) = √(2 - √(2 + √(2 : ℝ))) / 2 := by
  have e : 7 * Real.pi / 16 = Real.pi / 2 - Real.pi / 16 := by ring
  rw [e, Real.cos_pi_div_two_sub, Real.sin_pi_div_sixteen]

/-- Cosine of `3π/16`, by the half-angle formula. -/
theorem cos_three_pi_div_sixteen :
    Real.cos (3 * Real.pi / 16) = √(2 + √(2 - √(2 : ℝ))) / 2 := by
  have e : 3 * Real.pi / 16 = 3 * Real.pi / 8 / 2 := by ring
  have hpi := Real.pi_pos
  rw [e, Real.cos_half (by linarith) (by linarith), cos_three_pi_div_eight]
  have e2 : (1 + √(2 - √(2 : ℝ)) / 2) / 2 = (2 + √(2 - √(2 : ℝ))) / 2 ^ 2 := by ring
  rw [e2, Real.sqrt_div' _ (by norm_num), Real.sqrt_sq (by norm_num)]

/-- Cosine of `5π/16`, by the half-angle formula for the sine of `3π/16`. -/
theorem cos_five_pi_div_sixteen :
    Real.cos (5 * Real.pi / 16) = √(2 - √(2 - √(2 : ℝ))) / 2 := by
  have e : 5 * Real.pi / 16 = Real.pi / 2 - 3 * Real.pi / 8 / 2 := by ring
  have hpi := Real.pi_pos
  rw [e, Real.cos_pi_div_two_sub, Real.sin_half_eq_sqrt (by positivity) (by linarith),
    cos_three_pi_div_eight]
  have e2 : (1 - √(2 - √(2 : ℝ)) / 2) / 2 = (2 - √(2 - √(2 : ℝ))) / 2 ^ 2 := by ring
  rw [e2, Real.sqrt_div' _ (by norm_num), Real.sqrt_sq (by norm_num)]

/-- A tabulated `q` is within `1e-4` of `1 / (2 c)` when `2 c` lies in an interval
whose ends `q - 1e-4` and `q + 1e-4` invert past. -/
theorem q_close (q r lo hi : ℝ) (h0 : 0 < lo) (hl : lo < r) (hu : r < hi)
    (h1 : (q - 1.0e-4) * hi ≤ 1) (h2 : 1 ≤ (q + 1.0e-4) * lo) : |q - 1 / r| < 1.0e-4 := by
  have hr : 0 < r := lt_trans h0 hl
  have hq : 0 < q + 1.0e-4 := by
    by_contra hcon
    have : (q + 1.0e-4) * lo ≤ 0 := mul_nonpos_of_nonpos_of_nonneg (not_lt.mp hcon) h0.le
    linarith
  rw [abs_lt]
  constructor
  · have : 1 / r < q + 1.0e-4 := by
      rw [div_lt_iff₀ hr]
      nlinarith
    linarith
  · have : q - 1.0e-4 < 1 / r := by
      rw [lt_div_iff₀ hr]
      by_cases hneg : q - 1.0e-4 ≤ 0
      · have : (q - 1.0e-4) * r ≤ 0 := mul_nonpos_of_nonpos_of_nonneg hneg hr.le
        linarith
      · nlinarith [not_le.mp hneg]
    linarith

/-- C23: the per-stage Q constants are the Butterworth section values to four
decimals: each one is within `1e-4` of `1 / (2 cos θ)`, with `θ = π/4` for 12 dB,
`π/8` and `3π/8` for 24 dB, and `π/16`, `3π/16`, `5π/16`, `7π/16` for 48 dB. -/
theorem stageQ_butterworth :
    |(stageQ Slope.Slope12dB 0 : ℝ) - 1 / (2 * Real.cos (Real.pi / 4))| < 1.0e-4
      ∧ |(stageQ Slope.Slope24dB 0 : ℝ) - 1 / (2 * Real.cos (Real.pi / 8))| < 1.0e-4
      ∧ |(stageQ Slope.Slope24dB 1 : ℝ) - 1 / (2 * Real.cos (3 * Real.pi / 8))| < 1.0e-4
      ∧ |(stageQ Slope.Slope48dB 0 : ℝ) - 1 / (2 * Real.cos (Real.pi / 16))| < 1.0e-4
      ∧ |(stageQ Slope.Slope48dB 1 : ℝ) - 1 / (2 * Real.cos (3 * Real.pi / 16))| < 1.0e-4
      ∧ |(stageQ Slope.Slope48dB 2 : ℝ) - 1 / (2 * Real.cos (5 * Real.pi / 16))| < 1.0e-4
      ∧ |(stageQ Slope.Slope48dB 3 : ℝ) - 1 / (2 * Real.cos (7 * Real.pi / 16))| < 1.0e-4 := by
  obtain ⟨h2, ha, hb⟩ := radical_bounds
  obtain ⟨hpa, hma, hpb, hmb⟩ := radical_bounds_outer
  have t : ∀ y : ℝ, 2 * (y / 2) = y := fun y => by ring
  refine ⟨?_, ?_, ?_, ?_, ?_, ?_, ?_⟩
  · rw [Real.cos_pi_div_four, t]
    have hq : (stageQ Slope.Slope12dB 0 : ℝ) = 0.7071 := by simp [stageQ]
    rw [hq]
    exact q_close _ _ _ _ (by norm_num) h2.1 h2.2 (by norm_num) (by norm_num)
  · rw [Real.cos_pi_div_eight, t]
    have hq : (stageQ Slope.Slope24dB 0 : ℝ) = 0.5412 := by simp [stageQ]
    rw [hq]
    exact q_close _ _ _ _ (by norm_num) ha.1 ha.2 (by norm_num) (by norm_num)
  · rw [cos_three_pi_div_eight, t]
    have hq : (stageQ Slope.Slope24dB 1 : ℝ) = 1.3066 := by simp [stageQ]
    rw [hq]
    exact q_close _ _ _ _ (by norm_num) hb.1 hb.2 (by norm_num) (by norm_num)
  · rw [Real.cos_pi_div_sixteen, t]
    have hq : (stageQ Slope.Slope48dB 0 : ℝ) = 0.5098 := by simp [stageQ]
    rw [hq]
    exact q_close _ _ _ _ (by norm_num) hpa.1 hpa.2 (by norm_num) (by norm_num)
  · rw [cos_three_pi_div_sixteen, t]
    have hq : (stageQ Slope.Slope48dB 1 : ℝ) = 0.6013 := by simp [stageQ]
    rw [hq]
    exact q_close _ _ _ _ (by norm_num) hpb.1 hpb.2 (by norm_num) (by norm_num)
  · rw [cos_five_pi_div_sixteen, t]
    have hq : (stageQ Slope.Slope48dB 2 : ℝ) = 0.8999 := by simp [stageQ]
    rw [hq]
    exact q_close _ _ _ _ (by norm_num) hmb.1 hmb.2 (by norm_num) (by norm_num)
  · rw [cos_seven_pi_div_sixteen, t]
    have hq : (stageQ Slope.Slope48dB 3 : ℝ) = 2.5629 := by simp [stageQ]
    rw [hq]
    exact q_close _ _ _ _ (by norm_num) hma.1 hma.2 (by norm_num) (by norm_num)

end Butterworth

end DspEngine

namespace DspEngine

/-! ## SaturationCore: the soft-tanh secant across the guard at 10 -/

section SoftTanhGuard

open SaturationCore

/-- The exponential of -20 is below `1e-8`. -/
theorem exp_neg_twenty_lt : Real.exp (-20) < 1.0e-8 := by
  have h1 : (2.7 : ℝ) < Real.exp 1 := lt_trans (by norm_num) Real.exp_one_gt_d9
  have h2 : Real.exp 20 = Real.exp 1 ^ 20 := by
    have := Real.exp_nat_mul 1 20
    rw [show ((20 : Nat) : ℝ) * 1 = 20 by norm_num] at this
    exact this
  have h3 : (2.7 : ℝ) ^ 20 < Real.exp 20 := by
    rw [h2]
    exact pow_lt_pow_left₀ h1 (by norm_num) (by norm_num)
  have h4 : (1.0e8 : ℝ) < Real.exp 20 := lt_trans (by norm_num) h3
  rw [Real.exp_neg, inv_lt_comm₀ (Real.exp_pos 20) (by norm_num)]
  calc ((1.0e-8 : ℝ))⁻¹ = 1.0e8 := by norm_num
    _ < Real.exp 20 := h4

/-- The antiderivative of algorithm 8 at 10, where `log (cosh x)` is still in
use, is below `9.30685283`. -/
theorem log_cosh_ten_lt : Real.log (Real.cosh 10) < 9.30685283 := by
  have hpos : (0 : ℝ) < 1 + Real.exp (-20) := by positivity
  have e1 : Real.cosh 10 = Real.exp 10 * (1 + Real.exp (-20)) / 2 := by
    rw [Real.cosh_eq, mul_add, mul_one, ← Real.exp_add]
    norm_num
  have e2 : Real.log (Real.cosh 10) = 10 + Real.log (1 + Real.exp (-20)) - Real.log 2 := by
    rw [e1, Real.log_div (mul_pos (Real.exp_pos 10) hpos).ne' (by norm_num),
      Real.log_mul (Real.exp_pos 10).ne' hpos.ne', Real.log_exp]
  have h3 : Real.log (1 + Real.exp (-20)) ≤ Real.exp (-20) := by
    have := Real.log_le_sub_one_of_pos hpos
    linarith
  have h4 := exp_neg_twenty_lt
  have h5 := Real.log_two_gt_d9
  rw [e2]
  norm_num at h4 h5 ⊢
  linarith

/-- C22 (the code at the failing input): after `reset ()`, `process (10, 8, 0, 0)`
leaves the consistent history `lastX = 10`, `lastF = F_8 (10) = log (cosh 10)`;
the next call `process (10.000002, 8, 0, 0)` has shaped input `10.000002`, past
the guard `|x| > 10`, where `F_8 (x) = x - 0.693147`; its core-shaping value, the
secant over the step of `2e-6`, is above 1.08. -/
theorem softTanh_secant_overshoot :
    (process (reset (init : SaturationCore ℝ)) 10 8 0 0).2.lastX = 10
      ∧ (process (reset (init : SaturationCore ℝ)) 10 8 0 0).2.lastF
        = getADAAFunc (process (reset (init : SaturationCore ℝ)) 10 8 0 0).2.lastX 8 0
      ∧ shapedInput (process (reset (init : SaturationCore ℝ)) 10 8 0 0).2 10.000002 8 0 0
        = 10.000002
      ∧ 1.08 < coreValue (process (reset (init : SaturationCore ℝ)) 10 8 0 0).2 10.000002 8 0 0 := by
  have hx : ∀ (s : SaturationCore ℝ) (v : ℝ), shapedInput s v 8 0 0 = v := by
    intro s v
    unfold shapedInput foldScale
    rw [preShape_of_gt s v 8 0 0 (by decide)]
    norm_num
  obtain ⟨hl, hf⟩ := process_history (reset (init : SaturationCore ℝ)) 10 8 0 0 (by decide)
  rw [hx] at hl hf
  have hF10 : getADAAFunc (10 : ℝ) 8 0 = Real.log (Real.cosh 10) := by
    unfold getADAAFunc
    norm_num
  have hF : getADAAFunc (10.000002 : ℝ) 8 0 = 10.000002 - 0.693147 := by
    unfold getADAAFunc
    norm_num
    rw [abs_of_pos (by norm_num)]
    norm_num
  refine ⟨hl, by rw [hf, hl], hx _ _, ?_⟩
  rw [coreValue_adaa _ _ _ _ _ (by decide), hx, hl, hf, hF10, hF]
  have hd : ¬ |(10.000002 : ℝ) - 10| < 1.0e-6 := by
    rw [abs_of_pos (by norm_num)]
    norm_num
  rw [if_neg hd]
  have h := log_cosh_ten_lt
  rw [lt_div_iff₀ (by norm_num)]
  norm_num at h ⊢
  linarith

end SoftTanhGuard

end DspEngine

namespace DspEngine

/-! ## SaturationCore: the algorithms with an exact antiderivative pair -/

section ExactPairs

open SaturationCore

/-- C21: for the algorithms with no epsilon branch and no truncated constant,
`t` in {1 triode, 4 console, 5 JFET, 6 BJT, 7 diode, 9 hard clip, 10 wavefold,
11 rectify}, for every character in `[0, 1]` and every real `x` (the joins
`x = 0` and `x = ±1` included), `getADAAFunc (., t, c)` is differentiable at `x`
with derivative exactly the fallback function `f_t (x, c)`. -/
theorem adaa_derivative_exact (t : Int) (c x : ℝ)
    (ht : t = 1 ∨ t = 4 ∨ t = 5 ∨ t = 6 ∨ t = 7 ∨ t = 9 ∨ t = 10 ∨ t = 11) (hc0 : 0 ≤ c)
    (_hc1 : c ≤ 1) : HasDerivAt (fun y => getADAAFunc y t c) (directFunc x t c) x := by
  rcases ht with rfl | rfl | rfl | rfl | rfl | rfl | rfl | rfl
  · exact hasDerivAt_triode c x hc0
  · exact hasDerivAt_console c x
  · exact hasDerivAt_jfet c x
  · exact hasDerivAt_bjt c x hc0
  · exact hasDerivAt_diode c x hc0
  · exact hasDerivAt_hardclip c x
  · exact hasDerivAt_wavefold c x hc0
  · exact hasDerivAt_rectify c x

/-- Witness for C21: the hard clipper at the join `x = 1`. -/
theorem adaa_derivative_exact_witness :
    ((9 : Int) = 1 ∨ (9 : Int) = 4 ∨ (9 : Int) = 5 ∨ (9 : Int) = 6 ∨ (9 : Int) = 7
        ∨ (9 : Int) = 9 ∨ (9 : Int) = 10 ∨ (9 : Int) = 11)
      ∧ (0 : ℝ) ≤ 0 ∧ (0 : ℝ) ≤ 1
      ∧ HasDerivAt (fun y : ℝ => getADAAFunc y 9 0) (directFunc (1 : ℝ) 9 0) 1 :=
  ⟨by decide, le_refl _, zero_le_one,
    adaa_derivative_exact 9 0 1 (by decide) (le_refl _) zero_le_one⟩

/-- After `prepare (sr)` with a new rate `sr > 0` the sag coefficients lie in
`[0, 1]`. -/
theorem prepare_sag_range (s : SaturationCore ℝ) (sr : ℝ) (hsr : 0 < sr)
    (hne : s.currentSampleRate ≠ sr) :
    (0 ≤ (prepare s sr).sagAttack ∧ (prepare s sr).sagAttack ≤ 1)
      ∧ (0 ≤ (prepare s sr).sagRelease ∧ (prepare s sr).sagRelease ≤ 1) := by
  have key : ∀ k : ℝ, 0 < k → 0 ≤ 1 - Real.exp (-1 / (k * sr)) ∧ 1 - Real.exp (-1 / (k * sr)) ≤ 1 := by
    intro k hk
    have h1 : Real.exp (-1 / (k * sr)) ≤ 1 := by
      rw [Real.exp_le_one_iff]
      have : 0 < 1 / (k * sr) := by positivity
      have e : -1 / (k * sr) = -(1 / (k * sr)) := by ring
      rw [e]
      linarith
    have h2 := Real.exp_pos (-1 / (k * sr))
    constructor <;> linarith
  unfold prepare
  rw [if_neg hne]
  have ha := key 0.02 (by norm_num)
  have hr := key 0.10 (by norm_num)
  norm_num at ha hr ⊢
  exact ⟨ha, hr⟩

/-- Witness for C25: a fresh core after `prepare (44100)`, three calls with input
1/2. -/
theorem sag_envelope_bound_witness :
    0 ≤ (prepare (init : SaturationCore ℝ) 44100).sagAttack
      ∧ (prepare (init : SaturationCore ℝ) 44100).sagAttack ≤ 1
      ∧ 0 ≤ (prepare (init : SaturationCore ℝ) 44100).sagRelease
      ∧ (prepare (init : SaturationCore ℝ) 44100).sagRelease ≤ 1
      ∧ 0 ≤ (prepare (init : SaturationCore ℝ) 44100).sagEnvelope
      ∧ (∀ k : Nat, k < 3 → |(Call.mk (1 / 2 : ℝ) 0 6 (1 / 2)).inp| ≤ 1 / 2)
      ∧ (0 ≤ (runCalls (prepare (init : SaturationCore ℝ) 44100)
            (fun _ => Call.mk (1 / 2) 0 6 (1 / 2)) 3).sagEnvelope
        ∧ (runCalls (prepare (init : SaturationCore ℝ) 44100)
            (fun _ => Call.mk (1 / 2) 0 6 (1 / 2)) 3).sagEnvelope
          ≤ max (prepare (init : SaturationCore ℝ) 44100).sagEnvelope (1 / 2)) :=
  have hne : (init : SaturationCore ℝ).currentSampleRate ≠ 44100 := by
    norm_num [SaturationCore.init]
  have hp := prepare_sag_range init 44100 (by norm_num) hne
  have he : 0 ≤ (prepare (init : SaturationCore ℝ) 44100).sagEnvelope := by
    unfold prepare
    rw [if_neg hne]
    norm_num [SaturationCore.init]
  have hin : ∀ k : Nat, k < 3 → |(Call.mk (1 / 2 : ℝ) 0 6 (1 / 2)).inp| ≤ 1 / 2 := by
    intro _ _
    rw [abs_of_pos (by norm_num)]
  ⟨hp.1.1, hp.1.2, hp.2.1, hp.2.2, he, hin,
    (sag_envelope_bound (prepare init 44100) (fun _ => Call.mk (1 / 2) 0 6 (1 / 2)) (1 / 2) 3
      hp.1.1 hp.1.2 hp.2.1 hp.2.2 he hin).1⟩

/-- Witness for C28: a fresh core after `prepare (44100)`, bound `B = 1`. -/
theorem tape_preemphasis_stable_witness :
    (44100 : ℝ) ≤ 44100
      ∧ (prepare (init : SaturationCore ℝ) 44100).tapeCoefBase = 44100 / 44100
      ∧ |(prepare (init : SaturationCore ℝ) 44100).tapeFilterState| ≤ 2.5 * 1
      ∧ (∀ c : ℝ, 0 ≤ c → c ≤ 1 →
        0 < (0.05 + 0.55 * c) * (prepare (init : SaturationCore ℝ) 44100).tapeCoefBase
          ∧ (0.05 + 0.55 * c) * (prepare (init : SaturationCore ℝ) 44100).tapeCoefBase ≤ 0.6) :=
  have hne : (init : SaturationCore ℝ).currentSampleRate ≠ 44100 := by
    norm_num [SaturationCore.init]
  have h1 : (prepare (init : SaturationCore ℝ) 44100).tapeCoefBase = 44100 / 44100 := by
    unfold prepare
    rw [if_neg hne]
    norm_num
  have h2 : |(prepare (init : SaturationCore ℝ) 44100).tapeFilterState| ≤ 2.5 * 1 := by
    unfold prepare
    rw [if_neg hne]
    norm_num [SaturationCore.init]
  ⟨le_refl _, h1, h2, (tape_preemphasis_stable (prepare init 44100) 44100 1 (le_refl _) h1 h2).1⟩

end ExactPairs

end DspEngine
